import Mathlib

/-!
Shallow embedding of the marker-clustering engine of `vtkMapMarkerSet.cxx`
(class `vtkMapMarkerSet`).  Pointers to `ClusteringNode` objects are replaced
by natural-number node ids resolved through the arena `AllNodes`; `double`
becomes `ℚ`; the ordered `std::set` containers (children, level tables,
merge queues, pick deduplication) become strictly sorted `List ℕ`, fixing
the pointer-order nondeterminism of the original to ascending id order.  Dereferencing a null or dangling pointer and indexing a vector out
of range are undefined behaviour in the original; the model returns `none`
(a crash) there, so every fallible operation lives in `Option`.
`vtkMercator::lat2y` is code of this repository that is not under `src/`;
it is passed in as an abstract function argument `lat2y`.
-/

/- Batteries marks the `Rat` field operations irreducible, which blocks
`decide`/`rfl` evaluation of concrete states; restore the default
reducibility so concrete runs of the model can be evaluated. -/
set_option allowUnsafeReducibility true in
attribute [semireducible] Rat.mul Rat.inv Rat.add Rat.sub

namespace VtkMapMarkerSet

/-- Embedding of the internal class `vtkMapMarkerSet::ClusteringNode`
(`vtkMapMarkerSet.cxx` lines 49-59).  `gcsCoords[2]` is split into
`gcsX`/`gcsY`; the `Parent` pointer becomes `Option ℕ` (`none` = NULL);
the `Children` pointer set becomes a sorted list of node ids. -/
structure ClusteringNode where
  NodeId : ℕ
  Level : ℤ
  gcsX : ℚ
  gcsY : ℚ
  Parent : Option ℕ
  Children : List ℕ
  NumberOfMarkers : ℤ
  MarkerId : ℤ
deriving DecidableEq

/-- Embedding of `vtkMapMarkerSet::MapMarkerSetInternals` together with the
configuration members of `vtkMapMarkerSet` itself (`Clustering`,
`MaxClusterScaleFactor`) and the point-data arrays of `this->PolyData`
(`points`, `types`, `colors`, `scales`) that `Update` fills. -/
structure MarkerSetState where
  Clustering : Bool
  MaxClusterScaleFactor : ℚ
  MarkersChanged : Bool
  CurrentNodes : List ℕ
  ZoomLevel : ℤ
  NodeTable : List (List ℕ)
  NumberOfMarkers : ℕ
  ClusterDistance : ℚ
  NumberOfNodes : ℕ
  AllNodes : List (Option ClusteringNode)
  points : List (ℚ × ℚ)
  types : List ℕ
  colors : List (ℕ × ℕ × ℕ)
  scales : List ℚ
deriving DecidableEq

/-- `const int NumberOfClusterLevels = 20` (line 42). -/
def NumberOfClusterLevels : ℕ := 20

/-- State built by the constructor `vtkMapMarkerSet()` (lines 81-97), with
the configuration members `Clustering` and `MaxClusterScaleFactor` already
set to their desired values (they are set before use). -/
def initState (clustering : Bool) (k : ℚ) : MarkerSetState :=
  { Clustering := clustering
    MaxClusterScaleFactor := k
    MarkersChanged := false
    CurrentNodes := []
    ZoomLevel := -1
    NodeTable := List.replicate NumberOfClusterLevels []
    NumberOfMarkers := 0
    ClusterDistance := 80
    NumberOfNodes := 0
    AllNodes := []
    points := []
    types := []
    colors := []
    scales := [] }

/-- Arena lookup `this->Internals->AllNodes[i]`; a tombstoned (NULL) or
out-of-range entry yields `none`. -/
def getNode (s : MarkerSetState) (i : ℕ) : Option ClusteringNode :=
  s.AllNodes.getD i none

/-- Overwrite arena slot `i` with a live node (mutation of the pointed-to
object in the original). -/
def setNode (s : MarkerSetState) (i : ℕ) (n : ClusteringNode) : MarkerSetState :=
  { s with AllNodes := s.AllNodes.set i (some n) }

/-- `this->Internals->AllNodes[i] = NULL` (tombstone). -/
def killNode (s : MarkerSetState) (i : ℕ) : MarkerSetState :=
  { s with AllNodes := s.AllNodes.set i none }

/-- `this->Internals->NodeTable[l]` as a sorted list of node ids. -/
def tableAt (s : MarkerSetState) (l : ℕ) : List ℕ :=
  s.NodeTable.getD l []

/-- Replace the active-node set of level `l`. -/
def setTable (s : MarkerSetState) (l : ℕ) (t : List ℕ) : MarkerSetState :=
  { s with NodeTable := s.NodeTable.set l t }

/-- `std::set` insertion on a strictly sorted id list (no duplicates). -/
def insertSorted (i : ℕ) : List ℕ → List ℕ
  | [] => [i]
  | j :: rest =>
    if i < j then i :: j :: rest
    else if i = j then j :: rest
    else j :: insertSorted i rest

/-- `double level0Scale = 360.0 / 256.0` (line 555). -/
def level0Scale : ℚ := 360 / 256

/-- The scan loop of `FindClosestNode` (lines 563-583): walk the level's
active set, skip the probe itself, track the closest node strictly below
the running best squared distance (initially the squared threshold).
A dangling id in the set is a dangling-pointer dereference: `none`. -/
def fcLoop (s : MarkerSetState) (probe : ℕ) (px py : ℚ) :
    List ℕ → Option ℕ → ℚ → Option (Option ℕ)
  | [], best, _ => some best
  | o :: rest, best, bestD2 =>
    if o = probe then fcLoop s probe px py rest best bestD2
    else
      match getNode s o with
      | none => none
      | some other =>
        let d2 := (other.gcsX - px) * (other.gcsX - px) +
                  (other.gcsY - py) * (other.gcsY - py)
        if d2 < bestD2 then fcLoop s probe px py rest (some o) d2
        else fcLoop s probe px py rest best bestD2

/-- `vtkMapMarkerSet::FindClosestNode` (lines 550-586).  Converts the pixel
threshold to gcs units via `level0Scale / 2^zoomLevel`, then scans the
level's active set.  Outer `none` = crash, inner value = the result
(`none` = no node within threshold). -/
def findClosestNode (s : MarkerSetState) (nodeId : ℕ) (zoomLevel : ℕ)
    (distanceThreshold : ℚ) : Option (Option ℕ) :=
  match getNode s nodeId with
  | none => none
  | some n =>
    let scale := level0Scale / ((2 : ℚ) ^ zoomLevel)
    let gcsThreshold := scale * distanceThreshold
    fcLoop s nodeId n.gcsX n.gcsY (tableAt s zoomLevel) none
      (gcsThreshold * gcsThreshold)

/-- The child re-parenting loop of `MergeNodes` (lines 617-625): for each
child of the merging node, insert it into `node`'s children and point its
`Parent` at `node`. -/
def reparentChildren (nodeId : ℕ) : List ℕ → MarkerSetState → Option MarkerSetState
  | [], s => some s
  | c :: rest, s =>
    match getNode s nodeId with
    | none => none
    | some n =>
      let s1 := setNode s nodeId { n with Children := insertSorted c n.Children }
      match getNode s1 c with
      | none => none
      | some cn =>
        reparentChildren nodeId rest (setNode s1 c { cn with Parent := some nodeId })

/-- `vtkMapMarkerSet::MergeNodes` (lines 589-658).  Merges `mergingId` into
`nodeId` at `level`, threading the `parentsToMerge` queue (a sorted id
list).  The unconditional `node->Parent->NumberOfMarkers += n` and
`mergingNode->Parent->NumberOfMarkers -= n` dereferences (lines 630-631)
crash (`none`) when the respective parent is absent. -/
def mergeNodes (s : MarkerSetState) (nodeId mergingId : ℕ) (ptm : List ℕ)
    (level : ℕ) : Option (MarkerSetState × List ℕ) :=
  match getNode s nodeId, getNode s mergingId with
  | some node, some merging =>
    let numMarkers : ℤ := node.NumberOfMarkers + merging.NumberOfMarkers
    let denominator : ℚ := (numMarkers : ℚ)
    let nx := (node.gcsX * (node.NumberOfMarkers : ℚ) +
               merging.gcsX * (merging.NumberOfMarkers : ℚ)) / denominator
    let ny := (node.gcsY * (node.NumberOfMarkers : ℚ) +
               merging.gcsY * (merging.NumberOfMarkers : ℚ)) / denominator
    let s1 := setNode s nodeId
      { node with
        gcsX := nx
        gcsY := ny
        NumberOfMarkers := numMarkers
        MarkerId := -1 }
    match reparentChildren nodeId merging.Children s1 with
    | none => none
    | some s2 =>
      match getNode s2 mergingId with
      | none => none
      | some merging2 =>
        let n := merging2.NumberOfMarkers
        match getNode s2 nodeId with
        | none => none
        | some node2 =>
          match node2.Parent with
          | none => none
          | some pa =>
            match getNode s2 pa with
            | none => none
            | some pan =>
              let s3 := setNode s2 pa
                { pan with NumberOfMarkers := pan.NumberOfMarkers + n }
              match getNode s3 mergingId with
              | none => none
              | some merging3 =>
                match merging3.Parent with
                | none => none
                | some pb =>
                  match getNode s3 pb with
                  | none => none
                  | some pbn =>
                    let s4 := setNode s3 pb
                      { pbn with NumberOfMarkers := pbn.NumberOfMarkers - n }
                    match getNode s4 pb with
                    | none => none
                    | some pbn2 =>
                      let s5 := setNode s4 pb
                        { pbn2 with Children := pbn2.Children.erase mergingId }
                      match getNode s5 mergingId, getNode s5 nodeId with
                      | some merging4, some node3 =>
                        let ptm' :=
                          match merging4.Parent with
                          | none => ptm
                          | some mp =>
                            if some mp ≠ node3.Parent then insertSorted mp ptm
                            else ptm
                        let tbl := tableAt s5 level
                        let s6 :=
                          if tbl.count mergingId = 1 then
                            setTable s5 level (tbl.erase mergingId)
                          else s5
                        let s7 := killNode (killNode s6 merging4.NodeId) mergingId
                        some (s7, ptm')
                      | _, _ => none
  | _, _ => none

/-- The no-partner branch of the insertion climb (lines 180-198): copy the
climbing node one level coarser, link it as parent, insert it into the
level's active set. -/
def copyStep (s : MarkerSetState) (nodeId : ℕ) (level : ℕ) :
    Option (MarkerSetState × ℕ) :=
  match getNode s nodeId with
  | none => none
  | some node =>
    let newId := s.NumberOfNodes
    let newNode : ClusteringNode :=
      { NodeId := newId
        Level := (level : ℤ)
        gcsX := node.gcsX
        gcsY := node.gcsY
        Parent := none
        Children := [nodeId]
        NumberOfMarkers := node.NumberOfMarkers
        MarkerId := node.MarkerId }
    let s1 := { s with
                AllNodes := s.AllNodes ++ [some newNode]
                NumberOfNodes := s.NumberOfNodes + 1 }
    let s2 := setTable s1 level (insertSorted newId (tableAt s1 level))
    match getNode s2 nodeId with
    | none => none
    | some node2 =>
      some (setNode s2 nodeId { node2 with Parent := some newId }, newId)

/-- The partner-found branch of the insertion climb (lines 158-177): fold
the climbing node into `closest` (weighted average with denominator
`1 + closest.NumberOfMarkers`), attach it as a child, and re-point its
parent. -/
def climbMerge (s : MarkerSetState) (nodeId closestId : ℕ) :
    Option MarkerSetState :=
  match getNode s closestId with
  | none => none
  | some closest =>
    let denominator : ℚ := 1 + (closest.NumberOfMarkers : ℚ)
    match getNode s nodeId with
    | none => none
    | some node =>
      let nx := (closest.gcsX * (closest.NumberOfMarkers : ℚ) +
                 node.gcsX) / denominator
      let ny := (closest.gcsY * (closest.NumberOfMarkers : ℚ) +
                 node.gcsY) / denominator
      let s1 := setNode s closestId
        { closest with
          gcsX := nx
          gcsY := ny
          NumberOfMarkers := closest.NumberOfMarkers + 1
          MarkerId := -1
          Children := insertSorted nodeId closest.Children }
      match getNode s1 nodeId with
      | none => none
      | some node1 =>
        some (setNode s1 nodeId { node1 with Parent := some closestId })

/-- One iteration of the insertion climb at `level` (lines 154-199):
search for a partner; on success merge and report a break
(`Sum.inl (state, closestId)`), otherwise copy one level coarser and
continue (`Sum.inr (state, newId)`). -/
def climbStep (thr : ℚ) (s : MarkerSetState) (nodeId : ℕ) (level : ℕ) :
    Option ((MarkerSetState × ℕ) ⊕ (MarkerSetState × ℕ)) :=
  match findClosestNode s nodeId level thr with
  | none => none
  | some (some closestId) =>
    match climbMerge s nodeId closestId with
    | none => none
    | some s' => some (Sum.inl (s', closestId))
  | some none =>
    match copyStep s nodeId level with
    | none => none
    | some (s', newId) => some (Sum.inr (s', newId))

/-- The insertion climb from the given level down to level 0
(`for (; level >= 0; level--)`, lines 154-199).  Returns the state, the
current node (`closest` after a break, else the last copy), and
`some l` when the loop broke at level `l` (`none` when it ran out). -/
def climbLoop (thr : ℚ) : ℕ → MarkerSetState → ℕ →
    Option (MarkerSetState × ℕ × Option ℕ)
  | 0, s, nodeId =>
    match climbStep thr s nodeId 0 with
    | none => none
    | some (Sum.inl (s', c)) => some (s', c, some 0)
    | some (Sum.inr (s', n)) => some (s', n, none)
  | l + 1, s, nodeId =>
    match climbStep thr s nodeId (l + 1) with
    | none => none
    | some (Sum.inl (s', c)) => some (s', c, some (l + 1))
    | some (Sum.inr (s', n)) => climbLoop thr l s' n

/-- The merge sweep opening a refinement iteration (lines 214-230): merge
every queued node into the current node, skipping (with only a warning)
a queued node equal to the current node. -/
def refineMergeAll (level : ℕ) (nodeId : ℕ) :
    List ℕ → MarkerSetState → List ℕ → Option (MarkerSetState × List ℕ)
  | [], s, ptm => some (s, ptm)
  | m :: rest, s, ptm =>
    if m = nodeId then refineMergeAll level nodeId rest s ptm
    else
      match mergeNodes s nodeId m ptm level with
      | none => none
      | some (s', ptm') => refineMergeAll level nodeId rest s' ptm'

/-- The child sweep of the refinement recompute (lines 235-247):
accumulate the children's marker count and count-weighted coordinate sums.
A dangling child id is a dangling-pointer dereference. -/
def sumChildren (s : MarkerSetState) : List ℕ → Option (ℤ × ℚ × ℚ)
  | [] => some (0, 0, 0)
  | c :: rest =>
    match getNode s c with
    | none => none
    | some cn =>
      match sumChildren s rest with
      | none => none
      | some (m, x, y) =>
        some (m + cn.NumberOfMarkers,
              x + (cn.NumberOfMarkers : ℚ) * cn.gcsX,
              y + (cn.NumberOfMarkers : ℚ) * cn.gcsY)

/-- The full recompute of the current node from its direct children
(lines 234-254): `NumberOfMarkers` becomes the children's sum, the marker
id is cleared when the count exceeds 1, and the position becomes the
count-weighted average.  (The original divides by zero — NaN — on an
empty child set; `ℚ` division yields `0/0 = 0` there, a state no claim
depends on.) -/
def recomputeStep (s : MarkerSetState) (nodeId : ℕ) : Option MarkerSetState :=
  match getNode s nodeId with
  | none => none
  | some node =>
    match sumChildren s node.Children with
    | none => none
    | some (numMarkers, nx, ny) =>
      some (setNode s nodeId
        { node with
          NumberOfMarkers := numMarkers
          MarkerId := if numMarkers > 1 then -1 else node.MarkerId
          gcsX := nx / (numMarkers : ℚ)
          gcsY := ny / (numMarkers : ℚ) })

/-- One refinement iteration at `level` (lines 211-269): merge the queued
nodes, recompute the current node from its children, search for and merge
a new partner, then hand back the next queue and the parent node. -/
def refineStep (thr : ℚ) (s : MarkerSetState) (nodeId : ℕ) (queue : List ℕ)
    (level : ℕ) : Option (MarkerSetState × List ℕ × Option ℕ) :=
  match refineMergeAll level nodeId queue s [] with
  | none => none
  | some (s1, ptm1) =>
    match recomputeStep s1 nodeId with
    | none => none
    | some s2 =>
      match findClosestNode s2 nodeId level thr with
      | none => none
      | some closestResult =>
        match (match closestResult with
               | some c => mergeNodes s2 nodeId c ptm1 level
               | none => some (s2, ptm1)) with
        | none => none
        | some (s3, ptm2) =>
          match getNode s3 nodeId with
          | none => none
          | some node3 => some (s3, ptm2, node3.Parent)

/-- The refinement loop (`while (level >= 0)`, lines 211-270), iterating
`refineStep` from the given level down to level 0.  Entering an iteration
with no current node is the NULL dereference of the original. -/
def refineLoop (thr : ℚ) : ℕ → MarkerSetState → Option ℕ → List ℕ →
    Option MarkerSetState
  | _, _, none, _ => none
  | 0, s, some nodeId, queue =>
    match refineStep thr s nodeId queue 0 with
    | none => none
    | some (s', _, _) => some s'
  | l + 1, s, some nodeId, queue =>
    match refineStep thr s nodeId queue (l + 1) with
    | none => none
    | some (s', q', p) => refineLoop thr l s' p q'

/-- `vtkMapMarkerSet::AddMarker` (lines 122-298).  Allocates the marker id
and the leaf node; with clustering enabled runs the insertion climb from
level 18 and then the refinement cascade; finally marks the state
changed.  Returns the marker id with the new state, or `none` on the
crashes (NULL parent dereference in `MergeNodes`) the original can hit. -/
def addMarker (lat2y : ℚ → ℚ) (s : MarkerSetState) (latitude longitude : ℚ) :
    Option (ℕ × MarkerSetState) :=
  let markerId := s.NumberOfMarkers
  let s0 := { s with NumberOfMarkers := s.NumberOfMarkers + 1 }
  let leafId := s0.NumberOfNodes
  let leaf : ClusteringNode :=
    { NodeId := leafId
      Level := 0
      gcsX := longitude
      gcsY := lat2y latitude
      Parent := none
      Children := []
      NumberOfMarkers := 1
      MarkerId := (markerId : ℤ) }
  let s1 := { s0 with
              AllNodes := s0.AllNodes ++ [some leaf]
              NumberOfNodes := s0.NumberOfNodes + 1 }
  if s1.Clustering then
    let topLevel := s1.NodeTable.length - 1
    let s2 := setNode s1 leafId { leaf with Level := (topLevel : ℤ) }
    let s3 := setTable s2 topLevel (insertSorted leafId (tableAt s2 topLevel))
    let thr := s3.ClusterDistance
    match (if topLevel = 0 then some (s3, leafId, none)
           else climbLoop thr (topLevel - 1) s3 leafId) with
    | none => none
    | some (s4, cur, brokeAt) =>
      match getNode s4 cur with
      | none => none
      | some curNode =>
        match brokeAt with
        | none => some (markerId, { s4 with MarkersChanged := true })
        | some 0 => some (markerId, { s4 with MarkersChanged := true })
        | some (l + 1) =>
          match refineLoop thr l s4 curNode.Parent [] with
          | none => none
          | some s5 => some (markerId, { s5 with MarkersChanged := true })
  else
    some (markerId, { s1 with MarkersChanged := true })

/-- Fold `addMarker` over a list of `(latitude, longitude)` pairs. -/
def runAddMarkers (lat2y : ℚ → ℚ) (s : MarkerSetState) :
    List (ℚ × ℚ) → Option MarkerSetState
  | [] => some s
  | (la, lo) :: rest =>
    match addMarker lat2y s la lo with
    | none => none
    | some (_, s') => runAddMarkers lat2y s' rest

/-- The zoom clip opening `vtkMapMarkerSet::Update` (lines 388-392): only
values at or above `NumberOfClusterLevels` are clamped (down to 19);
nothing clamps from below. -/
def clipZoom (z : ℤ) : ℤ :=
  if z ≥ (NumberOfClusterLevels : ℤ) then (NumberOfClusterLevels : ℤ) - 1 else z

/-- `unsigned char kwBlue[] = {0, 83, 155}` (line 428). -/
def kwBlue : ℕ × ℕ × ℕ := (0, 83, 155)

/-- `unsigned char kwGreen[] = {0, 169, 179}` (line 429). -/
def kwGreen : ℕ × ℕ × ℕ := (0, 169, 179)

/-- The emission loop of `Update` (lines 441-460): for every node of the
resolved level's active set append its position, type tag (0 = marker,
1 = cluster), color and render scale, and record the node in
`CurrentNodes`. -/
def emitLoop (s : MarkerSetState) (k b : ℚ) :
    List ℕ → List ℕ → List (ℚ × ℚ) → List ℕ → List (ℕ × ℕ × ℕ) → List ℚ →
    Option (List ℕ × List (ℚ × ℚ) × List ℕ × List (ℕ × ℕ × ℕ) × List ℚ)
  | [], cn, ps, ts, cs, ss => some (cn, ps, ts, cs, ss)
  | i :: rest, cn, ps, ts, cs, ss =>
    match getNode s i with
    | none => none
    | some n =>
      if n.NumberOfMarkers = 1 then
        emitLoop s k b rest (cn ++ [i]) (ps ++ [(n.gcsX, n.gcsY)])
          (ts ++ [0]) (cs ++ [kwBlue]) (ss ++ [1])
      else
        let x : ℚ := (n.NumberOfMarkers : ℚ)
        emitLoop s k b rest (cn ++ [i]) (ps ++ [(n.gcsX, n.gcsY)])
          (ts ++ [1]) (cs ++ [kwGreen]) (ss ++ [k * x * x / (x * x + b)])

/-- `vtkMapMarkerSet::Update` (lines 380-466) with the externally supplied
map zoom as argument.  Clips the zoom from above, applies the two
early-return checks, forces level 0 when clustering is off, rebuilds the
output arrays from the resolved level's active set, then clears the
changed flag and stores the resolved level.  Indexing the node table out
of range (a negative zoom with clustering on) is undefined behaviour:
`none`. -/
def update (s : MarkerSetState) (mapZoom : ℤ) : Option MarkerSetState :=
  let zoomClipped := clipZoom mapZoom
  if s.Clustering = false ∧ s.MarkersChanged = false then some s
  else if s.Clustering = true ∧ s.MarkersChanged = false ∧
          zoomClipped = s.ZoomLevel then some s
  else
    let zoomLevel := if s.Clustering then zoomClipped else 0
    if 0 ≤ zoomLevel ∧ zoomLevel < (NumberOfClusterLevels : ℤ) then
      let k := s.MaxClusterScaleFactor
      let b := 4 * k - 4
      match emitLoop s k b (tableAt s zoomLevel.toNat) [] [] [] [] [] with
      | none => none
      | some (cn, ps, ts, cs, ss) =>
        some { s with
               CurrentNodes := cn
               points := ps
               types := ts
               colors := cs
               scales := ss
               MarkersChanged := false
               ZoomLevel := zoomLevel }
    else none

/-- The cell loop of `vtkMapMarkerSet::GetMarkerIds` (lines 511-545):
`inputPointOfCell` is the externally supplied composition of
`GetCellPoints` (first point) with the glyph's `InputPointIds` array,
mapping a rendered cell to the originating materialized-point index.
`seen` is the `std::set<vtkIdType> idSet` deduplicator. -/
def gmiLoop (s : MarkerSetState) (inputPointOfCell : ℕ → ℕ) :
    List ℕ → List ℕ → List ℤ → List ℤ → Option (List ℤ × List ℤ)
  | [], _, ms, cs => some (ms, cs)
  | cid :: rest, seen, ms, cs =>
    let p := inputPointOfCell cid
    if p ∈ seen then gmiLoop s inputPointOfCell rest seen ms cs
    else
      match s.CurrentNodes.get? p with
      | none => none
      | some nid =>
        match getNode s nid with
        | none => none
        | some n =>
          if n.NumberOfMarkers = 1 then
            gmiLoop s inputPointOfCell rest (insertSorted p seen)
              (ms ++ [n.MarkerId]) cs
          else
            gmiLoop s inputPointOfCell rest (insertSorted p seen)
              ms (cs ++ [(n.NodeId : ℤ)])

/-- `vtkMapMarkerSet::GetMarkerIds` (lines 493-547): resolve each selected
cell to the original marker id (single-marker node) or the cluster node
id, deduplicating by originating materialized point. -/
def getMarkerIds (s : MarkerSetState) (inputPointOfCell : ℕ → ℕ)
    (cellIds : List ℕ) : Option (List ℤ × List ℤ) :=
  gmiLoop s inputPointOfCell cellIds [] [] []


/-! ## Derived definitions used to state the claims -/

/-- The squared planar distance computed by the scan of `FindClosestNode`
from the probe position `(px, py)` to node `i` (junk on a dead id; the
specifications below always restrict to live ids). -/
def nodeD2 (s : MarkerSetState) (px py : ℚ) (i : ℕ) : ℚ :=
  match getNode s i with
  | none => 0
  | some n => (n.gcsX - px) * (n.gcsX - px) + (n.gcsY - py) * (n.gcsY - py)

/-- The subsequence of first occurrences of a list, skipping values already
in `seen`: the order in which `GetMarkerIds` actually processes distinct
originating points. -/
def firstOccFrom (seen : List ℕ) : List ℕ → List ℕ
  | [] => []
  | x :: xs =>
    if x ∈ seen then firstOccFrom seen xs
    else x :: firstOccFrom (insertSorted x seen) xs

/-- The clustering node behind materialized-point index `p` of the most
recent materialization. -/
def pointNode (s : MarkerSetState) (p : ℕ) : Option ClusteringNode :=
  (s.CurrentNodes.get? p).bind (getNode s)

/-- Pick resolution of one originating point to an original marker id
(only when its node holds exactly one marker). -/
def resolveAsMarker (s : MarkerSetState) (p : ℕ) : Option ℤ :=
  (pointNode s p).bind
    (fun n => if n.NumberOfMarkers = 1 then some n.MarkerId else none)

/-- Pick resolution of one originating point to a cluster node id
(only when its node aggregates several markers). -/
def resolveAsCluster (s : MarkerSetState) (p : ℕ) : Option ℤ :=
  (pointNode s p).bind
    (fun n => if n.NumberOfMarkers = 1 then none else some (n.NodeId : ℤ))

/-- A concrete clustered engine run: two markers one degree apart (they
merge at level 6 of the climb). -/
def sampleTwoClose : MarkerSetState :=
  (runAddMarkers (fun q => q) (initState true 2) [(0, 0), (0, 1)]).getD
    (initState true 2)

/-- `sampleTwoClose` materialized at zoom level 0. -/
def sampleTwoCloseUpdated : MarkerSetState :=
  (update sampleTwoClose 0).getD sampleTwoClose

/-- The position entry `Update` emits for node id `i` (junk on a dead id). -/
def emitPos (s : MarkerSetState) (i : ℕ) : ℚ × ℚ :=
  match getNode s i with
  | none => (0, 0)
  | some n => (n.gcsX, n.gcsY)

/-- The type tag `Update` emits for node id `i`: 0 (`MARKER_TYPE`) for a
single marker, 1 (`CLUSTER_TYPE`) for a cluster. -/
def emitType (s : MarkerSetState) (i : ℕ) : ℕ :=
  match getNode s i with
  | none => 0
  | some n => if n.NumberOfMarkers = 1 then 0 else 1

/-- The color `Update` emits for node id `i`. -/
def emitColor (s : MarkerSetState) (i : ℕ) : ℕ × ℕ × ℕ :=
  match getNode s i with
  | none => kwBlue
  | some n => if n.NumberOfMarkers = 1 then kwBlue else kwGreen

/-- The render scale `Update` emits for node id `i`: 1 for a single marker,
`k·x²/(x² + b)` with `x` the marker count for a cluster. -/
def emitScale (s : MarkerSetState) (k b : ℚ) (i : ℕ) : ℚ :=
  match getNode s i with
  | none => 0
  | some n =>
    if n.NumberOfMarkers = 1 then 1
    else k * (n.NumberOfMarkers : ℚ) * (n.NumberOfMarkers : ℚ) /
      ((n.NumberOfMarkers : ℚ) * (n.NumberOfMarkers : ℚ) + b)

/-- Hand-built five-node state (a 2-marker tree over levels 0-2) used as a
concrete witness input. -/
def wfcN0 : ClusteringNode := ⟨0, 1, 0, 0, some 2, [3], 1, 0⟩

/-- Second level-1 node of the witness state, one degree east. -/
def wfcN1 : ClusteringNode := ⟨1, 1, 1, 0, some 2, [4], 1, 1⟩

/-- Level-0 root of the witness state. -/
def wfcN2 : ClusteringNode := ⟨2, 0, 0, 0, none, [0, 1], 2, -1⟩

/-- Level-2 leaf of the witness state under `wfcN0`. -/
def wfcN3 : ClusteringNode := ⟨3, 2, 0, 0, some 0, [], 1, 0⟩

/-- Level-2 leaf of the witness state under `wfcN1`. -/
def wfcN4 : ClusteringNode := ⟨4, 2, 1, 0, some 1, [], 1, 1⟩

/-- The witness state assembling `wfcN0`-`wfcN4`. -/
def wfcState : MarkerSetState :=
  { initState true 2 with
    AllNodes := [some wfcN0, some wfcN1, some wfcN2, some wfcN3, some wfcN4]
    NumberOfNodes := 5
    NodeTable := [[2], [0, 1], [3, 4]] ++ List.replicate 17 [] }

/-- A three-marker clustered run (two near-coincident markers and one far
away) materialized at level 0, used as a concrete pick-resolution input. -/
def samplePick : MarkerSetState :=
  ((runAddMarkers (fun q => q) (initState true 2)
      [(0, 0), (1/10000, 1/10000), (45, -122)]).bind
    (fun s => update s 0)).getD (initState true 2)

/-- Fold `std::set` insertion of every element of `cl` into `base`: the
children set of a merge target after re-parenting. -/
def unionSorted (base cl : List ℕ) : List ℕ :=
  cl.foldl (fun acc c => insertSorted c acc) base

/-- All components of the engine state except the arena and the level
table are unchanged (the scalar counters, configuration and the emitted
arrays). -/
def framePreserved (s s' : MarkerSetState) : Prop :=
  s'.Clustering = s.Clustering ∧ s'.MaxClusterScaleFactor = s.MaxClusterScaleFactor ∧
  s'.MarkersChanged = s.MarkersChanged ∧ s'.CurrentNodes = s.CurrentNodes ∧
  s'.ZoomLevel = s.ZoomLevel ∧ s'.NumberOfMarkers = s.NumberOfMarkers ∧
  s'.ClusterDistance = s.ClusterDistance ∧ s'.NumberOfNodes = s.NumberOfNodes ∧
  s'.points = s.points ∧ s'.types = s.types ∧ s'.colors = s.colors ∧
  s'.scales = s.scales

/-- Two-root witness state, first level-1 node (under root 4). -/
def wmN0 : ClusteringNode := ⟨0, 1, 0, 0, some 4, [2], 1, 0⟩

/-- Two-root witness state, second level-1 node (under root 5). -/
def wmN1 : ClusteringNode := ⟨1, 1, 1, 0, some 5, [3], 1, 1⟩

/-- Level-2 leaf under `wmN0`. -/
def wmN2 : ClusteringNode := ⟨2, 2, 0, 0, some 0, [], 1, 0⟩

/-- Level-2 leaf under `wmN1`. -/
def wmN3 : ClusteringNode := ⟨3, 2, 1, 0, some 1, [], 1, 1⟩

/-- First level-0 root of the two-root witness state. -/
def wmN4 : ClusteringNode := ⟨4, 0, 0, 0, none, [0], 1, 0⟩

/-- Second level-0 root of the two-root witness state. -/
def wmN5 : ClusteringNode := ⟨5, 0, 1, 0, none, [1], 1, 1⟩

/-- The two-root witness state (two separate chains over levels 0-2). -/
def wmState : MarkerSetState :=
  { initState true 2 with
    AllNodes := [some wmN0, some wmN1, some wmN2, some wmN3,
                 some wmN4, some wmN5]
    NumberOfNodes := 6
    NodeTable := [[4, 5], [0, 1], [2, 3]] ++ List.replicate 17 [] }

/-- The marker count of node `i` as the refinement recompute reads it
(0 on a dead id). -/
def nodeCount (s : MarkerSetState) (i : ℕ) : ℤ :=
  match getNode s i with
  | none => 0
  | some n => n.NumberOfMarkers

/-- The x coordinate of node `i` (0 on a dead id). -/
def nodeGcsX (s : MarkerSetState) (i : ℕ) : ℚ :=
  match getNode s i with
  | none => 0
  | some n => n.gcsX

/-- The y coordinate of node `i` (0 on a dead id). -/
def nodeGcsY (s : MarkerSetState) (i : ℕ) : ℚ :=
  match getNode s i with
  | none => 0
  | some n => n.gcsY

/-- Sum of the marker counts of a child list. -/
def childrenCountSum (s : MarkerSetState) (cl : List ℕ) : ℤ :=
  (cl.map (nodeCount s)).sum

/-- Count-weighted sum of the x coordinates of a child list. -/
def childrenMomentX (s : MarkerSetState) (cl : List ℕ) : ℚ :=
  (cl.map (fun c => ((nodeCount s c : ℤ) : ℚ) * nodeGcsX s c)).sum

/-- Count-weighted sum of the y coordinates of a child list. -/
def childrenMomentY (s : MarkerSetState) (cl : List ℕ) : ℚ :=
  (cl.map (fun c => ((nodeCount s c : ℤ) : ℚ) * nodeGcsY s c)).sum

/-- The aggregation invariant of one node: when it has children, its
marker count is the sum of its children's counts and its position times
its count is the count-weighted sum of its children's positions. -/
def nodeOK (s : MarkerSetState) (n : ClusteringNode) : Prop :=
  n.Children ≠ [] →
    n.NumberOfMarkers = childrenCountSum s n.Children ∧
    n.gcsX * ((n.NumberOfMarkers : ℤ) : ℚ) = childrenMomentX s n.Children ∧
    n.gcsY * ((n.NumberOfMarkers : ℤ) : ℚ) = childrenMomentY s n.Children

/-- Structural well-formedness of a clustering-mode engine state: the
level table has its 20 sets; arena slots are indexed by node id and the
arena's size is the node counter; every level set holds live nodes of
that level, sorted by id, and conversely every live node is registered in
its level's set; child and parent links are coherent and one level
apart; child lists are sorted. -/
structure Core (s : MarkerSetState) : Prop where
  clustering : s.Clustering = true
  ntblLen : s.NodeTable.length = NumberOfClusterLevels
  arenaLen : s.AllNodes.length = s.NumberOfNodes
  arenaId : ∀ i n, getNode s i = some n → n.NodeId = i
  tableLive : ∀ l i, i ∈ tableAt s l → ∃ n, getNode s i = some n ∧ n.Level = (l : ℤ)
  complete : ∀ i n, getNode s i = some n →
    0 ≤ n.Level ∧ n.Level < (NumberOfClusterLevels : ℤ) ∧
    i ∈ tableAt s n.Level.toNat
  sorted : ∀ l, List.Sorted (· < ·) (tableAt s l)
  childSorted : ∀ i n, getNode s i = some n → List.Sorted (· < ·) n.Children
  childCoh : ∀ i n, getNode s i = some n → ∀ c ∈ n.Children,
    ∃ cn, getNode s c = some cn ∧ cn.Parent = some i ∧ cn.Level = n.Level + 1
  parentCoh : ∀ i n p, getNode s i = some n → n.Parent = some p →
    ∃ pn, getNode s p = some pn ∧ i ∈ pn.Children ∧ pn.Level = n.Level - 1

/-- The finest level's active set holds exactly one live single-marker
node per inserted marker, in insertion order, carrying the original
marker ids 0..N−1. -/
def table19OK (s : MarkerSetState) : Prop :=
  (tableAt s (NumberOfClusterLevels - 1)).map
      (fun i => (getNode s i).map
        (fun n => (n.NumberOfMarkers, n.MarkerId))) =
    (List.range s.NumberOfMarkers).map
      (fun j : ℕ => some ((1 : ℤ), (j : ℤ)))

/-- Every live node satisfies the aggregation invariant. -/
def allOK (s : MarkerSetState) : Prop :=
  ∀ i n, getNode s i = some n → nodeOK s n

/-- Every live node holds at least one marker. -/
def allCpos (s : MarkerSetState) : Prop :=
  ∀ i n, getNode s i = some n → 1 ≤ n.NumberOfMarkers

/-- Every live node below the finest level has children. -/
def allNonempty (s : MarkerSetState) : Prop :=
  ∀ i n, getNode s i = some n →
    n.Level ≤ (NumberOfClusterLevels : ℤ) - 2 → n.Children ≠ []

/-- Every live node above level 0 has a parent. -/
def allParentEx (s : MarkerSetState) : Prop :=
  ∀ i n, getNode s i = some n → 1 ≤ n.Level → ∃ p, n.Parent = some p

/-- The boundary invariant holding between `AddMarker` calls of a
clustering-mode engine. -/
def BInv (s : MarkerSetState) : Prop :=
  Core s ∧ table19OK s ∧ allOK s ∧ allCpos s ∧ allNonempty s ∧ allParentEx s

/-- The nodes exempt from the aggregation invariant on entry to a
refinement iteration: the current node, the queued nodes, and the parents
of both. -/
def refExc (s : MarkerSetState) (path : ℕ) (queue : List ℕ) (i : ℕ) : Prop :=
  i = path ∨ i ∈ queue ∨
  (∃ pn, getNode s path = some pn ∧ pn.Parent = some i) ∨
  (∃ q, q ∈ queue ∧ ∃ qn, getNode s q = some qn ∧ qn.Parent = some i)

/-- The nodes exempt from the aggregation invariant in the middle of the
merge sweep of a refinement iteration: the current node, its parent and
grandparent, the still-queued nodes and their parents, and the collected
coarser merge candidates and their parents. -/
def midExc (s : MarkerSetState) (path pa : ℕ) (rest acc : List ℕ)
    (i : ℕ) : Prop :=
  i = path ∨ i = pa ∨
  (∃ pan, getNode s pa = some pan ∧ pan.Parent = some i) ∨
  i ∈ rest ∨ i ∈ acc ∨
  (∃ q, (q ∈ rest ∨ q ∈ acc) ∧ ∃ qn, getNode s q = some qn ∧ qn.Parent = some i)

/-- The invariant of the insertion climb: structural well-formedness with
everything aggregate-exact, plus a parentless, unreferenced, single-marker
climbing node one level finer than the climb position. -/
structure CInv (s : MarkerSetState) (lvl cur : ℕ) : Prop where
  core : Core s
  t19 : table19OK s
  ok : allOK s
  cpos : allCpos s
  ne : allNonempty s
  pex : ∀ i n, getNode s i = some n → 1 ≤ n.Level → i ≠ cur →
    ∃ p, n.Parent = some p
  cur_live : ∃ n, getNode s cur = some n ∧ n.Level = (lvl : ℤ) + 1 ∧
    n.Parent = none ∧ n.NumberOfMarkers = 1
  fresh : ∀ i n, getNode s i = some n → cur ∉ n.Children

/-- The invariant at the head of a refinement iteration: structural
well-formedness, the current node registered at the iteration's level
with its queue, and the aggregation invariant everywhere except at the
current node, the queued nodes, and their parents. -/
structure RInv (s : MarkerSetState) (lvl : ℕ) (path : ℕ)
    (queue : List ℕ) : Prop where
  core : Core s
  t19 : table19OK s
  pex : allParentEx s
  pathMem : path ∈ tableAt s lvl
  pathNe : path ∉ queue
  qSub : ∀ q ∈ queue, q ∈ tableAt s lvl
  qSorted : List.Sorted (· < ·) queue
  pathNonempty : ∀ n, getNode s path = some n → n.Children ≠ []
  ok : ∀ i n, getNode s i = some n → ¬ refExc s path queue i → nodeOK s n
  cpos : ∀ i n, getNode s i = some n → ¬ refExc s path queue i →
    1 ≤ n.NumberOfMarkers
  ne : ∀ i n, getNode s i = some n →
    n.Level ≤ (NumberOfClusterLevels : ℤ) - 2 → i ∉ queue →
    n.Children ≠ []

/-! ## Basic lemmas about the state primitives -/

theorem getNode_lt_length {s : MarkerSetState} {i : ℕ} {n : ClusteringNode}
    (h : getNode s i = some n) : i < s.AllNodes.length := by
  by_contra hge
  simp only [getNode, List.getD_eq_getElem?_getD] at h
  rw [List.getElem?_eq_none (by omega)] at h
  simp at h

theorem getNode_setNode_self {s : MarkerSetState} {i : ℕ} {m : ClusteringNode}
    (n : ClusteringNode) (h : getNode s i = some m) :
    getNode (setNode s i n) i = some n := by
  have hlt := getNode_lt_length h
  simp [getNode, setNode, List.getD_eq_getElem?_getD, List.getElem?_set_self hlt]

theorem getNode_setNode_ne {s : MarkerSetState} {i j : ℕ}
    (n : ClusteringNode) (h : i ≠ j) :
    getNode (setNode s i n) j = getNode s j := by
  simp [getNode, setNode, List.getD_eq_getElem?_getD, List.getElem?_set_ne h]

theorem getNode_killNode_self {s : MarkerSetState} {i : ℕ} {m : ClusteringNode}
    (h : getNode s i = some m) : getNode (killNode s i) i = none := by
  have hlt := getNode_lt_length h
  simp [getNode, killNode, List.getD_eq_getElem?_getD, List.getElem?_set_self hlt]

theorem getNode_killNode_ne {s : MarkerSetState} {i j : ℕ} (h : i ≠ j) :
    getNode (killNode s i) j = getNode s j := by
  simp [getNode, killNode, List.getD_eq_getElem?_getD, List.getElem?_set_ne h]

theorem framePreserved_refl (s : MarkerSetState) : framePreserved s s :=
  ⟨rfl, rfl, rfl, rfl, rfl, rfl, rfl, rfl, rfl, rfl, rfl, rfl⟩

theorem framePreserved_trans {s t u : MarkerSetState}
    (h1 : framePreserved s t) (h2 : framePreserved t u) :
    framePreserved s u := by
  obtain ⟨a1, a2, a3, a4, a5, a6, a7, a8, a9, a10, a11, a12⟩ := h1
  obtain ⟨b1, b2, b3, b4, b5, b6, b7, b8, b9, b10, b11, b12⟩ := h2
  exact ⟨b1.trans a1, b2.trans a2, b3.trans a3, b4.trans a4, b5.trans a5,
    b6.trans a6, b7.trans a7, b8.trans a8, b9.trans a9, b10.trans a10,
    b11.trans a11, b12.trans a12⟩

theorem framePreserved_setNode (s : MarkerSetState) (i : ℕ)
    (n : ClusteringNode) : framePreserved s (setNode s i n) :=
  ⟨rfl, rfl, rfl, rfl, rfl, rfl, rfl, rfl, rfl, rfl, rfl, rfl⟩

theorem framePreserved_killNode (s : MarkerSetState) (i : ℕ) :
    framePreserved s (killNode s i) :=
  ⟨rfl, rfl, rfl, rfl, rfl, rfl, rfl, rfl, rfl, rfl, rfl, rfl⟩

theorem framePreserved_setTable (s : MarkerSetState) (l : ℕ) (t : List ℕ) :
    framePreserved s (setTable s l t) :=
  ⟨rfl, rfl, rfl, rfl, rfl, rfl, rfl, rfl, rfl, rfl, rfl, rfl⟩

theorem length_setNode (s : MarkerSetState) (i : ℕ) (n : ClusteringNode) :
    (setNode s i n).AllNodes.length = s.AllNodes.length := by
  simp [setNode]

theorem length_killNode (s : MarkerSetState) (i : ℕ) :
    (killNode s i).AllNodes.length = s.AllNodes.length := by
  simp [killNode]

theorem length_setTable (s : MarkerSetState) (l : ℕ) (t : List ℕ) :
    (setTable s l t).AllNodes.length = s.AllNodes.length := rfl

theorem ntblLength_setNode (s : MarkerSetState) (i : ℕ) (n : ClusteringNode) :
    (setNode s i n).NodeTable.length = s.NodeTable.length := rfl

theorem ntblLength_killNode (s : MarkerSetState) (i : ℕ) :
    (killNode s i).NodeTable.length = s.NodeTable.length := rfl

theorem ntblLength_setTable (s : MarkerSetState) (l : ℕ) (t : List ℕ) :
    (setTable s l t).NodeTable.length = s.NodeTable.length := by
  simp [setTable]

theorem getNode_killNode_none {s : MarkerSetState} {i : ℕ}
    (h : getNode s i = none) : getNode (killNode s i) i = none := by
  by_cases hlt : i < s.AllNodes.length
  · simp [getNode, killNode, List.getD_eq_getElem?_getD, List.getElem?_set_self hlt]
  · rw [killNode]
    rw [List.set_eq_of_length_le (by omega)]
    exact h

theorem tableAt_setNode (s : MarkerSetState) (i : ℕ) (n : ClusteringNode)
    (l : ℕ) : tableAt (setNode s i n) l = tableAt s l := rfl

theorem tableAt_killNode (s : MarkerSetState) (i : ℕ) (l : ℕ) :
    tableAt (killNode s i) l = tableAt s l := rfl

theorem getNode_setTable (s : MarkerSetState) (l : ℕ) (t : List ℕ) (i : ℕ) :
    getNode (setTable s l t) i = getNode s i := rfl

theorem mem_insertSorted {i j : ℕ} : ∀ {l : List ℕ},
    i ∈ insertSorted j l ↔ i = j ∨ i ∈ l := by
  intro l
  induction l with
  | nil => simp [insertSorted]
  | cons x xs ih =>
    by_cases h1 : j < x
    · rw [insertSorted, if_pos h1]
      simp only [List.mem_cons]
      try tauto
    · by_cases h2 : j = x
      · rw [insertSorted, if_neg h1, if_pos h2, h2]
        simp only [List.mem_cons]
        try tauto
      · rw [insertSorted, if_neg h1, if_neg h2]
        simp only [List.mem_cons, ih]
        try tauto

/-! ## Claims settled by concrete evaluation -/

/-- C4: the claim says `AddMarker` always succeeds.  It does not: with
clustering enabled, inserting markers at longitudes 0 and 113 (two separate
chains down to level 0, which are farther apart than the level-0 threshold
112.5) and then one at longitude 56 makes the climb merge at level 1 and
the refinement pass find the other root at level 0; `MergeNodes` then
executes `node->Parent->NumberOfMarkers += n` with `node` a level-0 root
whose `Parent` is NULL — a crash, so the third call never returns. -/
theorem addMarker_crash_null_parent :
    runAddMarkers (fun q => q) (initState true 2)
      [(0, 0), (0, 113), (0, 56)] = none := by
  rfl

/-- C5: with clustering disabled, `AddMarker` never inserts the node into
any level's active set, yet `Update` materializes from level 0's active
set; after one marker the emitted arrays are empty, not one point-type
entry at the marker's projected position as the claim states. -/
theorem update_nonclustering_emits_nothing :
    ((runAddMarkers (fun q => q) (initState false 2) [(10, 20)]).bind
        (fun s => update s 0)).map
      (fun s => (s.points, s.types, s.scales)) = some ([], [], []) := by
  rfl

/-- C6, counterexample: the zoom clip of `Update` only clamps from above,
so a negative externally supplied zoom level passes through unclamped and
indexes the node table out of range (modeled as the crash `none`). -/
theorem clipZoom_negative_unclamped :
    clipZoom (-3) = -3 ∧ clipZoom (-3) < 0 ∧
    update (initState true 2) (-3) = none := by
  refine ⟨by decide, by decide, by rfl⟩

/-- C6, amended: the resolved zoom level is clamped only from above
(values at or past 20 become 19); every nonnegative input resolves inside
[0, 20) and is passed through unchanged when it is already below 20, so
only nonnegative inputs give a valid level-table index. -/
theorem clipZoom_valid_of_nonneg (z : ℤ) (h : 0 ≤ z) :
    0 ≤ clipZoom z ∧ clipZoom z < (NumberOfClusterLevels : ℤ) ∧
    (z < (NumberOfClusterLevels : ℤ) → clipZoom z = z) ∧
    ((NumberOfClusterLevels : ℤ) ≤ z →
      clipZoom z = (NumberOfClusterLevels : ℤ) - 1) := by
  have h20 : ((NumberOfClusterLevels : ℕ) : ℤ) = 20 := by decide
  unfold clipZoom
  rw [h20]
  split_ifs with hz <;> omega

/-- Witness for the amended C6 at the concrete out-of-range input 25. -/
theorem clipZoom_valid_of_nonneg_witness :
    0 ≤ (25 : ℤ) ∧
    (0 ≤ clipZoom 25 ∧ clipZoom 25 < (NumberOfClusterLevels : ℤ) ∧
     ((25 : ℤ) < (NumberOfClusterLevels : ℤ) → clipZoom 25 = 25) ∧
     ((NumberOfClusterLevels : ℤ) ≤ (25 : ℤ) →
       clipZoom 25 = (NumberOfClusterLevels : ℤ) - 1)) :=
  ⟨by decide, clipZoom_valid_of_nonneg 25 (by decide)⟩

/-- C7, counterexample: with the configurable asymptote `k = 0`, a cluster
of two markers is materialized with render scale `0·4/(4 + (4·0 - 4))`,
which is not the claimed 1.0 (the original computes the equally unequal
NaN `0/0`; `ℚ` division gives 0), so "scale exactly 1.0 for every k"
fails at k = 0. -/
theorem clusterScale_not_one_at_zero_k :
    ((runAddMarkers (fun q => q) (initState true 0) [(0, 0), (0, 1)]).bind
        (fun s => update s 0)).map
      (fun s => (s.CurrentNodes.map
          (fun i => (getNode s i).map ClusteringNode.NumberOfMarkers),
        s.scales)) = some ([some 2], [0]) ∧ (0 : ℚ) ≠ 1 := by
  refine ⟨by rfl, by norm_num⟩

theorem emitLoop_eq (s : MarkerSetState) (k b : ℚ) :
    ∀ (ids cn : List ℕ) (ps : List (ℚ × ℚ)) (ts : List ℕ)
      (cs : List (ℕ × ℕ × ℕ)) (ss : List ℚ) out,
      emitLoop s k b ids cn ps ts cs ss = some out →
      (∀ i ∈ ids, (getNode s i).isSome) ∧
      out = (cn ++ ids, ps ++ ids.map (emitPos s), ts ++ ids.map (emitType s),
             cs ++ ids.map (emitColor s), ss ++ ids.map (emitScale s k b)) := by
  intro ids
  induction ids with
  | nil =>
    intro cn ps ts cs ss out h
    simp only [emitLoop, Option.some_inj] at h
    simp [← h]
  | cons i rest ih =>
    intro cn ps ts cs ss out h
    simp only [emitLoop] at h
    cases hg : getNode s i with
    | none => rw [hg] at h; exact absurd h (by simp)
    | some n =>
      rw [hg] at h
      simp only at h
      by_cases h1 : n.NumberOfMarkers = 1
      · rw [if_pos h1] at h
        obtain ⟨hlive, hout⟩ := ih _ _ _ _ _ _ h
        refine ⟨?_, ?_⟩
        · intro j hj
          rcases List.mem_cons.mp hj with rfl | hj
          · simp [hg]
          · exact hlive j hj
        · rw [hout]
          simp [emitPos, emitType, emitColor, emitScale, hg, h1]
      · rw [if_neg h1] at h
        obtain ⟨hlive, hout⟩ := ih _ _ _ _ _ _ h
        refine ⟨?_, ?_⟩
        · intro j hj
          rcases List.mem_cons.mp hj with rfl | hj
          · simp [hg]
          · exact hlive j hj
        · rw [hout]
          simp [emitPos, emitType, emitColor, emitScale, hg, h1]

theorem update_rebuild (s : MarkerSetState) (z : ℤ) (s' : MarkerSetState)
    (h : update s z = some s')
    (hA : ¬(s.Clustering = false ∧ s.MarkersChanged = false))
    (hB : ¬(s.Clustering = true ∧ s.MarkersChanged = false ∧
            clipZoom z = s.ZoomLevel)) :
    ∃ lvl : ℕ, (lvl : ℤ) = (if s.Clustering then clipZoom z else 0) ∧
      (∀ i ∈ tableAt s lvl, (getNode s i).isSome) ∧
      s' = { s with
             CurrentNodes := tableAt s lvl
             points := (tableAt s lvl).map (emitPos s)
             types := (tableAt s lvl).map (emitType s)
             colors := (tableAt s lvl).map (emitColor s)
             scales := (tableAt s lvl).map
               (emitScale s s.MaxClusterScaleFactor
                 (4 * s.MaxClusterScaleFactor - 4))
             MarkersChanged := false
             ZoomLevel := (if s.Clustering then clipZoom z else 0) } := by
  unfold update at h
  rw [if_neg hA, if_neg hB] at h
  dsimp only at h
  by_cases hb : 0 ≤ (if s.Clustering then clipZoom z else 0) ∧
      (if s.Clustering then clipZoom z else 0) < (NumberOfClusterLevels : ℤ)
  · rw [if_pos hb] at h
    cases hemit : emitLoop s s.MaxClusterScaleFactor
        (4 * s.MaxClusterScaleFactor - 4)
        (tableAt s (if s.Clustering then clipZoom z else 0).toNat)
        [] [] [] [] [] with
    | none => rw [hemit] at h; exact absurd h (by simp)
    | some out =>
      rw [hemit] at h
      obtain ⟨out1, out2, out3, out4, out5⟩ := out
      obtain ⟨hlive, hout⟩ := emitLoop_eq s _ _ _ _ _ _ _ _ _ hemit
      simp only [Prod.mk.injEq] at hout
      obtain ⟨h1, h2, h3, h4, h5⟩ := hout
      refine ⟨(if s.Clustering then clipZoom z else 0).toNat, by omega, hlive, ?_⟩
      simp only [Option.some_inj] at h
      rw [← h]
      simp [h1, h2, h3, h4, h5]
  · rw [if_neg hb] at h
    exact absurd h (by simp)

/-- C7, amended: every materialized node is emitted with render scale 1
when it holds a single marker, and otherwise with scale `k·x²/(x² + b)`
where `x` is its marker count, `k` the configured maximum cluster scale
factor and `b = 4k − 4`; in particular a 2-member cluster is emitted at
scale exactly 1.0 for every nonzero `k` (at `k = 0` the denominator is 0
and the scale is not 1). -/
theorem update_scale_formula (s : MarkerSetState) (z : ℤ) (s' : MarkerSetState)
    (h : update s z = some s') (hch : s.MarkersChanged = true)
    (j nid : ℕ) (hj : s'.CurrentNodes[j]? = some nid) :
    ∃ n, getNode s nid = some n ∧
      s'.scales[j]? = some (if n.NumberOfMarkers = 1 then 1
        else s.MaxClusterScaleFactor * (n.NumberOfMarkers : ℚ) *
            (n.NumberOfMarkers : ℚ) /
          ((n.NumberOfMarkers : ℚ) * (n.NumberOfMarkers : ℚ) +
            (4 * s.MaxClusterScaleFactor - 4))) ∧
      (n.NumberOfMarkers = 2 → s.MaxClusterScaleFactor ≠ 0 →
        s'.scales[j]? = some 1) := by
  obtain ⟨lvl, hlvl, hlive, rfl⟩ :=
    update_rebuild s z s' h (by simp [hch]) (by simp [hch])
  have hj' : (tableAt s lvl)[j]? = some nid := hj
  have hmem : nid ∈ tableAt s lvl := by
    have := List.getElem?_eq_some_iff.mp hj'
    obtain ⟨hlt, hv⟩ := this
    exact hv ▸ List.getElem_mem hlt
  have hsome := hlive nid hmem
  cases hn : getNode s nid with
  | none => rw [hn] at hsome; exact absurd hsome (by simp)
  | some n =>
    have hscale : ((tableAt s lvl).map
        (emitScale s s.MaxClusterScaleFactor
          (4 * s.MaxClusterScaleFactor - 4)))[j]? =
        some (emitScale s s.MaxClusterScaleFactor
          (4 * s.MaxClusterScaleFactor - 4) nid) := by
      rw [List.getElem?_map, hj']
      rfl
    refine ⟨n, rfl, ?_, ?_⟩
    · show ((tableAt s lvl).map
        (emitScale s s.MaxClusterScaleFactor
          (4 * s.MaxClusterScaleFactor - 4)))[j]? = _
      rw [hscale]
      simp only [Option.some_inj, emitScale, hn]
    · intro h2 hk
      show ((tableAt s lvl).map
        (emitScale s s.MaxClusterScaleFactor
          (4 * s.MaxClusterScaleFactor - 4)))[j]? = _
      rw [hscale]
      simp only [Option.some_inj, emitScale, hn]
      rw [if_neg (by rw [h2]; norm_num)]
      have hcast : (n.NumberOfMarkers : ℚ) = 2 := by rw [h2]; norm_num
      rw [hcast]
      have h4k : (2 : ℚ) * 2 + (4 * s.MaxClusterScaleFactor - 4) =
          4 * s.MaxClusterScaleFactor := by ring
      have hnum : s.MaxClusterScaleFactor * 2 * 2 =
          4 * s.MaxClusterScaleFactor := by ring
      rw [h4k, hnum, div_self (mul_ne_zero (by norm_num) hk)]

/-- C8: materializing twice at the same zoom level with no intervening
insertion is idempotent: if the first `Update` returned, the second
detects that nothing changed (the first cleared the changed flag and
stored the resolved level) and returns the state unchanged — all emitted
arrays and the stored node list included. -/
theorem update_idempotent (s : MarkerSetState) (z : ℤ) (s' : MarkerSetState)
    (h : update s z = some s') : update s' z = some s' := by
  by_cases hA : s.Clustering = false ∧ s.MarkersChanged = false
  · unfold update at h
    rw [if_pos hA] at h
    simp only [Option.some_inj] at h
    subst h
    unfold update
    rw [if_pos hA]
  · by_cases hB : s.Clustering = true ∧ s.MarkersChanged = false ∧
        clipZoom z = s.ZoomLevel
    · unfold update at h
      rw [if_neg hA, if_pos hB] at h
      simp only [Option.some_inj] at h
      subst h
      unfold update
      rw [if_neg hA, if_pos hB]
    · obtain ⟨lvl, hlvl, hlive, rfl⟩ := update_rebuild s z s' h hA hB
      unfold update
      by_cases hcl : s.Clustering = true
      · rw [if_neg (by simp [hcl]), if_pos (by simp [hcl])]
      · rw [if_pos (by simp [Bool.not_eq_true] at hcl; simp [hcl])]

/-- Witness for C7's amended theorem on the concrete two-marker cluster
(node 19, marker count 2, `k = 2`). -/
theorem update_scale_formula_witness :
    update sampleTwoClose 0 = some sampleTwoCloseUpdated ∧
    sampleTwoClose.MarkersChanged = true ∧
    sampleTwoCloseUpdated.CurrentNodes[0]? = some 19 ∧
    (∃ n, getNode sampleTwoClose 19 = some n ∧
      sampleTwoCloseUpdated.scales[0]? = some (if n.NumberOfMarkers = 1 then 1
        else sampleTwoClose.MaxClusterScaleFactor * (n.NumberOfMarkers : ℚ) *
            (n.NumberOfMarkers : ℚ) /
          ((n.NumberOfMarkers : ℚ) * (n.NumberOfMarkers : ℚ) +
            (4 * sampleTwoClose.MaxClusterScaleFactor - 4))) ∧
      (n.NumberOfMarkers = 2 → sampleTwoClose.MaxClusterScaleFactor ≠ 0 →
        sampleTwoCloseUpdated.scales[0]? = some 1)) :=
  ⟨by decide, by decide, by decide,
   update_scale_formula sampleTwoClose 0 sampleTwoCloseUpdated (by decide)
     (by decide) 0 19 (by decide)⟩

/-- Witness for C8 on a concrete clustered run materialized at level 0. -/
theorem update_idempotent_witness :
    update sampleTwoClose 0 = some sampleTwoCloseUpdated ∧
    update sampleTwoCloseUpdated 0 = some sampleTwoCloseUpdated :=
  ⟨by decide,
   update_idempotent sampleTwoClose 0 sampleTwoCloseUpdated (by decide)⟩

theorem fcLoop_spec (s : MarkerSetState) (probe : ℕ) (px py : ℚ) :
    ∀ (L : List ℕ) (best : Option ℕ) (bd2 : ℚ),
      (∀ i ∈ L, i ≠ probe → (getNode s i).isSome) →
      ∃ r, fcLoop s probe px py L best bd2 = some r ∧
        ((r = best ∧ ∀ o ∈ L.filter (· ≠ probe), bd2 ≤ nodeD2 s px py o) ∨
         (∃ m, r = some m ∧ m ∈ L.filter (· ≠ probe) ∧
            nodeD2 s px py m < bd2 ∧
            (∀ o ∈ L.filter (· ≠ probe), nodeD2 s px py m ≤ nodeD2 s px py o) ∧
            ∃ pre suf, L.filter (· ≠ probe) = pre ++ m :: suf ∧
              ∀ o ∈ pre, nodeD2 s px py m < nodeD2 s px py o)) := by
  intro L
  induction L with
  | nil =>
    intro best bd2 _
    exact ⟨best, rfl, Or.inl ⟨rfl, by simp⟩⟩
  | cons o rest ih =>
    intro best bd2 hlive
    by_cases ho : o = probe
    · subst ho
      have hfil : (o :: rest).filter (· ≠ o) = rest.filter (· ≠ o) := by
        simp [List.filter_cons]
      obtain ⟨r, hr, hc⟩ := ih best bd2 (fun i hi => hlive i (List.mem_cons_of_mem _ hi))
      refine ⟨r, ?_, ?_⟩
      · rw [fcLoop, if_pos rfl]
        exact hr
      · rw [hfil]
        exact hc
    · obtain ⟨onode, hon⟩ := Option.isSome_iff_exists.mp
        (hlive o (List.mem_cons_self _ _) ho)
      have hfil : (o :: rest).filter (· ≠ probe) = o :: rest.filter (· ≠ probe) := by
        simp [List.filter_cons, ho]
      have hd2 : ((onode.gcsX - px) * (onode.gcsX - px) +
          (onode.gcsY - py) * (onode.gcsY - py)) = nodeD2 s px py o := by
        rw [nodeD2, hon]
      by_cases hlt : ((onode.gcsX - px) * (onode.gcsX - px) +
          (onode.gcsY - py) * (onode.gcsY - py)) < bd2
      · obtain ⟨r, hr, hc⟩ := ih (some o)
          ((onode.gcsX - px) * (onode.gcsX - px) + (onode.gcsY - py) * (onode.gcsY - py))
          (fun i hi => hlive i (List.mem_cons_of_mem _ hi))
        refine ⟨r, ?_, ?_⟩
        · rw [fcLoop, if_neg ho, hon]
          simp only
          rw [if_pos hlt]
          exact hr
        · rw [hfil]
          rw [hd2] at hlt
          rcases hc with ⟨rfl, hall⟩ | ⟨m, hm, hmem, hmlt, hmin, pre, suf, heq, hpre⟩
          · refine Or.inr ⟨o, rfl, List.mem_cons_self _ _, hlt, ?_, [],
              rest.filter (· ≠ probe), rfl, by simp⟩
            intro o' ho'
            rcases List.mem_cons.mp ho' with rfl | ho'
            · exact le_refl _
            · rw [hd2] at hall
              exact hall o' ho'
          · rw [hd2] at hmlt
            refine Or.inr ⟨m, hm, List.mem_cons_of_mem _ hmem,
              lt_trans hmlt hlt, ?_, o :: pre, suf, by rw [heq, List.cons_append], ?_⟩
            · intro o' ho'
              rcases List.mem_cons.mp ho' with rfl | ho'
              · exact le_of_lt hmlt
              · exact hmin o' ho'
            · intro o' ho'
              rcases List.mem_cons.mp ho' with rfl | ho'
              · exact hmlt
              · exact hpre o' ho'
      · obtain ⟨r, hr, hc⟩ := ih best bd2
          (fun i hi => hlive i (List.mem_cons_of_mem _ hi))
        refine ⟨r, ?_, ?_⟩
        · rw [fcLoop, if_neg ho, hon]
          simp only
          rw [if_neg hlt]
          exact hr
        · rw [hfil]
          rw [hd2] at hlt
          rcases hc with ⟨rfl, hall⟩ | ⟨m, hm, hmem, hmlt, hmin, pre, suf, heq, hpre⟩
          · refine Or.inl ⟨rfl, ?_⟩
            intro o' ho'
            rcases List.mem_cons.mp ho' with rfl | ho'
            · exact le_of_not_lt hlt
            · exact hall o' ho'
          · refine Or.inr ⟨m, hm, List.mem_cons_of_mem _ hmem, hmlt, ?_,
              o :: pre, suf, by rw [heq, List.cons_append], ?_⟩
            · intro o' ho'
              rcases List.mem_cons.mp ho' with rfl | ho'
              · exact le_of_lt (lt_of_lt_of_le hmlt (le_of_not_lt hlt))
              · exact hmin o' ho'
            · intro o' ho'
              rcases List.mem_cons.mp ho' with rfl | ho'
              · exact lt_of_lt_of_le hmlt (le_of_not_lt hlt)
              · exact hpre o' ho'

/-- C2: for every live probe node, level and pixel threshold (all scanned
ids live), `FindClosestNode` converts the threshold to projected units via
`scale(level) = (360/256)/2^level`, scans every other active node at the
level, and returns `none` exactly when no other node's squared planar
distance is strictly below the squared converted threshold; when it
returns a node, that node is among the scanned others, strictly within
the threshold, of minimal squared distance, and on exact ties the first
node encountered in the scan wins (every earlier node is strictly
farther). -/
theorem findClosestNode_spec (s : MarkerSetState) (probe lvl : ℕ) (thr : ℚ)
    (pn : ClusteringNode) (hpn : getNode s probe = some pn)
    (hl : ∀ i ∈ tableAt s lvl, i ≠ probe → (getNode s i).isSome) :
    ∃ r, findClosestNode s probe lvl thr = some r ∧
      ((r = none ↔ ∀ o ∈ (tableAt s lvl).filter (· ≠ probe),
          (level0Scale / 2 ^ lvl * thr) * (level0Scale / 2 ^ lvl * thr) ≤
            nodeD2 s pn.gcsX pn.gcsY o) ∧
       ∀ m, r = some m →
         m ∈ (tableAt s lvl).filter (· ≠ probe) ∧
         nodeD2 s pn.gcsX pn.gcsY m <
           (level0Scale / 2 ^ lvl * thr) * (level0Scale / 2 ^ lvl * thr) ∧
         (∀ o ∈ (tableAt s lvl).filter (· ≠ probe),
            nodeD2 s pn.gcsX pn.gcsY m ≤ nodeD2 s pn.gcsX pn.gcsY o) ∧
         ∃ pre suf, (tableAt s lvl).filter (· ≠ probe) = pre ++ m :: suf ∧
           ∀ o ∈ pre, nodeD2 s pn.gcsX pn.gcsY m < nodeD2 s pn.gcsX pn.gcsY o) := by
  obtain ⟨r, hr, hc⟩ := fcLoop_spec s probe pn.gcsX pn.gcsY (tableAt s lvl)
    none ((level0Scale / 2 ^ lvl * thr) * (level0Scale / 2 ^ lvl * thr)) hl
  refine ⟨r, ?_, ?_, ?_⟩
  · simp only [findClosestNode, hpn]
    exact hr
  · constructor
    · intro hnone
      rcases hc with ⟨_, hall⟩ | ⟨m, hm, _⟩
      · exact hall
      · rw [hnone] at hm
        exact absurd hm (by simp)
    · intro hall
      rcases hc with ⟨rfl, _⟩ | ⟨m, hm, hmem, hlt, _⟩
      · rfl
      · exact absurd hlt (not_lt.mpr (hall m hmem))
  · intro m hm
    rcases hc with ⟨rfl, _⟩ | ⟨m', hm', hmem, hlt, hmin, hps⟩
    · exact absurd hm (by simp)
    · rw [hm'] at hm
      obtain rfl := Option.some_inj.mp hm
      exact ⟨hmem, hlt, hmin, hps⟩

/-- Witness for C2 on the five-node state: probe 0 at level 1 with the
default 80-pixel threshold finds node 1 (one degree away, within the
level-1 threshold of 56.25 degrees). -/
theorem findClosestNode_spec_witness :
    getNode wfcState 0 = some wfcN0 ∧
    (∀ i ∈ tableAt wfcState 1, i ≠ 0 → (getNode wfcState i).isSome) ∧
    (∃ r, findClosestNode wfcState 0 1 80 = some r ∧
      ((r = none ↔ ∀ o ∈ (tableAt wfcState 1).filter (· ≠ 0),
          (level0Scale / 2 ^ 1 * 80) * (level0Scale / 2 ^ 1 * 80) ≤
            nodeD2 wfcState wfcN0.gcsX wfcN0.gcsY o) ∧
       ∀ m, r = some m →
         m ∈ (tableAt wfcState 1).filter (· ≠ 0) ∧
         nodeD2 wfcState wfcN0.gcsX wfcN0.gcsY m <
           (level0Scale / 2 ^ 1 * 80) * (level0Scale / 2 ^ 1 * 80) ∧
         (∀ o ∈ (tableAt wfcState 1).filter (· ≠ 0),
            nodeD2 wfcState wfcN0.gcsX wfcN0.gcsY m ≤
              nodeD2 wfcState wfcN0.gcsX wfcN0.gcsY o) ∧
         ∃ pre suf, (tableAt wfcState 1).filter (· ≠ 0) = pre ++ m :: suf ∧
           ∀ o ∈ pre, nodeD2 wfcState wfcN0.gcsX wfcN0.gcsY m <
             nodeD2 wfcState wfcN0.gcsX wfcN0.gcsY o)) :=
  ⟨by decide, by decide,
   findClosestNode_spec wfcState 0 1 80 wfcN0 (by decide) (by decide)⟩

theorem gmiLoop_spec (s : MarkerSetState) (f : ℕ → ℕ) :
    ∀ (cells seen : List ℕ) (ms cs : List ℤ) out,
      gmiLoop s f cells seen ms cs = some out →
      out.1 = ms ++ (firstOccFrom seen (cells.map f)).filterMap
        (resolveAsMarker s) ∧
      out.2 = cs ++ (firstOccFrom seen (cells.map f)).filterMap
        (resolveAsCluster s) ∧
      ∀ p ∈ firstOccFrom seen (cells.map f), (pointNode s p).isSome := by
  intro cells
  induction cells with
  | nil =>
    intro seen ms cs out h
    simp only [gmiLoop, Option.some_inj] at h
    simp [← h, firstOccFrom]
  | cons cid rest ih =>
    intro seen ms cs out h
    simp only [gmiLoop] at h
    simp only [List.map_cons, firstOccFrom]
    by_cases hseen : f cid ∈ seen
    · rw [if_pos hseen] at h ⊢
      exact ih seen ms cs out h
    · rw [if_neg hseen] at h ⊢
      cases hnid : s.CurrentNodes.get? (f cid) with
      | none => rw [hnid] at h; exact absurd h (by simp)
      | some nid =>
        rw [hnid] at h
        simp only at h
        cases hn : getNode s nid with
        | none => rw [hn] at h; exact absurd h (by simp)
        | some n =>
          rw [hn] at h
          simp only at h
          have hpoint : pointNode s (f cid) = some n := by
            rw [pointNode, hnid]
            exact hn
          by_cases h1 : n.NumberOfMarkers = 1
          · rw [if_pos h1] at h
            obtain ⟨h1', h2', h3'⟩ := ih _ _ _ _ h
            have hres : resolveAsMarker s (f cid) = some n.MarkerId := by
              rw [resolveAsMarker, hpoint]
              simp [h1]
            have hres2 : resolveAsCluster s (f cid) = none := by
              rw [resolveAsCluster, hpoint]
              simp [h1]
            refine ⟨?_, ?_, ?_⟩
            · rw [h1', List.filterMap_cons, hres]
              simp
            · rw [h2', List.filterMap_cons, hres2]
            · intro p hp
              rcases List.mem_cons.mp hp with rfl | hp
              · simp [hpoint]
              · exact h3' p hp
          · rw [if_neg h1] at h
            obtain ⟨h1', h2', h3'⟩ := ih _ _ _ _ h
            have hres : resolveAsMarker s (f cid) = none := by
              rw [resolveAsMarker, hpoint]
              simp [h1]
            have hres2 : resolveAsCluster s (f cid) = some (n.NodeId : ℤ) := by
              rw [resolveAsCluster, hpoint]
              simp [h1]
            refine ⟨?_, ?_, ?_⟩
            · rw [h1', List.filterMap_cons, hres]
            · rw [h2', List.filterMap_cons, hres2]
              simp
            · intro p hp
              rcases List.mem_cons.mp hp with rfl | hp
              · simp [hpoint]
              · exact h3' p hp

theorem resolve_length (s : MarkerSetState) :
    ∀ L : List ℕ, (∀ p ∈ L, (pointNode s p).isSome) →
      (L.filterMap (resolveAsMarker s)).length +
        (L.filterMap (resolveAsCluster s)).length = L.length := by
  intro L
  induction L with
  | nil => simp
  | cons p rest ih =>
    intro hlive
    have hp := hlive p (List.mem_cons_self _ _)
    cases hn : pointNode s p with
    | none => rw [hn] at hp; exact absurd hp (by simp)
    | some n =>
      have ihr := ih (fun q hq => hlive q (List.mem_cons_of_mem _ hq))
      by_cases h1 : n.NumberOfMarkers = 1
      · rw [List.filterMap_cons, List.filterMap_cons]
        rw [show resolveAsMarker s p = some n.MarkerId by
              rw [resolveAsMarker, hn]; simp [h1],
            show resolveAsCluster s p = none by
              rw [resolveAsCluster, hn]; simp [h1]]
        simp only [List.length_cons]
        omega
      · rw [List.filterMap_cons, List.filterMap_cons]
        rw [show resolveAsMarker s p = none by
              rw [resolveAsMarker, hn]; simp [h1],
            show resolveAsCluster s p = some (n.NodeId : ℤ) by
              rw [resolveAsCluster, hn]; simp [h1]]
        simp only [List.length_cons]
        omega

/-- C9: pick resolution maps the selected cells through the externally
supplied cell-to-originating-point mapping, deduplicates to the first
occurrence of each distinct originating materialized point, and resolves
each such point to exactly one result: the original marker id when the
node holds one marker, the cluster node's id otherwise (one output entry
per distinct originating point in total). -/
theorem getMarkerIds_spec (s : MarkerSetState) (f : ℕ → ℕ) (cells : List ℕ)
    (ms cs : List ℤ) (h : getMarkerIds s f cells = some (ms, cs)) :
    ms = (firstOccFrom [] (cells.map f)).filterMap (resolveAsMarker s) ∧
    cs = (firstOccFrom [] (cells.map f)).filterMap (resolveAsCluster s) ∧
    ms.length + cs.length = (firstOccFrom [] (cells.map f)).length := by
  obtain ⟨h1, h2, h3⟩ := gmiLoop_spec s f cells [] [] [] (ms, cs) h
  simp only [List.nil_append] at h1 h2
  exact ⟨h1, h2, by rw [h1, h2]; exact resolve_length s _ h3⟩

/-- Witness for C9: four selected cells map (via `cell % 2`) to originating
points 0, 1, 0, 1; deduplication leaves points 0 and 1, resolved to the
cluster node 19 and the single marker 2. -/
theorem getMarkerIds_spec_witness :
    getMarkerIds samplePick (fun c => c % 2) [0, 1, 2, 3] =
      some ([2], [19]) ∧
    ((([2] : List ℤ)) = (firstOccFrom []
        (([0, 1, 2, 3] : List ℕ).map (fun c => c % 2))).filterMap
          (resolveAsMarker samplePick) ∧
     (([19] : List ℤ)) = (firstOccFrom []
        (([0, 1, 2, 3] : List ℕ).map (fun c => c % 2))).filterMap
          (resolveAsCluster samplePick) ∧
     ([2] : List ℤ).length + ([19] : List ℤ).length =
       (firstOccFrom [] (([0, 1, 2, 3] : List ℕ).map
         (fun c => c % 2))).length) :=
  ⟨by decide,
   getMarkerIds_spec samplePick (fun c => c % 2) [0, 1, 2, 3] [2] [19]
     (by decide)⟩

theorem tableAt_setTable_self {s : MarkerSetState} {l : ℕ}
    (h : l < s.NodeTable.length) (t : List ℕ) :
    tableAt (setTable s l t) l = t := by
  simp [tableAt, setTable, List.getD_eq_getElem?_getD, List.getElem?_set_self h]

theorem tableAt_setTable_ne {l l' : ℕ} (s : MarkerSetState) (t : List ℕ)
    (h : l ≠ l') : tableAt (setTable s l t) l' = tableAt s l' := by
  simp [tableAt, setTable, List.getD_eq_getElem?_getD, List.getElem?_set_ne h]

theorem lt_length_of_tableAt_ne_nil {s : MarkerSetState} {l : ℕ}
    (h : tableAt s l ≠ []) : l < s.NodeTable.length := by
  by_contra hge
  rw [tableAt, List.getD_eq_getElem?_getD, List.getElem?_eq_none (by omega)] at h
  simp at h

theorem reparentChildren_spec (nodeId : ℕ) :
    ∀ (cl : List ℕ) (s : MarkerSetState) (nd : ClusteringNode),
      getNode s nodeId = some nd →
      (∀ c ∈ cl, c ≠ nodeId ∧ (getNode s c).isSome) →
      ∃ s', reparentChildren nodeId cl s = some s' ∧
        framePreserved s s' ∧ s'.NodeTable = s.NodeTable ∧
        s'.AllNodes.length = s.AllNodes.length ∧
        getNode s' nodeId =
          some { nd with Children := unionSorted nd.Children cl } ∧
        (∀ c ∈ cl, ∃ cn, getNode s c = some cn ∧
          getNode s' c = some { cn with Parent := some nodeId }) ∧
        (∀ j, j ≠ nodeId → j ∉ cl → getNode s' j = getNode s j) := by
  intro cl
  induction cl with
  | nil =>
    intro s nd hnd _
    exact ⟨s, rfl, framePreserved_refl s, rfl, rfl, hnd, by simp, fun j _ _ => rfl⟩
  | cons c rest ih =>
    intro s nd hnd hcl
    obtain ⟨hcne, hclive⟩ := hcl c (List.mem_cons_self _ _)
    obtain ⟨cn, hcn⟩ := Option.isSome_iff_exists.mp hclive
    have hstep : reparentChildren nodeId (c :: rest) s =
        reparentChildren nodeId rest
          (setNode (setNode s nodeId
            { nd with Children := insertSorted c nd.Children }) c
            { cn with Parent := some nodeId }) := by
      rw [reparentChildren, hnd]
      simp only
      rw [getNode_setNode_ne _ (fun h => hcne h.symm), hcn]
    set s1 := setNode s nodeId { nd with Children := insertSorted c nd.Children }
      with hs1
    set s2 := setNode s1 c { cn with Parent := some nodeId } with hs2
    have hs2node : getNode s2 nodeId =
        some { nd with Children := insertSorted c nd.Children } := by
      rw [hs2, getNode_setNode_ne _ hcne, hs1, getNode_setNode_self _ hnd]
    have hs2other : ∀ j, j ≠ nodeId → j ≠ c → getNode s2 j = getNode s j := by
      intro j hj1 hj2
      rw [hs2, getNode_setNode_ne _ (fun h => hj2 h.symm),
          hs1, getNode_setNode_ne _ (fun h => hj1 h.symm)]
    have hs2c : getNode s2 c = some { cn with Parent := some nodeId } := by
      have : getNode s1 c = some cn := by
        rw [hs1, getNode_setNode_ne _ (fun h => hcne h.symm)]
        exact hcn
      rw [hs2, getNode_setNode_self _ this]
    have hrest : ∀ c' ∈ rest, c' ≠ nodeId ∧ (getNode s2 c').isSome := by
      intro c' hc'
      obtain ⟨h1, h2⟩ := hcl c' (List.mem_cons_of_mem _ hc')
      refine ⟨h1, ?_⟩
      by_cases hcc : c' = c
      · subst hcc
        rw [hs2c]
        rfl
      · rw [hs2other c' h1 hcc]
        exact h2
    obtain ⟨s', hrc, hfr, hntbl, hlen, hnode, hch, hother⟩ :=
      ih s2 { nd with Children := insertSorted c nd.Children } hs2node hrest
    refine ⟨s', by rw [hstep]; exact hrc, ?_, ?_, ?_, ?_, ?_, ?_⟩
    · refine framePreserved_trans ?_ hfr
      refine framePreserved_trans ?_ (framePreserved_setNode s1 c _)
      rw [hs1]
      exact framePreserved_setNode s nodeId _
    · rw [hntbl, hs2, hs1]
      rfl
    · rw [hlen, hs2, hs1]
      simp [setNode]
    · rw [hnode]
      simp [unionSorted, List.foldl_cons]
    · intro c' hc'
      rcases List.mem_cons.mp hc' with rfl | hc'
      · by_cases hcc : c' ∈ rest
        · obtain ⟨cn2, hcn2, hcn2'⟩ := hch c' hcc
          rw [hs2c] at hcn2
          refine ⟨cn, hcn, ?_⟩
          rw [hcn2']
          simp only [Option.some_inj] at hcn2
          rw [← hcn2]
        · refine ⟨cn, hcn, ?_⟩
          rw [hother c' hcne hcc]
          exact hs2c
      · obtain ⟨cn2, hcn2, hcn2'⟩ := hch c' hc'
        obtain ⟨h1, _⟩ := hcl c' (List.mem_cons_of_mem _ hc')
        by_cases hcc : c' = c
        · subst hcc
          rw [hs2c] at hcn2
          refine ⟨cn, hcn, ?_⟩
          rw [hcn2']
          simp only [Option.some_inj] at hcn2
          rw [← hcn2]
        · rw [hs2other c' h1 hcc] at hcn2
          exact ⟨cn2, hcn2, hcn2'⟩
    · intro j hj1 hj2
      rw [hother j hj1 (fun h => hj2 (List.mem_cons_of_mem _ h)),
          hs2other j hj1 (fun h => hj2 (h ▸ List.mem_cons_self _ _))]

theorem mergeNodes_spec (s : MarkerSetState) (a b pa pb : ℕ) (ptm : List ℕ)
    (level : ℕ) (na nb npa npb : ClusteringNode)
    (ha : getNode s a = some na) (hb : getNode s b = some nb)
    (hab : a ≠ b)
    (hpa : na.Parent = some pa) (hpalive : getNode s pa = some npa)
    (hpb : nb.Parent = some pb) (hpblive : getNode s pb = some npb)
    (hpaa : pa ≠ a) (hpab : pa ≠ b) (hpba : pb ≠ a) (hpbb : pb ≠ b)
    (hpapb : pa ≠ pb) (hid : nb.NodeId = b)
    (hch : ∀ c ∈ nb.Children,
      c ≠ a ∧ c ≠ b ∧ c ≠ pa ∧ c ≠ pb ∧ (getNode s c).isSome) :
    ∃ s', mergeNodes s a b ptm level = some (s', insertSorted pb ptm) ∧
      getNode s' a = some { na with
        gcsX := (na.gcsX * (na.NumberOfMarkers : ℚ) +
            nb.gcsX * (nb.NumberOfMarkers : ℚ)) /
          ((na.NumberOfMarkers + nb.NumberOfMarkers : ℤ) : ℚ)
        gcsY := (na.gcsY * (na.NumberOfMarkers : ℚ) +
            nb.gcsY * (nb.NumberOfMarkers : ℚ)) /
          ((na.NumberOfMarkers + nb.NumberOfMarkers : ℤ) : ℚ)
        Children := unionSorted na.Children nb.Children
        NumberOfMarkers := na.NumberOfMarkers + nb.NumberOfMarkers
        MarkerId := -1 } ∧
      getNode s' b = none ∧
      (∀ c ∈ nb.Children, ∃ cn, getNode s c = some cn ∧
        getNode s' c = some { cn with Parent := some a }) ∧
      getNode s' pa = some { npa with
        NumberOfMarkers := npa.NumberOfMarkers + nb.NumberOfMarkers } ∧
      getNode s' pb = some { npb with
        NumberOfMarkers := npb.NumberOfMarkers - nb.NumberOfMarkers
        Children := npb.Children.erase b } ∧
      (∀ j, j ≠ a → j ≠ b → j ≠ pa → j ≠ pb → j ∉ nb.Children →
        getNode s' j = getNode s j) ∧
      tableAt s' level = (if (tableAt s level).count b = 1 then
        (tableAt s level).erase b else tableAt s level) ∧
      (∀ l, l ≠ level → tableAt s' l = tableAt s l) ∧
      s'.AllNodes.length = s.AllNodes.length ∧
      s'.NodeTable.length = s.NodeTable.length ∧
      framePreserved s s' := by
  have hreph : ∀ c ∈ nb.Children, c ≠ a ∧
      (getNode (setNode s a { na with
        gcsX := (na.gcsX * (na.NumberOfMarkers : ℚ) +
            nb.gcsX * (nb.NumberOfMarkers : ℚ)) /
          ((na.NumberOfMarkers + nb.NumberOfMarkers : ℤ) : ℚ)
        gcsY := (na.gcsY * (na.NumberOfMarkers : ℚ) +
            nb.gcsY * (nb.NumberOfMarkers : ℚ)) /
          ((na.NumberOfMarkers + nb.NumberOfMarkers : ℤ) : ℚ)
        NumberOfMarkers := na.NumberOfMarkers + nb.NumberOfMarkers
        MarkerId := -1 }) c).isSome := by
    intro c hc
    obtain ⟨h1, _, _, _, h5⟩ := hch c hc
    refine ⟨h1, ?_⟩
    rw [getNode_setNode_ne _ (fun h => h1 h.symm)]
    exact h5
  obtain ⟨s2, hrc, hfr2, hntbl2, hlen2, hs2a, hs2c, hs2o⟩ :=
    reparentChildren_spec a nb.Children _ _
      (getNode_setNode_self { na with
        gcsX := (na.gcsX * (na.NumberOfMarkers : ℚ) +
            nb.gcsX * (nb.NumberOfMarkers : ℚ)) /
          ((na.NumberOfMarkers + nb.NumberOfMarkers : ℤ) : ℚ)
        gcsY := (na.gcsY * (na.NumberOfMarkers : ℚ) +
            nb.gcsY * (nb.NumberOfMarkers : ℚ)) /
          ((na.NumberOfMarkers + nb.NumberOfMarkers : ℤ) : ℚ)
        NumberOfMarkers := na.NumberOfMarkers + nb.NumberOfMarkers
        MarkerId := -1 } ha) hreph
  have hs2other : ∀ j, j ≠ a → j ∉ nb.Children →
      getNode s2 j = getNode s j := by
    intro j h1 h2
    rw [hs2o j h1 h2, getNode_setNode_ne _ (fun h => h1 h.symm)]
  have hs2b : getNode s2 b = some nb :=
    (hs2other b (fun h => hab h.symm) (fun h => ((hch b h).2.1 rfl))).trans hb
  have hs2pa : getNode s2 pa = some npa :=
    (hs2other pa hpaa (fun h => ((hch pa h).2.2.1 rfl))).trans hpalive
  have hs2pb : getNode s2 pb = some npb :=
    (hs2other pb hpba (fun h => ((hch pb h).2.2.2.1 rfl))).trans hpblive
  have hntbl2' : s2.NodeTable = s.NodeTable := hntbl2.trans rfl
  have hs2tbl : ∀ l, tableAt s2 l = tableAt s l := by
    intro l
    rw [tableAt, tableAt, hntbl2']
  have hs3b : getNode (setNode s2 pa { npa with NumberOfMarkers :=
      npa.NumberOfMarkers + nb.NumberOfMarkers }) b = some nb := by
    rw [getNode_setNode_ne _ hpab]
    exact hs2b
  have hs3pb : getNode (setNode s2 pa { npa with NumberOfMarkers :=
      npa.NumberOfMarkers + nb.NumberOfMarkers }) pb = some npb := by
    rw [getNode_setNode_ne _ hpapb]
    exact hs2pb
  have hs4pb : getNode (setNode (setNode s2 pa { npa with NumberOfMarkers :=
        npa.NumberOfMarkers + nb.NumberOfMarkers }) pb
      { npb with NumberOfMarkers :=
        npb.NumberOfMarkers - nb.NumberOfMarkers }) pb =
      some { npb with NumberOfMarkers :=
        npb.NumberOfMarkers - nb.NumberOfMarkers } :=
    getNode_setNode_self _ hs3pb
  -- state after all five arena writes
  have hs5other : ∀ j, j ≠ pa → j ≠ pb →
      getNode (setNode (setNode (setNode s2 pa
        { npa with NumberOfMarkers :=
          npa.NumberOfMarkers + nb.NumberOfMarkers }) pb
        { npb with NumberOfMarkers :=
          npb.NumberOfMarkers - nb.NumberOfMarkers }) pb
        { npb with NumberOfMarkers := npb.NumberOfMarkers - nb.NumberOfMarkers
                   Children := npb.Children.erase b }) j = getNode s2 j := by
    intro j h1 h2
    rw [getNode_setNode_ne _ (fun h => h2 h.symm),
        getNode_setNode_ne _ (fun h => h2 h.symm),
        getNode_setNode_ne _ (fun h => h1 h.symm)]
  have hs5a : getNode (setNode (setNode (setNode s2 pa
      { npa with NumberOfMarkers :=
        npa.NumberOfMarkers + nb.NumberOfMarkers }) pb
      { npb with NumberOfMarkers :=
        npb.NumberOfMarkers - nb.NumberOfMarkers }) pb
      { npb with NumberOfMarkers := npb.NumberOfMarkers - nb.NumberOfMarkers
                 Children := npb.Children.erase b }) a =
      getNode s2 a := hs5other a (fun h => hpaa h.symm) (fun h => hpba h.symm)
  have hs5b : getNode (setNode (setNode (setNode s2 pa
      { npa with NumberOfMarkers :=
        npa.NumberOfMarkers + nb.NumberOfMarkers }) pb
      { npb with NumberOfMarkers :=
        npb.NumberOfMarkers - nb.NumberOfMarkers }) pb
      { npb with NumberOfMarkers := npb.NumberOfMarkers - nb.NumberOfMarkers
                 Children := npb.Children.erase b }) b =
      some nb := (hs5other b (fun h => hpab h.symm) (fun h => hpbb h.symm)).trans hs2b
  have hs5pa : getNode (setNode (setNode (setNode s2 pa
      { npa with NumberOfMarkers :=
        npa.NumberOfMarkers + nb.NumberOfMarkers }) pb
      { npb with NumberOfMarkers :=
        npb.NumberOfMarkers - nb.NumberOfMarkers }) pb
      { npb with NumberOfMarkers := npb.NumberOfMarkers - nb.NumberOfMarkers
                 Children := npb.Children.erase b }) pa =
      some { npa with NumberOfMarkers :=
        npa.NumberOfMarkers + nb.NumberOfMarkers } := by
    rw [getNode_setNode_ne _ (fun h => hpapb h.symm),
        getNode_setNode_ne _ (fun h => hpapb h.symm)]
    exact getNode_setNode_self _ hs2pa
  have hs5pb : getNode (setNode (setNode (setNode s2 pa
      { npa with NumberOfMarkers :=
        npa.NumberOfMarkers + nb.NumberOfMarkers }) pb
      { npb with NumberOfMarkers :=
        npb.NumberOfMarkers - nb.NumberOfMarkers }) pb
      { npb with NumberOfMarkers := npb.NumberOfMarkers - nb.NumberOfMarkers
                 Children := npb.Children.erase b }) pb =
      some { npb with NumberOfMarkers := npb.NumberOfMarkers - nb.NumberOfMarkers
                      Children := npb.Children.erase b } :=
    getNode_setNode_self _ hs4pb
  have hs5tbl : ∀ l, tableAt (setNode (setNode (setNode s2 pa
      { npa with NumberOfMarkers :=
        npa.NumberOfMarkers + nb.NumberOfMarkers }) pb
      { npb with NumberOfMarkers :=
        npb.NumberOfMarkers - nb.NumberOfMarkers }) pb
      { npb with NumberOfMarkers := npb.NumberOfMarkers - nb.NumberOfMarkers
                 Children := npb.Children.erase b }) l = tableAt s l := by
    intro l
    rw [tableAt_setNode, tableAt_setNode, tableAt_setNode, hs2tbl]
  unfold mergeNodes
  rw [ha, hb]
  try simp only
  rw [hrc]
  try simp only
  rw [hs2b]
  try simp only
  rw [hs2a]
  try simp only
  rw [hpa]
  try simp only
  rw [hs2pa]
  try simp only
  rw [hs3b]
  try simp only
  rw [hpb]
  try simp only
  rw [hs3pb]
  try simp only
  rw [hs4pb]
  try simp only
  rw [hs5b, hs5a, hs2a]
  try simp only
  rw [hpb]
  try simp only
  rw [hpa]
  try simp only
  rw [if_pos (show ¬some pb = some pa from fun h => hpapb (Option.some_inj.mp h).symm), hid]
  rw [hs5tbl level]
  simp only at hs2a
  rw [hpa] at hs2a
  have hkn : ∀ j, j ≠ b → ∀ x : MarkerSetState,
      getNode (killNode (killNode x b) b) j = getNode x j := by
    intro j hj x
    rw [getNode_killNode_ne (fun h => hj h.symm),
        getNode_killNode_ne (fun h => hj h.symm)]
  refine ⟨_, rfl, ?_, ?_, ?_, ?_, ?_, ?_, ?_, ?_, ?_, ?_, ?_⟩
  · rw [hkn a (fun h => hab h)]
    split
    · rw [getNode_setTable]
      rw [hs5a]
      exact hs2a
    · rw [hs5a]
      exact hs2a
  · have hinner : ∀ x : MarkerSetState, getNode x b = some nb →
        getNode (killNode (killNode x b) b) b = none := by
      intro x hx
      exact getNode_killNode_none (getNode_killNode_self hx)
    split
    · exact hinner _ (by rw [getNode_setTable]; exact hs5b)
    · exact hinner _ hs5b
  · intro c hc
    obtain ⟨hc1, hc2, hc3, hc4, _⟩ := hch c hc
    obtain ⟨cn, hcn1, hcn2⟩ := hs2c c hc
    rw [getNode_setNode_ne _ (fun h => hc1 h.symm)] at hcn1
    refine ⟨cn, hcn1, ?_⟩
    rw [hkn c hc2]
    split
    · rw [getNode_setTable, hs5other c hc3 hc4]
      exact hcn2
    · rw [hs5other c hc3 hc4]
      exact hcn2
  · rw [hkn pa hpab]
    split
    · rw [getNode_setTable]
      exact hs5pa
    · exact hs5pa
  · rw [hkn pb hpbb]
    split
    · rw [getNode_setTable]
      exact hs5pb
    · exact hs5pb
  · intro j hja hjb hjpa hjpb hjch
    rw [hkn j hjb]
    split
    · rw [getNode_setTable, hs5other j hjpa hjpb, hs2other j hja hjch]
    · rw [hs5other j hjpa hjpb, hs2other j hja hjch]
  · show tableAt _ level = _
    split
    case isTrue hcnt =>
      show tableAt (setTable _ level ((tableAt s level).erase b)) level = _
      have hmem : b ∈ tableAt s level :=
        List.count_pos_iff_mem.mp (by omega)
      have hne : tableAt s level ≠ [] := by
        intro hnil
        rw [hnil] at hmem
        exact absurd hmem (List.not_mem_nil b)
      have hlt : level < s.NodeTable.length := lt_length_of_tableAt_ne_nil hne
      rw [tableAt_setTable_self (by
        show level < _
        rw [ntblLength_setNode, ntblLength_setNode, ntblLength_setNode,
            hntbl2']
        exact hlt)]
    case isFalse hcnt =>
      exact hs5tbl level
  · intro l hl
    split
    case isTrue hcnt =>
      show tableAt (setTable _ level ((tableAt s level).erase b)) l = _
      rw [tableAt_setTable_ne _ _ (fun h => hl h.symm)]
      exact hs5tbl l
    case isFalse hcnt =>
      exact hs5tbl l
  · have hlen2' : s2.AllNodes.length = s.AllNodes.length := by
      rw [hlen2]
      simp [setNode]
    rw [length_killNode, length_killNode]
    split
    · rw [length_setTable, length_setNode, length_setNode, length_setNode,
          hlen2']
    · rw [length_setNode, length_setNode, length_setNode, hlen2']
  · rw [ntblLength_killNode, ntblLength_killNode]
    split
    · rw [ntblLength_setTable, ntblLength_setNode, ntblLength_setNode,
          ntblLength_setNode, hntbl2']
    · rw [ntblLength_setNode, ntblLength_setNode, ntblLength_setNode,
          hntbl2']
  · refine framePreserved_trans ?_ (framePreserved_killNode _ b)
    refine framePreserved_trans ?_ (framePreserved_killNode _ b)
    have hbase : framePreserved s (setNode (setNode (setNode s2 pa
        { npa with NumberOfMarkers :=
          npa.NumberOfMarkers + nb.NumberOfMarkers }) pb
        { npb with NumberOfMarkers :=
          npb.NumberOfMarkers - nb.NumberOfMarkers }) pb
        { npb with NumberOfMarkers := npb.NumberOfMarkers - nb.NumberOfMarkers
                   Children := npb.Children.erase b }) := by
      refine framePreserved_trans ?_ (framePreserved_setNode _ pb _)
      refine framePreserved_trans ?_ (framePreserved_setNode _ pb _)
      refine framePreserved_trans ?_ (framePreserved_setNode _ pa _)
      exact framePreserved_trans (framePreserved_setNode s a _) hfr2
    split
    · exact framePreserved_trans hbase (framePreserved_setTable _ level _)
    · exact hbase

/-! ## Sorted-insertion lemmas -/

theorem insertSorted_perm (x : ℕ) : ∀ l : List ℕ,
    x ∉ l → (insertSorted x l).Perm (x :: l) := by
  intro l
  induction l with
  | nil => intro _; simp [insertSorted]
  | cons y ys ih =>
    intro hx
    rw [insertSorted]
    split_ifs with h1 h2
    · exact List.Perm.refl _
    · exact absurd (h2 ▸ List.mem_cons_self _ _ : x ∈ x :: ys)
        (by simpa [h2] using hx)
    · exact ((ih (fun h => hx (List.mem_cons_of_mem _ h))).cons y).trans
        (List.Perm.swap x y ys)

theorem insertSorted_sorted (x : ℕ) : ∀ l : List ℕ,
    List.Sorted (· < ·) l → List.Sorted (· < ·) (insertSorted x l) := by
  intro l
  induction l with
  | nil => intro _; simp [insertSorted]
  | cons y ys ih =>
    intro hs
    rw [insertSorted]
    have hy := List.sorted_cons.mp hs
    split_ifs with h1 h2
    · exact List.sorted_cons.mpr ⟨by
        intro b hb
        rcases List.mem_cons.mp hb with rfl | hb
        · exact h1
        · exact lt_trans h1 (hy.1 b hb), hs⟩
    · exact hs
    · refine List.sorted_cons.mpr ⟨?_, ih hy.2⟩
      intro b hb
      rcases (mem_insertSorted.mp hb) with rfl | hb
      · omega
      · exact hy.1 b hb

theorem insertSorted_append_of_gt (x : ℕ) : ∀ l : List ℕ,
    (∀ j ∈ l, j < x) → insertSorted x l = l ++ [x] := by
  intro l
  induction l with
  | nil => intro _; rfl
  | cons y ys ih =>
    intro hl
    have hy := hl y (List.mem_cons_self _ _)
    rw [insertSorted, if_neg (by omega), if_neg (by omega), ih
      (fun j hj => hl j (List.mem_cons_of_mem _ hj))]
    rfl

theorem mem_unionSorted {i : ℕ} : ∀ {cl base : List ℕ},
    i ∈ unionSorted base cl ↔ i ∈ base ∨ i ∈ cl := by
  intro cl
  induction cl with
  | nil => intro base; simp [unionSorted]
  | cons c cs ih =>
    intro base
    rw [unionSorted, List.foldl_cons]
    constructor
    · intro h
      rcases (ih.mp h) with h | h
      · rcases mem_insertSorted.mp h with rfl | h
        · exact Or.inr (List.mem_cons_self _ _)
        · exact Or.inl h
      · exact Or.inr (List.mem_cons_of_mem _ h)
    · intro h
      rcases h with h | h
      · exact ih.mpr (Or.inl (mem_insertSorted.mpr (Or.inr h)))
      · rcases List.mem_cons.mp h with rfl | h
        · exact ih.mpr (Or.inl (mem_insertSorted.mpr (Or.inl rfl)))
        · exact ih.mpr (Or.inr h)

theorem unionSorted_sorted : ∀ (cl base : List ℕ),
    List.Sorted (· < ·) base →
    List.Sorted (· < ·) (unionSorted base cl) := by
  intro cl
  induction cl with
  | nil => intro base h; exact h
  | cons c cs ih =>
    intro base h
    rw [unionSorted, List.foldl_cons]
    exact ih _ (insertSorted_sorted c base h)

theorem unionSorted_perm : ∀ (cl base : List ℕ),
    cl.Nodup → (∀ c ∈ cl, c ∉ base) →
    (unionSorted base cl).Perm (base ++ cl) := by
  intro cl
  induction cl with
  | nil => intro base _ _; simp [unionSorted]
  | cons c cs ih =>
    intro base hnd hdisj
    rw [unionSorted, List.foldl_cons]
    have h1 : (unionSorted (insertSorted c base) cs).Perm
        ((insertSorted c base) ++ cs) := by
      refine ih _ (List.nodup_cons.mp hnd).2 ?_
      intro d hd hmem
      rcases mem_insertSorted.mp hmem with rfl | hmem
      · exact (List.nodup_cons.mp hnd).1 hd
      · exact hdisj d (List.mem_cons_of_mem _ hd) hmem
    refine (h1.trans ?_)
    refine List.Perm.trans (List.Perm.append_right cs
      (insertSorted_perm c base (hdisj c (List.mem_cons_self _ _)))) ?_
    simp only [List.cons_append]
    exact List.perm_middle.symm

/-! ## Small consequences of the structural invariant -/

theorem sorted_nodup {l : List ℕ} (h : List.Sorted (· < ·) l) : l.Nodup :=
  h.imp (fun hab => ne_of_lt hab)

theorem count_eq_one_of_sorted {l : List ℕ} {b : ℕ}
    (hs : List.Sorted (· < ·) l) (hb : b ∈ l) : l.count b = 1 :=
  List.count_eq_one_of_mem (sorted_nodup hs) hb

theorem mem_erase_sorted {l : List ℕ} {b i : ℕ}
    (hs : List.Sorted (· < ·) l) : i ∈ l.erase b ↔ i ≠ b ∧ i ∈ l :=
  (sorted_nodup hs).mem_erase_iff

theorem erase_sorted {l : List ℕ} (b : ℕ) (hs : List.Sorted (· < ·) l) :
    List.Sorted (· < ·) (l.erase b) :=
  List.Pairwise.sublist (List.erase_sublist _ _) hs

theorem childrenCountSum_congr {s s' : MarkerSetState} {cl : List ℕ}
    (h : ∀ c ∈ cl, getNode s' c = getNode s c) :
    childrenCountSum s' cl = childrenCountSum s cl := by
  unfold childrenCountSum
  congr 1
  refine List.map_congr_left (fun c hc => ?_)
  unfold nodeCount
  rw [h c hc]

theorem childrenMomentX_congr {s s' : MarkerSetState} {cl : List ℕ}
    (h : ∀ c ∈ cl, getNode s' c = getNode s c) :
    childrenMomentX s' cl = childrenMomentX s cl := by
  unfold childrenMomentX
  congr 1
  refine List.map_congr_left (fun c hc => ?_)
  unfold nodeCount nodeGcsX
  rw [h c hc]

theorem childrenMomentY_congr {s s' : MarkerSetState} {cl : List ℕ}
    (h : ∀ c ∈ cl, getNode s' c = getNode s c) :
    childrenMomentY s' cl = childrenMomentY s cl := by
  unfold childrenMomentY
  congr 1
  refine List.map_congr_left (fun c hc => ?_)
  unfold nodeCount nodeGcsY
  rw [h c hc]

theorem nodeOK_congr {s s' : MarkerSetState} {n : ClusteringNode}
    (h : ∀ c ∈ n.Children, getNode s' c = getNode s c)
    (hok : nodeOK s n) : nodeOK s' n := by
  intro hne
  obtain ⟨h1, h2, h3⟩ := hok hne
  exact ⟨by rw [childrenCountSum_congr h]; exact h1,
         by rw [childrenMomentX_congr h]; exact h2,
         by rw [childrenMomentY_congr h]; exact h3⟩

theorem live_level0_no_parent {s : MarkerSetState} (hc : Core s) {i : ℕ}
    {n : ClusteringNode} (h : getNode s i = some n) (h0 : n.Level = 0) :
    n.Parent = none := by
  cases hpar : n.Parent with
  | none => rfl
  | some p =>
    obtain ⟨pn, hpn, _, hlev⟩ := hc.parentCoh i n p h hpar
    have h1 := (hc.complete p pn hpn).1
    rw [h0] at hlev
    omega

theorem not_mem_self_children {s : MarkerSetState} (hc : Core s) {i : ℕ}
    {n : ClusteringNode} (h : getNode s i = some n) : i ∉ n.Children := by
  intro hmem
  obtain ⟨cn, hcn, _, hlev⟩ := hc.childCoh i n h i hmem
  rw [h] at hcn
  cases hcn
  omega

theorem parent_unique {s : MarkerSetState} (hc : Core s) {i j c : ℕ}
    {n m : ClusteringNode} (hi : getNode s i = some n)
    (hj : getNode s j = some m) (hci : c ∈ n.Children)
    (hcj : c ∈ m.Children) : i = j := by
  obtain ⟨cn, hcn, hp1, _⟩ := hc.childCoh i n hi c hci
  obtain ⟨cn2, hcn2, hp2, _⟩ := hc.childCoh j m hj c hcj
  rw [hcn] at hcn2
  cases hcn2
  rw [hp1] at hp2
  exact Option.some_inj.mp hp2

theorem live_id_lt {s : MarkerSetState} (hc : Core s) {i : ℕ}
    {n : ClusteringNode} (h : getNode s i = some n) :
    i < s.NumberOfNodes := by
  have h1 := getNode_lt_length h
  have h2 := hc.arenaLen
  omega

theorem sumChildren_eq {s : MarkerSetState} : ∀ {cl : List ℕ},
    (∀ c ∈ cl, (getNode s c).isSome) →
    sumChildren s cl =
      some (childrenCountSum s cl, childrenMomentX s cl,
        childrenMomentY s cl) := by
  intro cl
  induction cl with
  | nil =>
    intro _
    simp [sumChildren, childrenCountSum, childrenMomentX, childrenMomentY]
  | cons c rest ih =>
    intro h
    obtain ⟨cn, hcn⟩ := Option.isSome_iff_exists.mp
      (h c (List.mem_cons_self _ _))
    rw [sumChildren, hcn, ih (fun d hd => h d (List.mem_cons_of_mem _ hd))]
    unfold childrenCountSum childrenMomentX childrenMomentY
    simp only [List.map_cons, List.sum_cons, Option.some.injEq, Prod.mk.injEq]
    unfold nodeCount nodeGcsX nodeGcsY
    rw [hcn]
    refine ⟨by ring, by ring, by ring⟩

theorem getNode_push_new {s s' : MarkerSetState} {n : ClusteringNode}
    (h : s'.AllNodes = s.AllNodes ++ [some n]) :
    getNode s' s.AllNodes.length = some n := by
  unfold getNode
  rw [h, List.getD_eq_getElem?_getD, List.getElem?_append_right (le_refl _)]
  simp

theorem getNode_push_old {s s' : MarkerSetState} {n : ClusteringNode}
    (h : s'.AllNodes = s.AllNodes ++ [some n]) (i : ℕ)
    (hi : i ≠ s.AllNodes.length) : getNode s' i = getNode s i := by
  unfold getNode
  rw [h, List.getD_eq_getElem?_getD, List.getD_eq_getElem?_getD]
  rcases Nat.lt_or_ge i s.AllNodes.length with hlt | hge
  · rw [List.getElem?_append_left hlt]
  · have hgt : s.AllNodes.length < i := by omega
    rw [List.getElem?_append_right (by omega), List.getElem?_eq_none (by simp; omega),
        List.getElem?_eq_none (by omega)]

/-- Characterization of `MergeNodes` when both nodes share the same live
parent `p`: the count fix-ups hit `p` twice and cancel, the merged node's
old parent equals the current node's parent, so nothing is queued. -/
theorem mergeNodes_spec_samepar (s : MarkerSetState) (a b p : ℕ)
    (ptm : List ℕ) (level : ℕ) (na nb np : ClusteringNode)
    (ha : getNode s a = some na) (hb : getNode s b = some nb)
    (hab : a ≠ b)
    (hpa : na.Parent = some p) (hplive : getNode s p = some np)
    (hpb : nb.Parent = some p)
    (hpaa : p ≠ a) (hpab : p ≠ b) (hid : nb.NodeId = b)
    (hch : ∀ c ∈ nb.Children,
      c ≠ a ∧ c ≠ b ∧ c ≠ p ∧ (getNode s c).isSome) :
    ∃ s', mergeNodes s a b ptm level = some (s', ptm) ∧
      getNode s' a = some { na with
        gcsX := (na.gcsX * (na.NumberOfMarkers : ℚ) +
            nb.gcsX * (nb.NumberOfMarkers : ℚ)) /
          ((na.NumberOfMarkers + nb.NumberOfMarkers : ℤ) : ℚ)
        gcsY := (na.gcsY * (na.NumberOfMarkers : ℚ) +
            nb.gcsY * (nb.NumberOfMarkers : ℚ)) /
          ((na.NumberOfMarkers + nb.NumberOfMarkers : ℤ) : ℚ)
        Children := unionSorted na.Children nb.Children
        NumberOfMarkers := na.NumberOfMarkers + nb.NumberOfMarkers
        MarkerId := -1 } ∧
      getNode s' b = none ∧
      (∀ c ∈ nb.Children, ∃ cn, getNode s c = some cn ∧
        getNode s' c = some { cn with Parent := some a }) ∧
      getNode s' p = some { np with
        NumberOfMarkers :=
          np.NumberOfMarkers + nb.NumberOfMarkers - nb.NumberOfMarkers
        Children := np.Children.erase b } ∧
      (∀ j, j ≠ a → j ≠ b → j ≠ p →  j ∉ nb.Children →
        getNode s' j = getNode s j) ∧
      tableAt s' level = (if (tableAt s level).count b = 1 then
        (tableAt s level).erase b else tableAt s level) ∧
      (∀ l, l ≠ level → tableAt s' l = tableAt s l) ∧
      s'.AllNodes.length = s.AllNodes.length ∧
      s'.NodeTable.length = s.NodeTable.length ∧
      framePreserved s s' := by
  have hreph : ∀ c ∈ nb.Children, c ≠ a ∧
      (getNode (setNode s a { na with
        gcsX := (na.gcsX * (na.NumberOfMarkers : ℚ) +
            nb.gcsX * (nb.NumberOfMarkers : ℚ)) /
          ((na.NumberOfMarkers + nb.NumberOfMarkers : ℤ) : ℚ)
        gcsY := (na.gcsY * (na.NumberOfMarkers : ℚ) +
            nb.gcsY * (nb.NumberOfMarkers : ℚ)) /
          ((na.NumberOfMarkers + nb.NumberOfMarkers : ℤ) : ℚ)
        NumberOfMarkers := na.NumberOfMarkers + nb.NumberOfMarkers
        MarkerId := -1 }) c).isSome := by
    intro c hc
    obtain ⟨h1, _, _, h5⟩ := hch c hc
    refine ⟨h1, ?_⟩
    rw [getNode_setNode_ne _ (fun h => h1 h.symm)]
    exact h5
  obtain ⟨s2, hrc, hfr2, hntbl2, hlen2, hs2a, hs2c, hs2o⟩ :=
    reparentChildren_spec a nb.Children _ _
      (getNode_setNode_self { na with
        gcsX := (na.gcsX * (na.NumberOfMarkers : ℚ) +
            nb.gcsX * (nb.NumberOfMarkers : ℚ)) /
          ((na.NumberOfMarkers + nb.NumberOfMarkers : ℤ) : ℚ)
        gcsY := (na.gcsY * (na.NumberOfMarkers : ℚ) +
            nb.gcsY * (nb.NumberOfMarkers : ℚ)) /
          ((na.NumberOfMarkers + nb.NumberOfMarkers : ℤ) : ℚ)
        NumberOfMarkers := na.NumberOfMarkers + nb.NumberOfMarkers
        MarkerId := -1 } ha) hreph
  have hs2other : ∀ j, j ≠ a → j ∉ nb.Children →
      getNode s2 j = getNode s j := by
    intro j h1 h2
    rw [hs2o j h1 h2, getNode_setNode_ne _ (fun h => h1 h.symm)]
  have hs2b : getNode s2 b = some nb :=
    (hs2other b (fun h => hab h.symm) (fun h => ((hch b h).2.1 rfl))).trans hb
  have hs2p : getNode s2 p = some np :=
    (hs2other p hpaa (fun h => ((hch p h).2.2.1 rfl))).trans hplive
  have hntbl2' : s2.NodeTable = s.NodeTable := hntbl2.trans rfl
  have hs2tbl : ∀ l, tableAt s2 l = tableAt s l := by
    intro l
    rw [tableAt, tableAt, hntbl2']
  have hs3b : getNode (setNode s2 p { np with NumberOfMarkers :=
      np.NumberOfMarkers + nb.NumberOfMarkers }) b = some nb := by
    rw [getNode_setNode_ne _ hpab]
    exact hs2b
  have hs3p : getNode (setNode s2 p { np with NumberOfMarkers :=
      np.NumberOfMarkers + nb.NumberOfMarkers }) p =
      some { np with NumberOfMarkers :=
        np.NumberOfMarkers + nb.NumberOfMarkers } :=
    getNode_setNode_self _ hs2p
  have hs4p : getNode (setNode (setNode s2 p { np with NumberOfMarkers :=
        np.NumberOfMarkers + nb.NumberOfMarkers }) p
      { np with NumberOfMarkers :=
        np.NumberOfMarkers + nb.NumberOfMarkers - nb.NumberOfMarkers }) p =
      some { np with NumberOfMarkers :=
        np.NumberOfMarkers + nb.NumberOfMarkers - nb.NumberOfMarkers } :=
    getNode_setNode_self _ hs3p
  have hs5other : ∀ j, j ≠ p →
      getNode (setNode (setNode (setNode s2 p
        { np with NumberOfMarkers :=
          np.NumberOfMarkers + nb.NumberOfMarkers }) p
        { np with NumberOfMarkers :=
          np.NumberOfMarkers + nb.NumberOfMarkers - nb.NumberOfMarkers }) p
        { np with
          NumberOfMarkers :=
            np.NumberOfMarkers + nb.NumberOfMarkers - nb.NumberOfMarkers
          Children := np.Children.erase b }) j = getNode s2 j := by
    intro j h1
    rw [getNode_setNode_ne _ (fun h => h1 h.symm),
        getNode_setNode_ne _ (fun h => h1 h.symm),
        getNode_setNode_ne _ (fun h => h1 h.symm)]
  have hs5a : getNode (setNode (setNode (setNode s2 p
      { np with NumberOfMarkers :=
        np.NumberOfMarkers + nb.NumberOfMarkers }) p
      { np with NumberOfMarkers :=
        np.NumberOfMarkers + nb.NumberOfMarkers - nb.NumberOfMarkers }) p
      { np with
        NumberOfMarkers :=
          np.NumberOfMarkers + nb.NumberOfMarkers - nb.NumberOfMarkers
        Children := np.Children.erase b }) a =
      getNode s2 a := hs5other a (fun h => hpaa h.symm)
  have hs5b : getNode (setNode (setNode (setNode s2 p
      { np with NumberOfMarkers :=
        np.NumberOfMarkers + nb.NumberOfMarkers }) p
      { np with NumberOfMarkers :=
        np.NumberOfMarkers + nb.NumberOfMarkers - nb.NumberOfMarkers }) p
      { np with
        NumberOfMarkers :=
          np.NumberOfMarkers + nb.NumberOfMarkers - nb.NumberOfMarkers
        Children := np.Children.erase b }) b =
      some nb := (hs5other b (fun h => hpab h.symm)).trans hs2b
  have hs5p : getNode (setNode (setNode (setNode s2 p
      { np with NumberOfMarkers :=
        np.NumberOfMarkers + nb.NumberOfMarkers }) p
      { np with NumberOfMarkers :=
        np.NumberOfMarkers + nb.NumberOfMarkers - nb.NumberOfMarkers }) p
      { np with
        NumberOfMarkers :=
          np.NumberOfMarkers + nb.NumberOfMarkers - nb.NumberOfMarkers
        Children := np.Children.erase b }) p =
      some { np with
        NumberOfMarkers :=
          np.NumberOfMarkers + nb.NumberOfMarkers - nb.NumberOfMarkers
        Children := np.Children.erase b } :=
    getNode_setNode_self _ hs4p
  have hs5tbl : ∀ l, tableAt (setNode (setNode (setNode s2 p
      { np with NumberOfMarkers :=
        np.NumberOfMarkers + nb.NumberOfMarkers }) p
      { np with NumberOfMarkers :=
        np.NumberOfMarkers + nb.NumberOfMarkers - nb.NumberOfMarkers }) p
      { np with
        NumberOfMarkers :=
          np.NumberOfMarkers + nb.NumberOfMarkers - nb.NumberOfMarkers
        Children := np.Children.erase b }) l = tableAt s l := by
    intro l
    rw [tableAt_setNode, tableAt_setNode, tableAt_setNode, hs2tbl]
  unfold mergeNodes
  rw [ha, hb]
  try simp only
  rw [hrc]
  try simp only
  rw [hs2b]
  try simp only
  rw [hs2a]
  try simp only
  rw [hpa]
  try simp only
  rw [hs2p]
  try simp only
  rw [hs3b]
  try simp only
  rw [hpb]
  try simp only
  rw [hs3p]
  try simp only
  rw [hs4p]
  try simp only
  rw [hs5b, hs5a, hs2a]
  try simp only
  rw [hpb]
  try simp only
  rw [hpa]
  try simp only
  rw [if_neg (show ¬¬some p = some p from fun h => h rfl), hid]
  rw [hs5tbl level]
  simp only at hs2a
  rw [hpa] at hs2a
  have hkn : ∀ j, j ≠ b → ∀ x : MarkerSetState,
      getNode (killNode (killNode x b) b) j = getNode x j := by
    intro j hj x
    rw [getNode_killNode_ne (fun h => hj h.symm),
        getNode_killNode_ne (fun h => hj h.symm)]
  refine ⟨_, rfl, ?_, ?_, ?_, ?_, ?_, ?_, ?_, ?_, ?_, ?_⟩
  · rw [hkn a (fun h => hab h)]
    split
    · rw [getNode_setTable]
      rw [hs5a]
      exact hs2a
    · rw [hs5a]
      exact hs2a
  · have hinner : ∀ x : MarkerSetState, getNode x b = some nb →
        getNode (killNode (killNode x b) b) b = none := by
      intro x hx
      exact getNode_killNode_none (getNode_killNode_self hx)
    split
    · exact hinner _ (by rw [getNode_setTable]; exact hs5b)
    · exact hinner _ hs5b
  · intro c hc
    obtain ⟨hc1, hc2, hc3, _⟩ := hch c hc
    obtain ⟨cn, hcn1, hcn2⟩ := hs2c c hc
    rw [getNode_setNode_ne _ (fun h => hc1 h.symm)] at hcn1
    refine ⟨cn, hcn1, ?_⟩
    rw [hkn c hc2]
    split
    · rw [getNode_setTable, hs5other c hc3]
      exact hcn2
    · rw [hs5other c hc3]
      exact hcn2
  · rw [hkn p hpab]
    split
    · rw [getNode_setTable]
      exact hs5p
    · exact hs5p
  · intro j hja hjb hjp hjch
    rw [hkn j hjb]
    split
    · rw [getNode_setTable, hs5other j hjp, hs2other j hja hjch]
    · rw [hs5other j hjp, hs2other j hja hjch]
  · show tableAt _ level = _
    split
    case isTrue hcnt =>
      show tableAt (setTable _ level ((tableAt s level).erase b)) level = _
      have hmem : b ∈ tableAt s level :=
        List.count_pos_iff_mem.mp (by omega)
      have hne : tableAt s level ≠ [] := by
        intro hnil
        rw [hnil] at hmem
        exact absurd hmem (List.not_mem_nil b)
      have hlt : level < s.NodeTable.length := lt_length_of_tableAt_ne_nil hne
      rw [tableAt_setTable_self (by
        show level < _
        rw [ntblLength_setNode, ntblLength_setNode, ntblLength_setNode,
            hntbl2']
        exact hlt)]
    case isFalse hcnt =>
      exact hs5tbl level
  · intro l hl
    split
    case isTrue hcnt =>
      show tableAt (setTable _ level ((tableAt s level).erase b)) l = _
      rw [tableAt_setTable_ne _ _ (fun h => hl h.symm)]
      exact hs5tbl l
    case isFalse hcnt =>
      exact hs5tbl l
  · have hlen2' : s2.AllNodes.length = s.AllNodes.length := by
      rw [hlen2]
      simp [setNode]
    rw [length_killNode, length_killNode]
    split
    · rw [length_setTable, length_setNode, length_setNode, length_setNode,
          hlen2']
    · rw [length_setNode, length_setNode, length_setNode, hlen2']
  · rw [ntblLength_killNode, ntblLength_killNode]
    split
    · rw [ntblLength_setTable, ntblLength_setNode, ntblLength_setNode,
          ntblLength_setNode, hntbl2']
    · rw [ntblLength_setNode, ntblLength_setNode, ntblLength_setNode,
          hntbl2']
  · refine framePreserved_trans ?_ (framePreserved_killNode _ b)
    refine framePreserved_trans ?_ (framePreserved_killNode _ b)
    have hbase : framePreserved s (setNode (setNode (setNode s2 p
        { np with NumberOfMarkers :=
          np.NumberOfMarkers + nb.NumberOfMarkers }) p
        { np with NumberOfMarkers :=
          np.NumberOfMarkers + nb.NumberOfMarkers - nb.NumberOfMarkers }) p
        { np with
          NumberOfMarkers :=
            np.NumberOfMarkers + nb.NumberOfMarkers - nb.NumberOfMarkers
          Children := np.Children.erase b }) := by
      refine framePreserved_trans ?_ (framePreserved_setNode _ p _)
      refine framePreserved_trans ?_ (framePreserved_setNode _ p _)
      refine framePreserved_trans ?_ (framePreserved_setNode _ p _)
      exact framePreserved_trans (framePreserved_setNode s a _) hfr2
    split
    · exact framePreserved_trans hbase (framePreserved_setTable _ level _)
    · exact hbase

/-- C3: merging `b` into `a` at their common level (both live, with live
parents and live children) produces, in the order the code performs them:
`a`'s position becomes the marker-count-weighted average of the two nodes
and the counts are summed with `a`'s marker id cleared to the −1
sentinel; every child of `b` is re-parented onto `a` (joining `a`'s child
set); `b`'s count is added to `a`'s parent's count and subtracted from
`b`'s parent's count (a net no-op when the parent is shared); `b` is
detached from its old parent's children; the old parent is queued into
`parentsToMerge` exactly when it differs from `a`'s parent; and `b` is
removed from the level's active set and tombstoned in the arena.  Nothing
else changes. -/
theorem mergeNodes_effects (s : MarkerSetState) (a b pa pb : ℕ)
    (ptm : List ℕ) (level : ℕ) (na nb npa npb : ClusteringNode)
    (ha : getNode s a = some na) (hb : getNode s b = some nb)
    (hab : a ≠ b)
    (hpa : na.Parent = some pa) (hpalive : getNode s pa = some npa)
    (hpb : nb.Parent = some pb) (hpblive : getNode s pb = some npb)
    (hpaa : pa ≠ a) (hpab : pa ≠ b) (hpba : pb ≠ a) (hpbb : pb ≠ b)
    (hid : nb.NodeId = b)
    (hch : ∀ c ∈ nb.Children,
      c ≠ a ∧ c ≠ b ∧ c ≠ pa ∧ c ≠ pb ∧ (getNode s c).isSome) :
    ∃ s', mergeNodes s a b ptm level =
        some (s', if pb = pa then ptm else insertSorted pb ptm) ∧
      getNode s' a = some { na with
        gcsX := (na.gcsX * (na.NumberOfMarkers : ℚ) +
            nb.gcsX * (nb.NumberOfMarkers : ℚ)) /
          ((na.NumberOfMarkers + nb.NumberOfMarkers : ℤ) : ℚ)
        gcsY := (na.gcsY * (na.NumberOfMarkers : ℚ) +
            nb.gcsY * (nb.NumberOfMarkers : ℚ)) /
          ((na.NumberOfMarkers + nb.NumberOfMarkers : ℤ) : ℚ)
        Children := unionSorted na.Children nb.Children
        NumberOfMarkers := na.NumberOfMarkers + nb.NumberOfMarkers
        MarkerId := -1 } ∧
      getNode s' b = none ∧
      (∀ c ∈ nb.Children, ∃ cn, getNode s c = some cn ∧
        getNode s' c = some { cn with Parent := some a }) ∧
      getNode s' pa = some (if pa = pb then
          { npa with
            NumberOfMarkers := npa.NumberOfMarkers + nb.NumberOfMarkers
              - nb.NumberOfMarkers
            Children := npa.Children.erase b }
        else
          { npa with
            NumberOfMarkers := npa.NumberOfMarkers + nb.NumberOfMarkers }) ∧
      getNode s' pb = some (if pa = pb then
          { npa with
            NumberOfMarkers := npa.NumberOfMarkers + nb.NumberOfMarkers
              - nb.NumberOfMarkers
            Children := npa.Children.erase b }
        else
          { npb with
            NumberOfMarkers := npb.NumberOfMarkers - nb.NumberOfMarkers
            Children := npb.Children.erase b }) ∧
      (∀ j, j ≠ a → j ≠ b → j ≠ pa → j ≠ pb → j ∉ nb.Children →
        getNode s' j = getNode s j) ∧
      tableAt s' level = (if (tableAt s level).count b = 1 then
        (tableAt s level).erase b else tableAt s level) ∧
      (∀ l, l ≠ level → tableAt s' l = tableAt s l) ∧
      s'.AllNodes.length = s.AllNodes.length ∧
      s'.NodeTable.length = s.NodeTable.length ∧
      framePreserved s s' := by
  by_cases hpp : pa = pb
  · subst hpp
    rw [hpalive] at hpblive
    cases hpblive
    obtain ⟨s', hrun, hA, hB, hC, hP, hOther, hT1, hT2, hL1, hL2, hFr⟩ :=
      mergeNodes_spec_samepar s a b pa ptm level na nb npa ha hb hab hpa
        hpalive hpb hpaa hpab hid
        (fun c hc => ⟨(hch c hc).1, (hch c hc).2.1, (hch c hc).2.2.1,
          (hch c hc).2.2.2.2⟩)
    refine ⟨s', ?_, hA, hB, hC, ?_, ?_, ?_, hT1, hT2, hL1, hL2, hFr⟩
    · rw [if_pos rfl]
      exact hrun
    · rw [if_pos rfl]
      exact hP
    · rw [if_pos rfl]
      exact hP
    · intro j h1 h2 h3 _ h5
      exact hOther j h1 h2 h3 h5
  · obtain ⟨s', hrun, hA, hB, hC, hPA, hPB, hOther, hT1, hT2, hL1, hL2,
      hFr⟩ :=
      mergeNodes_spec s a b pa pb ptm level na nb npa npb ha hb hab hpa
        hpalive hpb hpblive hpaa hpab hpba hpbb hpp hid hch
    refine ⟨s', ?_, hA, hB, hC, ?_, ?_, hOther, hT1, hT2, hL1, hL2, hFr⟩
    · rw [if_neg (fun h => hpp h.symm)]
      exact hrun
    · rw [if_neg hpp]
      exact hPA
    · rw [if_neg hpp]
      exact hPB

/-- Witness for C3, exercising both branches of the conditional queue:
on the two-root state the parents 4 and 5 differ, so the old parent 5
is queued; on the five-node single-tree state nodes 0 and 1 share
parent 2, so the queue is unchanged. -/
theorem mergeNodes_effects_witness :
    (∃ s', mergeNodes wmState 0 1 [] 1 =
        some (s', if (5 : ℕ) = 4 then [] else insertSorted 5 []) ∧
      getNode s' 0 = some { wmN0 with
        gcsX := (wmN0.gcsX * (wmN0.NumberOfMarkers : ℚ) +
            wmN1.gcsX * (wmN1.NumberOfMarkers : ℚ)) /
          ((wmN0.NumberOfMarkers + wmN1.NumberOfMarkers : ℤ) : ℚ)
        gcsY := (wmN0.gcsY * (wmN0.NumberOfMarkers : ℚ) +
            wmN1.gcsY * (wmN1.NumberOfMarkers : ℚ)) /
          ((wmN0.NumberOfMarkers + wmN1.NumberOfMarkers : ℤ) : ℚ)
        Children := unionSorted wmN0.Children wmN1.Children
        NumberOfMarkers := wmN0.NumberOfMarkers + wmN1.NumberOfMarkers
        MarkerId := -1 } ∧
      getNode s' 1 = none ∧
      (∀ c ∈ wmN1.Children, ∃ cn, getNode wmState c = some cn ∧
        getNode s' c = some { cn with Parent := some 0 }) ∧
      getNode s' 4 = some (if (4 : ℕ) = 5 then
          { wmN4 with
            NumberOfMarkers := wmN4.NumberOfMarkers + wmN1.NumberOfMarkers
              - wmN1.NumberOfMarkers
            Children := wmN4.Children.erase 1 }
        else
          { wmN4 with NumberOfMarkers :=
            wmN4.NumberOfMarkers + wmN1.NumberOfMarkers }) ∧
      getNode s' 5 = some (if (4 : ℕ) = 5 then
          { wmN4 with
            NumberOfMarkers := wmN4.NumberOfMarkers + wmN1.NumberOfMarkers
              - wmN1.NumberOfMarkers
            Children := wmN4.Children.erase 1 }
        else
          { wmN5 with
            NumberOfMarkers := wmN5.NumberOfMarkers - wmN1.NumberOfMarkers
            Children := wmN5.Children.erase 1 }) ∧
      (∀ j, j ≠ 0 → j ≠ 1 → j ≠ 4 → j ≠ 5 → j ∉ wmN1.Children →
        getNode s' j = getNode wmState j) ∧
      tableAt s' 1 = (if (tableAt wmState 1).count 1 = 1 then
        (tableAt wmState 1).erase 1 else tableAt wmState 1) ∧
      (∀ l, l ≠ 1 → tableAt s' l = tableAt wmState l) ∧
      s'.AllNodes.length = wmState.AllNodes.length ∧
      s'.NodeTable.length = wmState.NodeTable.length ∧
      framePreserved wmState s') ∧
    (∃ s', mergeNodes wfcState 0 1 [] 1 =
        some (s', if (2 : ℕ) = 2 then [] else insertSorted 2 []) ∧
      getNode s' 0 = some { wfcN0 with
        gcsX := (wfcN0.gcsX * (wfcN0.NumberOfMarkers : ℚ) +
            wfcN1.gcsX * (wfcN1.NumberOfMarkers : ℚ)) /
          ((wfcN0.NumberOfMarkers + wfcN1.NumberOfMarkers : ℤ) : ℚ)
        gcsY := (wfcN0.gcsY * (wfcN0.NumberOfMarkers : ℚ) +
            wfcN1.gcsY * (wfcN1.NumberOfMarkers : ℚ)) /
          ((wfcN0.NumberOfMarkers + wfcN1.NumberOfMarkers : ℤ) : ℚ)
        Children := unionSorted wfcN0.Children wfcN1.Children
        NumberOfMarkers := wfcN0.NumberOfMarkers + wfcN1.NumberOfMarkers
        MarkerId := -1 } ∧
      getNode s' 1 = none ∧
      (∀ c ∈ wfcN1.Children, ∃ cn, getNode wfcState c = some cn ∧
        getNode s' c = some { cn with Parent := some 0 }) ∧
      getNode s' 2 = some (if (2 : ℕ) = 2 then
          { wfcN2 with
            NumberOfMarkers :=
              wfcN2.NumberOfMarkers + wfcN1.NumberOfMarkers
                - wfcN1.NumberOfMarkers
            Children := wfcN2.Children.erase 1 }
        else
          { wfcN2 with NumberOfMarkers :=
            wfcN2.NumberOfMarkers + wfcN1.NumberOfMarkers }) ∧
      getNode s' 2 = some (if (2 : ℕ) = 2 then
          { wfcN2 with
            NumberOfMarkers :=
              wfcN2.NumberOfMarkers + wfcN1.NumberOfMarkers
                - wfcN1.NumberOfMarkers
            Children := wfcN2.Children.erase 1 }
        else
          { wfcN2 with
            NumberOfMarkers := wfcN2.NumberOfMarkers - wfcN1.NumberOfMarkers
            Children := wfcN2.Children.erase 1 }) ∧
      (∀ j, j ≠ 0 → j ≠ 1 → j ≠ 2 → j ≠ 2 → j ∉ wfcN1.Children →
        getNode s' j = getNode wfcState j) ∧
      tableAt s' 1 = (if (tableAt wfcState 1).count 1 = 1 then
        (tableAt wfcState 1).erase 1 else tableAt wfcState 1) ∧
      (∀ l, l ≠ 1 → tableAt s' l = tableAt wfcState l) ∧
      s'.AllNodes.length = wfcState.AllNodes.length ∧
      s'.NodeTable.length = wfcState.NodeTable.length ∧
      framePreserved wfcState s') :=
  ⟨mergeNodes_effects wmState 0 1 4 5 [] 1 wmN0 wmN1 wmN4 wmN5
     (by decide) (by decide) (by decide) (by decide) (by decide)
     (by decide) (by decide) (by decide) (by decide) (by decide)
     (by decide) (by decide) (by decide),
   mergeNodes_effects wfcState 0 1 2 2 [] 1 wfcN0 wfcN1 wfcN2 wfcN2
     (by decide) (by decide) (by decide) (by decide) (by decide)
     (by decide) (by decide) (by decide) (by decide) (by decide)
     (by decide) (by decide) (by decide)⟩

/-- `MergeNodes` dereferences `node->GetParent()` unconditionally
(line 630); with no parent the call crashes (`none`), whatever else the
state holds. -/
theorem mergeNodes_none_of_no_parent (s : MarkerSetState) (a b : ℕ)
    (ptm : List ℕ) (level : ℕ) (na nb : ClusteringNode)
    (ha : getNode s a = some na) (hb : getNode s b = some nb)
    (hab : a ≠ b)
    (hpa : na.Parent = none)
    (hch : ∀ c ∈ nb.Children, c ≠ a ∧ (getNode s c).isSome) :
    mergeNodes s a b ptm level = none := by
  have hreph : ∀ c ∈ nb.Children, c ≠ a ∧
      (getNode (setNode s a { na with
        gcsX := (na.gcsX * (na.NumberOfMarkers : ℚ) +
            nb.gcsX * (nb.NumberOfMarkers : ℚ)) /
          ((na.NumberOfMarkers + nb.NumberOfMarkers : ℤ) : ℚ)
        gcsY := (na.gcsY * (na.NumberOfMarkers : ℚ) +
            nb.gcsY * (nb.NumberOfMarkers : ℚ)) /
          ((na.NumberOfMarkers + nb.NumberOfMarkers : ℤ) : ℚ)
        NumberOfMarkers := na.NumberOfMarkers + nb.NumberOfMarkers
        MarkerId := -1 }) c).isSome := by
    intro c hc
    obtain ⟨h1, h5⟩ := hch c hc
    refine ⟨h1, ?_⟩
    rw [getNode_setNode_ne _ (fun h => h1 h.symm)]
    exact h5
  obtain ⟨s2, hrc, hfr2, hntbl2, hlen2, hs2a, hs2c, hs2o⟩ :=
    reparentChildren_spec a nb.Children _ _
      (getNode_setNode_self { na with
        gcsX := (na.gcsX * (na.NumberOfMarkers : ℚ) +
            nb.gcsX * (nb.NumberOfMarkers : ℚ)) /
          ((na.NumberOfMarkers + nb.NumberOfMarkers : ℤ) : ℚ)
        gcsY := (na.gcsY * (na.NumberOfMarkers : ℚ) +
            nb.gcsY * (nb.NumberOfMarkers : ℚ)) /
          ((na.NumberOfMarkers + nb.NumberOfMarkers : ℤ) : ℚ)
        NumberOfMarkers := na.NumberOfMarkers + nb.NumberOfMarkers
        MarkerId := -1 } ha) hreph
  have hs2b : (getNode s2 b).isSome := by
    by_cases hbc : b ∈ nb.Children
    · obtain ⟨cn, _, h2⟩ := hs2c b hbc
      rw [h2]
      rfl
    · rw [hs2o b (fun h => hab h.symm) hbc,
          getNode_setNode_ne _ (fun h => hab h)]
      rw [hb]
      rfl
  obtain ⟨nb2, hnb2⟩ := Option.isSome_iff_exists.mp hs2b
  unfold mergeNodes
  rw [ha, hb]
  try simp only
  rw [hrc]
  try simp only
  rw [hnb2]
  try simp only
  rw [hs2a]
  try simp only
  rw [hpa]

/-- The finest-level invariant transfers along any state change that keeps
the level-19 id list and every listed node's count and marker id. -/
theorem table19OK_congr {s s' : MarkerSetState}
    (hlist : tableAt s' (NumberOfClusterLevels - 1) =
      tableAt s (NumberOfClusterLevels - 1))
    (hnm : s'.NumberOfMarkers = s.NumberOfMarkers)
    (h : ∀ i ∈ tableAt s (NumberOfClusterLevels - 1),
      ∃ n, getNode s i = some n ∧ ∃ n2, getNode s' i = some n2 ∧
        n2.NumberOfMarkers = n.NumberOfMarkers ∧ n2.MarkerId = n.MarkerId)
    (ht : table19OK s) : table19OK s' := by
  unfold table19OK at ht ⊢
  rw [hlist, hnm, ← ht]
  refine List.map_congr_left (fun i hi => ?_)
  obtain ⟨n, hn, n2, hn2, hc1, hc2⟩ := h i hi
  rw [hn, hn2]
  simp [hc1, hc2]

/-- A found partner lies in the scanned level set and differs from the
probe node. -/
theorem findClosestNode_found {s : MarkerSetState} (hc : Core s)
    {nodeId lvl : ℕ} {thr : ℚ} {r : Option ℕ}
    (h : findClosestNode s nodeId lvl thr = some r) :
    ∀ c, r = some c → c ∈ tableAt s lvl ∧ c ≠ nodeId := by
  intro c hrc
  subst hrc
  unfold findClosestNode at h
  cases hn : getNode s nodeId with
  | none =>
    rw [hn] at h
    cases h
  | some n =>
    rw [hn] at h
    simp only at h
    obtain ⟨r2, hr2, hcase⟩ := fcLoop_spec s nodeId n.gcsX n.gcsY
      (tableAt s lvl) none
      ((level0Scale / 2 ^ lvl * thr) * (level0Scale / 2 ^ lvl * thr))
      (by
        intro i hi _
        obtain ⟨m, hm, _⟩ := hc.tableLive lvl i hi
        rw [hm]
        rfl)
    rw [hr2] at h
    cases h
    rcases hcase with ⟨heq, _⟩ | ⟨m, hm1, hm2, _⟩
    · cases heq
    · cases hm1
      have := List.mem_filter.mp hm2
      refine ⟨this.1, ?_⟩
      have h2 := this.2
      simpa using h2

/-- The no-partner climb branch preserves the structural and aggregation
invariants: the fresh copy is exact (it carries its single child's count
and position), is registered at its level, and becomes the new parentless
climbing node. -/
theorem copyStep_inv (s : MarkerSetState) (cur lvl : ℕ)
    (curN : ClusteringNode)
    (hc : Core s) (ht19 : table19OK s) (hok : allOK s) (hcpos : allCpos s)
    (hne : allNonempty s)
    (hpex : ∀ i n, getNode s i = some n → 1 ≤ n.Level → i ≠ cur →
      ∃ p, n.Parent = some p)
    (hcur : getNode s cur = some curN)
    (hcurlev : curN.Level = (lvl : ℤ) + 1)
    (hcurpar : curN.Parent = none)
    (hcurcnt : curN.NumberOfMarkers = 1)
    (hfresh : ∀ i n, getNode s i = some n → cur ∉ n.Children)
    (hlvl2 : lvl + 2 ≤ NumberOfClusterLevels) :
    ∃ s', copyStep s cur lvl = some (s', s.NumberOfNodes) ∧
      Core s' ∧ table19OK s' ∧ allOK s' ∧ allCpos s' ∧ allNonempty s' ∧
      (∀ i n, getNode s' i = some n → 1 ≤ n.Level → i ≠ s.NumberOfNodes →
        ∃ p, n.Parent = some p) ∧
      (∃ nn, getNode s' s.NumberOfNodes = some nn ∧
        nn.Level = (lvl : ℤ) ∧ nn.Parent = none ∧
        nn.NumberOfMarkers = 1) ∧
      (∀ i n, getNode s' i = some n → s.NumberOfNodes ∉ n.Children) ∧
      s'.NumberOfMarkers = s.NumberOfMarkers ∧
      s'.ClusterDistance = s.ClusterDistance := by
  have hlen : s.AllNodes.length = s.NumberOfNodes := hc.arenaLen
  have hcurlt : cur < s.NumberOfNodes := live_id_lt hc hcur
  have h20 : (NumberOfClusterLevels : ℕ) = 20 := rfl
  set newId := s.NumberOfNodes with hnewId
  set newNode : ClusteringNode :=
    { NodeId := newId
      Level := (lvl : ℤ)
      gcsX := curN.gcsX
      gcsY := curN.gcsY
      Parent := none
      Children := [cur]
      NumberOfMarkers := curN.NumberOfMarkers
      MarkerId := curN.MarkerId } with hnn
  have hnnId : newNode.NodeId = newId := rfl
  have hnnLevel : newNode.Level = (lvl : ℤ) := rfl
  have hnnX : newNode.gcsX = curN.gcsX := rfl
  have hnnY : newNode.gcsY = curN.gcsY := rfl
  have hnnPar : newNode.Parent = none := rfl
  have hnnCh : newNode.Children = [cur] := rfl
  have hnnCnt : newNode.NumberOfMarkers = curN.NumberOfMarkers := rfl
  set s1 : MarkerSetState := { s with
    AllNodes := s.AllNodes ++ [some newNode]
    NumberOfNodes := s.NumberOfNodes + 1 } with hs1
  have hs1nodes : s1.AllNodes = s.AllNodes ++ [some newNode] := rfl
  have h1new : getNode s1 newId = some newNode := by
    have := @getNode_push_new s s1 newNode hs1nodes
    rw [hlen] at this
    exact this
  have h1old : ∀ j, j ≠ newId → getNode s1 j = getNode s j := by
    intro j hj
    exact getNode_push_old hs1nodes j (by rw [hlen]; exact hj)
  have h1tbl : ∀ l, tableAt s1 l = tableAt s l := fun _ => rfl
  set s2 := setTable s1 lvl (insertSorted newId (tableAt s1 lvl)) with hs2
  have h2get : ∀ j, getNode s2 j = getNode s1 j := fun j =>
    getNode_setTable _ _ _ _
  have hlvltbl : lvl < s1.NodeTable.length := by
    show lvl < s.NodeTable.length
    rw [hc.ntblLen]
    omega
  have h2tblself : tableAt s2 lvl = insertSorted newId (tableAt s lvl) := by
    rw [hs2, tableAt_setTable_self hlvltbl, h1tbl]
  have h2tblne : ∀ l, l ≠ lvl → tableAt s2 l = tableAt s l := by
    intro l hl
    rw [hs2, tableAt_setTable_ne _ _ (fun h => hl h.symm), h1tbl]
  have h2cur : getNode s2 cur = some curN := by
    rw [h2get, h1old cur (by omega)]
    exact hcur
  set curN2 : ClusteringNode := { curN with Parent := some newId } with hcn2
  have hc2Id : curN2.NodeId = curN.NodeId := rfl
  have hc2Level : curN2.Level = curN.Level := rfl
  have hc2X : curN2.gcsX = curN.gcsX := rfl
  have hc2Y : curN2.gcsY = curN.gcsY := rfl
  have hc2Par : curN2.Parent = some newId := rfl
  have hc2Ch : curN2.Children = curN.Children := rfl
  have hc2Cnt : curN2.NumberOfMarkers = curN.NumberOfMarkers := rfl
  set sF := setNode s2 cur curN2 with hsF
  have hFcur : getNode sF cur = some curN2 := getNode_setNode_self _ h2cur
  have hFnew : getNode sF newId = some newNode := by
    rw [hsF, getNode_setNode_ne _ (by omega), h2get]
    exact h1new
  have hFother : ∀ j, j ≠ cur → j ≠ newId → getNode sF j = getNode s j := by
    intro j h1 h2
    rw [hsF, getNode_setNode_ne _ (fun h => h1 h.symm), h2get, h1old j h2]
  have hFtblself : tableAt sF lvl = insertSorted newId (tableAt s lvl) := by
    rw [hsF, tableAt_setNode]
    exact h2tblself
  have hFtblne : ∀ l, l ≠ lvl → tableAt sF l = tableAt s l := by
    intro l hl
    rw [hsF, tableAt_setNode]
    exact h2tblne l hl
  have hFntbl : sF.NodeTable.length = s.NodeTable.length := by
    rw [hsF, hs2]
    show (s1.NodeTable.set lvl _).length = _
    rw [List.length_set]
  have hFlenN : sF.AllNodes.length = s.AllNodes.length + 1 := by
    rw [hsF]
    show (s2.AllNodes.set cur _).length = _
    rw [List.length_set]
    show (s.AllNodes ++ [some newNode]).length = _
    rw [List.length_append]
    rfl
  have hFnodes : sF.NumberOfNodes = s.NumberOfNodes + 1 := rfl
  have hFnm : sF.NumberOfMarkers = s.NumberOfMarkers := rfl
  have hFcase : ∀ {j : ℕ} {n2 : ClusteringNode}, getNode sF j = some n2 →
      (j = newId ∧ newNode = n2) ∨ (j = cur ∧ curN2 = n2) ∨
      (j ≠ newId ∧ j ≠ cur ∧ getNode s j = some n2) := by
    intro j n2 hj
    by_cases h1 : j = newId
    · rw [h1, hFnew] at hj
      exact Or.inl ⟨h1, Option.some_inj.mp hj⟩
    by_cases h2 : j = cur
    · rw [h2, hFcur] at hj
      exact Or.inr (Or.inl ⟨h2, Option.some_inj.mp hj⟩)
    · exact Or.inr (Or.inr ⟨h1, h2, by rw [← hFother j h2 h1]; exact hj⟩)
  have hlive_ne_new : ∀ {j : ℕ} {n2 : ClusteringNode},
      getNode s j = some n2 → j ≠ newId := by
    intro j n2 hj
    have := live_id_lt hc hj
    omega
  have hchild_ne : ∀ {j : ℕ} {n2 : ClusteringNode},
      getNode s j = some n2 → ∀ c ∈ n2.Children, c ≠ newId ∧ c ≠ cur := by
    intro j n2 hj c hcmem
    obtain ⟨cn, hcn, _, _⟩ := hc.childCoh j n2 hj c hcmem
    exact ⟨hlive_ne_new hcn, fun h => hfresh j n2 hj (h ▸ hcmem)⟩
  have hchild_frame : ∀ {j : ℕ} {n2 : ClusteringNode},
      getNode s j = some n2 → ∀ c ∈ n2.Children, getNode sF c = getNode s c := by
    intro j n2 hj c hcmem
    obtain ⟨h1, h2⟩ := hchild_ne hj c hcmem
    exact hFother c h2 h1
  have hcurlevnat : curN.Level.toNat = lvl + 1 := by
    rw [hcurlev]
    omega
  have hrun : copyStep s cur lvl = some (sF, newId) := by
    unfold copyStep
    rw [hcur]
    simp only
    rw [show getNode (setTable { s with
      AllNodes := s.AllNodes ++ [some newNode]
      NumberOfNodes := s.NumberOfNodes + 1 } lvl
        (insertSorted s.NumberOfNodes
          (tableAt { s with
            AllNodes := s.AllNodes ++ [some newNode]
            NumberOfNodes := s.NumberOfNodes + 1 } lvl))) cur = some curN
      from h2cur]
  refine ⟨sF, hrun, ?_, ?_, ?_, ?_, ?_, ?_, ?_, ?_, ?_, ?_⟩
  · refine ⟨?_, ?_, ?_, ?_, ?_, ?_, ?_, ?_, ?_, ?_⟩
    · exact hc.clustering
    · rw [hFntbl]
      exact hc.ntblLen
    · rw [hFlenN, hFnodes, hlen]
    · intro i n2 hi
      rcases hFcase hi with ⟨h1, rfl⟩ | ⟨h1, rfl⟩ | ⟨_, _, hold⟩
      · rw [hnnId, h1]
      · rw [hc2Id, hc.arenaId cur curN hcur, h1]
      · exact hc.arenaId i n2 hold
    · intro l i hi
      by_cases hl : l = lvl
      · rw [hl] at hi ⊢
        rw [hFtblself] at hi
        rcases mem_insertSorted.mp hi with h | hi2
        · refine ⟨newNode, ?_, hnnLevel⟩
          rw [h]
          exact hFnew
        · obtain ⟨n2, hn2, hlev⟩ := hc.tableLive lvl i hi2
          have hicur : i ≠ cur := by
            intro h
            rw [h, hcur] at hn2
            cases hn2
            rw [hcurlev] at hlev
            omega
          refine ⟨n2, ?_, hlev⟩
          rw [hFother i hicur (hlive_ne_new hn2)]
          exact hn2
      · rw [hFtblne l hl] at hi
        obtain ⟨n2, hn2, hlev⟩ := hc.tableLive l i hi
        by_cases hicur : i = cur
        · rw [hicur, hcur] at hn2
          cases hn2
          refine ⟨curN2, ?_, ?_⟩
          · rw [hicur]
            exact hFcur
          · rw [hc2Level]
            exact hlev
        · refine ⟨n2, ?_, hlev⟩
          rw [hFother i hicur (hlive_ne_new hn2)]
          exact hn2
    · intro i n2 hi
      rcases hFcase hi with ⟨h1, rfl⟩ | ⟨h1, rfl⟩ | ⟨hne1, hne2, hold⟩
      · refine ⟨by rw [hnnLevel]; omega, ?_, ?_⟩
        · rw [hnnLevel]
          show (lvl : ℤ) < ((20 : ℕ) : ℤ)
          push_cast
          omega
        · rw [show newNode.Level.toNat = lvl from by rw [hnnLevel]; omega,
              hFtblself, h1]
          exact mem_insertSorted.mpr (Or.inl rfl)
      · obtain ⟨hge, hlt, hmem⟩ := hc.complete cur curN hcur
        rw [hc2Level]
        refine ⟨hge, hlt, ?_⟩
        rw [hFtblne _ (by rw [hcurlevnat]; omega), h1]
        exact hmem
      · obtain ⟨hge, hlt, hmem⟩ := hc.complete i n2 hold
        refine ⟨hge, hlt, ?_⟩
        by_cases hl : n2.Level.toNat = lvl
        · rw [hl, hFtblself]
          exact mem_insertSorted.mpr (Or.inr (hl ▸ hmem))
        · rw [hFtblne _ hl]
          exact hmem
    · intro l
      by_cases hl : l = lvl
      · rw [hl, hFtblself]
        exact insertSorted_sorted newId _ (hc.sorted lvl)
      · rw [hFtblne l hl]
        exact hc.sorted l
    · intro i n2 hi
      rcases hFcase hi with ⟨_, rfl⟩ | ⟨_, rfl⟩ | ⟨_, _, hold⟩
      · rw [hnnCh]
        exact List.sorted_singleton cur
      · rw [hc2Ch]
        exact hc.childSorted cur curN hcur
      · exact hc.childSorted i n2 hold
    · intro i n2 hi c hcmem
      rcases hFcase hi with ⟨h1, rfl⟩ | ⟨h1, rfl⟩ | ⟨hne1, hne2, hold⟩
      · rw [hnnCh] at hcmem
        have hcc : c = cur := by
          rcases List.mem_cons.mp hcmem with h | h
          · exact h
          · exact absurd h (List.not_mem_nil _)
        refine ⟨curN2, ?_, ?_, ?_⟩
        · rw [hcc]
          exact hFcur
        · rw [hc2Par, h1]
        · rw [hc2Level, hcurlev, hnnLevel]
      · rw [hc2Ch] at hcmem
        obtain ⟨cn, hcn, hp, hlev⟩ := hc.childCoh cur curN hcur c hcmem
        refine ⟨cn, ?_, ?_, ?_⟩
        · rw [hchild_frame hcur c hcmem]
          exact hcn
        · rw [hp, h1]
        · rw [hc2Level]
          exact hlev
      · obtain ⟨cn, hcn, hp, hlev⟩ := hc.childCoh i n2 hold c hcmem
        refine ⟨cn, ?_, hp, hlev⟩
        rw [hchild_frame hold c hcmem]
        exact hcn
    · intro i n2 p hi hp
      rcases hFcase hi with ⟨h1, rfl⟩ | ⟨h1, rfl⟩ | ⟨hne1, hne2, hold⟩
      · rw [hnnPar] at hp
        cases hp
      · rw [hc2Par] at hp
        cases hp
        refine ⟨newNode, hFnew, ?_, ?_⟩
        · rw [hnnCh, h1]
          exact List.mem_cons_self _ _
        · rw [hnnLevel, hc2Level, hcurlev]
          ring
      · obtain ⟨pn, hpn, hmem, hlev⟩ := hc.parentCoh i n2 p hold hp
        by_cases hpcur : p = cur
        · rw [hpcur, hcur] at hpn
          cases hpn
          refine ⟨curN2, ?_, ?_, ?_⟩
          · rw [hpcur]
            exact hFcur
          · rw [hc2Ch]
            exact hmem
          · rw [hc2Level]
            exact hlev
        · refine ⟨pn, ?_, hmem, hlev⟩
          rw [hFother p hpcur (hlive_ne_new hpn)]
          exact hpn
  · refine @table19OK_congr s sF ?_ hFnm ?_ ht19
    · refine hFtblne _ ?_
      rw [h20]
      omega
    · intro i hi
      obtain ⟨n2, hn2, hlev⟩ := hc.tableLive _ i hi
      by_cases hicur : i = cur
      · rw [hicur, hcur] at hn2
        cases hn2
        exact ⟨curN, by rw [hicur]; exact hcur, curN2,
          by rw [hicur]; exact hFcur, hc2Cnt, rfl⟩
      · exact ⟨n2, hn2, n2,
          by rw [hFother i hicur (hlive_ne_new hn2)]; exact hn2, rfl, rfl⟩
  · intro i n2 hi
    rcases hFcase hi with ⟨h1, rfl⟩ | ⟨h1, rfl⟩ | ⟨hne1, hne2, hold⟩
    · intro _
      have hcc : nodeCount sF cur = curN.NumberOfMarkers := by
        unfold nodeCount
        rw [hFcur, hc2Cnt]
      have hcx : nodeGcsX sF cur = curN.gcsX := by
        unfold nodeGcsX
        rw [hFcur, hc2X]
      have hcy : nodeGcsY sF cur = curN.gcsY := by
        unfold nodeGcsY
        rw [hFcur, hc2Y]
      rw [hnnCh]
      refine ⟨?_, ?_, ?_⟩
      · unfold childrenCountSum
        simp only [List.map_cons, List.map_nil, List.sum_cons, List.sum_nil]
        rw [hcc, hnnCnt]
        ring
      · unfold childrenMomentX
        simp only [List.map_cons, List.map_nil, List.sum_cons, List.sum_nil]
        rw [hcc, hcx, hnnX, hnnCnt]
        ring
      · unfold childrenMomentY
        simp only [List.map_cons, List.map_nil, List.sum_cons, List.sum_nil]
        rw [hcc, hcy, hnnY, hnnCnt]
        ring
    · have hck : nodeOK sF curN := by
        refine nodeOK_congr ?_ (hok cur curN hcur)
        intro c hcmem
        exact hchild_frame hcur c hcmem
      intro hnonempty
      rw [hc2Ch] at hnonempty ⊢
      have := hck hnonempty
      rw [hc2Cnt, hc2X, hc2Y]
      exact this
    · refine nodeOK_congr ?_ (hok i n2 hold)
      intro c hcmem
      exact hchild_frame hold c hcmem
  · intro i n2 hi
    rcases hFcase hi with ⟨_, rfl⟩ | ⟨_, rfl⟩ | ⟨_, _, hold⟩
    · rw [hnnCnt]
      exact hcpos cur curN hcur
    · rw [hc2Cnt]
      exact hcpos cur curN hcur
    · exact hcpos i n2 hold
  · intro i n2 hi
    rcases hFcase hi with ⟨_, rfl⟩ | ⟨_, rfl⟩ | ⟨_, _, hold⟩
    · intro _
      rw [hnnCh]
      exact List.cons_ne_nil _ _
    · rw [hc2Level, hc2Ch]
      exact hne cur curN hcur
    · exact hne i n2 hold
  · intro i n2 hi hlev hinew
    rcases hFcase hi with ⟨h1, rfl⟩ | ⟨h1, rfl⟩ | ⟨hne1, hne2, hold⟩
    · exact absurd h1 hinew
    · exact ⟨newId, hc2Par⟩
    · exact hpex i n2 hold hlev hne2
  · exact ⟨newNode, hFnew, hnnLevel, hnnPar, by rw [hnnCnt]; exact hcurcnt⟩
  · intro i n2 hi hmem
    rcases hFcase hi with ⟨h1, rfl⟩ | ⟨h1, rfl⟩ | ⟨_, _, hold⟩
    · rw [hnnCh] at hmem
      rcases List.mem_cons.mp hmem with h | h
      · omega
      · exact absurd h (List.not_mem_nil _)
    · rw [hc2Ch] at hmem
      exact (hchild_ne hcur newId hmem).1 rfl
    · exact (hchild_ne hold newId hmem).1 rfl
  · exact hFnm
  · rfl

/-! ## Sum lemmas for child-set edits -/

theorem childrenCountSum_insert (s : MarkerSetState) (x : ℕ) (l : List ℕ)
    (hx : x ∉ l) : childrenCountSum s (insertSorted x l) =
      nodeCount s x + childrenCountSum s l := by
  unfold childrenCountSum
  rw [List.Perm.sum_eq (List.Perm.map (nodeCount s) (insertSorted_perm x l hx))]
  simp

theorem childrenMomentX_insert (s : MarkerSetState) (x : ℕ) (l : List ℕ)
    (hx : x ∉ l) : childrenMomentX s (insertSorted x l) =
      ((nodeCount s x : ℤ) : ℚ) * nodeGcsX s x + childrenMomentX s l := by
  unfold childrenMomentX
  rw [List.Perm.sum_eq (List.Perm.map _ (insertSorted_perm x l hx))]
  simp

theorem childrenMomentY_insert (s : MarkerSetState) (x : ℕ) (l : List ℕ)
    (hx : x ∉ l) : childrenMomentY s (insertSorted x l) =
      ((nodeCount s x : ℤ) : ℚ) * nodeGcsY s x + childrenMomentY s l := by
  unfold childrenMomentY
  rw [List.Perm.sum_eq (List.Perm.map _ (insertSorted_perm x l hx))]
  simp

theorem childrenCountSum_union (s : MarkerSetState) (l1 l2 : List ℕ)
    (hnd : l2.Nodup) (hdisj : ∀ c ∈ l2, c ∉ l1) :
    childrenCountSum s (unionSorted l1 l2) =
      childrenCountSum s l1 + childrenCountSum s l2 := by
  unfold childrenCountSum
  rw [List.Perm.sum_eq (List.Perm.map (nodeCount s)
    (unionSorted_perm l2 l1 hnd hdisj))]
  simp

theorem childrenMomentX_union (s : MarkerSetState) (l1 l2 : List ℕ)
    (hnd : l2.Nodup) (hdisj : ∀ c ∈ l2, c ∉ l1) :
    childrenMomentX s (unionSorted l1 l2) =
      childrenMomentX s l1 + childrenMomentX s l2 := by
  unfold childrenMomentX
  rw [List.Perm.sum_eq (List.Perm.map _ (unionSorted_perm l2 l1 hnd hdisj))]
  simp

theorem childrenMomentY_union (s : MarkerSetState) (l1 l2 : List ℕ)
    (hnd : l2.Nodup) (hdisj : ∀ c ∈ l2, c ∉ l1) :
    childrenMomentY s (unionSorted l1 l2) =
      childrenMomentY s l1 + childrenMomentY s l2 := by
  unfold childrenMomentY
  rw [List.Perm.sum_eq (List.Perm.map _ (unionSorted_perm l2 l1 hnd hdisj))]
  simp

theorem childrenCountSum_erase (s : MarkerSetState) (b : ℕ) (l : List ℕ)
    (hb : b ∈ l) : childrenCountSum s l =
      nodeCount s b + childrenCountSum s (l.erase b) := by
  unfold childrenCountSum
  rw [List.Perm.sum_eq (List.Perm.map (nodeCount s) (List.perm_cons_erase hb))]
  simp

theorem childrenMomentX_erase (s : MarkerSetState) (b : ℕ) (l : List ℕ)
    (hb : b ∈ l) : childrenMomentX s l =
      ((nodeCount s b : ℤ) : ℚ) * nodeGcsX s b + childrenMomentX s (l.erase b) := by
  unfold childrenMomentX
  rw [List.Perm.sum_eq (List.Perm.map _ (List.perm_cons_erase hb))]
  simp

theorem childrenMomentY_erase (s : MarkerSetState) (b : ℕ) (l : List ℕ)
    (hb : b ∈ l) : childrenMomentY s l =
      ((nodeCount s b : ℤ) : ℚ) * nodeGcsY s b + childrenMomentY s (l.erase b) := by
  unfold childrenMomentY
  rw [List.Perm.sum_eq (List.Perm.map _ (List.perm_cons_erase hb))]
  simp

theorem insertSorted_ne_nil (x : ℕ) (l : List ℕ) : insertSorted x l ≠ [] := by
  intro h
  have := mem_insertSorted.mpr (Or.inl rfl : x = x ∨ x ∈ l)
  rw [h] at this
  exact absurd this (List.not_mem_nil x)

/-- The partner-found climb branch preserves the structural invariant and
the aggregation invariant everywhere except at the partner's parent, whose
stored count and position become stale; the partner itself absorbs the
climbing node exactly. -/
theorem climbMerge_inv (s : MarkerSetState) (cur closest lvl : ℕ)
    (curN cN : ClusteringNode)
    (hc : Core s) (ht19 : table19OK s) (hok : allOK s) (hcpos : allCpos s)
    (hne : allNonempty s)
    (hpex : ∀ i n, getNode s i = some n → 1 ≤ n.Level → i ≠ cur →
      ∃ p, n.Parent = some p)
    (hcur : getNode s cur = some curN)
    (hcurlev : curN.Level = (lvl : ℤ) + 1)
    (hcurpar : curN.Parent = none)
    (hcurcnt : curN.NumberOfMarkers = 1)
    (hfresh : ∀ i n, getNode s i = some n → cur ∉ n.Children)
    (hcl : getNode s closest = some cN)
    (hcllev : cN.Level = (lvl : ℤ))
    (hclcur : closest ≠ cur)
    (hlvl2 : lvl + 2 ≤ NumberOfClusterLevels) :
    ∃ s', climbMerge s cur closest = some s' ∧
      Core s' ∧ table19OK s' ∧ allCpos s' ∧ allNonempty s' ∧
      allParentEx s' ∧
      (∃ cN2, getNode s' closest = some cN2 ∧ cN2.Parent = cN.Parent ∧
        cN2.Level = (lvl : ℤ) ∧
        (∀ i n, getNode s' i = some n →
          (∀ p, cN.Parent = some p → i ≠ p) → nodeOK s' n)) ∧
      s'.NumberOfMarkers = s.NumberOfMarkers ∧
      s'.ClusterDistance = s.ClusterDistance ∧
      (∀ l2, tableAt s' l2 = tableAt s l2) := by
  have h20 : (NumberOfClusterLevels : ℕ) = 20 := rfl
  have hlvl18 : lvl ≤ 18 := by omega
  have hcurfresh : cur ∉ cN.Children := hfresh closest cN hcl
  have hclself : closest ∉ cN.Children := not_mem_self_children hc hcl
  have hclcnt : 1 ≤ cN.NumberOfMarkers := hcpos closest cN hcl
  have hclne : cN.Children ≠ [] := hne closest cN hcl (by rw [hcllev]; omega)
  set A : ClusteringNode := { cN with
    gcsX := (cN.gcsX * (cN.NumberOfMarkers : ℚ) + curN.gcsX) /
      (1 + (cN.NumberOfMarkers : ℚ))
    gcsY := (cN.gcsY * (cN.NumberOfMarkers : ℚ) + curN.gcsY) /
      (1 + (cN.NumberOfMarkers : ℚ))
    NumberOfMarkers := cN.NumberOfMarkers + 1
    MarkerId := -1
    Children := insertSorted cur cN.Children } with hA
  have hAId : A.NodeId = cN.NodeId := rfl
  have hALevel : A.Level = cN.Level := rfl
  have hAPar : A.Parent = cN.Parent := rfl
  have hACh : A.Children = insertSorted cur cN.Children := rfl
  have hACnt : A.NumberOfMarkers = cN.NumberOfMarkers + 1 := rfl
  have hAX : A.gcsX = (cN.gcsX * (cN.NumberOfMarkers : ℚ) + curN.gcsX) /
      (1 + (cN.NumberOfMarkers : ℚ)) := rfl
  have hAY : A.gcsY = (cN.gcsY * (cN.NumberOfMarkers : ℚ) + curN.gcsY) /
      (1 + (cN.NumberOfMarkers : ℚ)) := rfl
  set curB : ClusteringNode := { curN with Parent := some closest } with hcurB
  have hBId : curB.NodeId = curN.NodeId := rfl
  have hBLevel : curB.Level = curN.Level := rfl
  have hBPar : curB.Parent = some closest := rfl
  have hBCh : curB.Children = curN.Children := rfl
  have hBCnt : curB.NumberOfMarkers = curN.NumberOfMarkers := rfl
  have hBX : curB.gcsX = curN.gcsX := rfl
  have hBY : curB.gcsY = curN.gcsY := rfl
  set s1 := setNode s closest A with hs1
  have h1cl : getNode s1 closest = some A := getNode_setNode_self _ hcl
  have h1cur : getNode s1 cur = some curN := by
    rw [hs1, getNode_setNode_ne _ hclcur]
    exact hcur
  set sF := setNode s1 cur curB with hsF
  have hFcur : getNode sF cur = some curB := getNode_setNode_self _ h1cur
  have hFcl : getNode sF closest = some A := by
    rw [hsF, getNode_setNode_ne _ (fun h => hclcur h.symm)]
    exact h1cl
  have hFother : ∀ j, j ≠ closest → j ≠ cur → getNode sF j = getNode s j := by
    intro j h1 h2
    rw [hsF, getNode_setNode_ne _ (fun h => h2 h.symm), hs1,
        getNode_setNode_ne _ (fun h => h1 h.symm)]
  have hFtbl : ∀ l2, tableAt sF l2 = tableAt s l2 := by
    intro l2
    rw [hsF, tableAt_setNode, hs1, tableAt_setNode]
  have hFcase : ∀ {j : ℕ} {n2 : ClusteringNode}, getNode sF j = some n2 →
      (j = closest ∧ A = n2) ∨ (j = cur ∧ curB = n2) ∨
      (j ≠ closest ∧ j ≠ cur ∧ getNode s j = some n2) := by
    intro j n2 hj
    by_cases h1 : j = closest
    · rw [h1, hFcl] at hj
      exact Or.inl ⟨h1, Option.some_inj.mp hj⟩
    by_cases h2 : j = cur
    · rw [h2, hFcur] at hj
      exact Or.inr (Or.inl ⟨h2, Option.some_inj.mp hj⟩)
    · exact Or.inr (Or.inr ⟨h1, h2, by rw [← hFother j h1 h2]; exact hj⟩)
  have hchild_ne : ∀ {j : ℕ} {n2 : ClusteringNode}, getNode s j = some n2 →
      ∀ c ∈ n2.Children, c ≠ cur := by
    intro j n2 hj c hcmem h
    exact hfresh j n2 hj (h ▸ hcmem)
  have hclchild_ne : ∀ c ∈ cN.Children, c ≠ closest ∧ c ≠ cur := by
    intro c hcmem
    exact ⟨fun h => hclself (h ▸ hcmem), hchild_ne hcl c hcmem⟩
  have hcurchild_ne : ∀ c ∈ curN.Children, c ≠ closest ∧ c ≠ cur := by
    intro c hcmem
    refine ⟨?_, hchild_ne hcur c hcmem⟩
    intro h
    obtain ⟨cn, hcn, _, hlev⟩ := hc.childCoh cur curN hcur c hcmem
    rw [h, hcl] at hcn
    cases hcn
    rw [hcllev, hcurlev] at hlev
    omega
  have hclchild_frame : ∀ c ∈ cN.Children, getNode sF c = getNode s c := by
    intro c hcmem
    obtain ⟨h1, h2⟩ := hclchild_ne c hcmem
    exact hFother c h1 h2
  have hrun : climbMerge s cur closest = some sF := by
    unfold climbMerge
    rw [hcl]
    simp only
    rw [hcur]
    simp only
    rw [show getNode (setNode s closest { cN with
      gcsX := (cN.gcsX * (cN.NumberOfMarkers : ℚ) + curN.gcsX) /
        (1 + (cN.NumberOfMarkers : ℚ))
      gcsY := (cN.gcsY * (cN.NumberOfMarkers : ℚ) + curN.gcsY) /
        (1 + (cN.NumberOfMarkers : ℚ))
      NumberOfMarkers := cN.NumberOfMarkers + 1
      MarkerId := -1
      Children := insertSorted cur cN.Children }) cur = some curN
      from h1cur]
  refine ⟨sF, hrun, ?_, ?_, ?_, ?_, ?_, ?_, rfl, rfl, hFtbl⟩
  · refine ⟨?_, ?_, ?_, ?_, ?_, ?_, ?_, ?_, ?_, ?_⟩
    · exact hc.clustering
    · show s1.NodeTable.length = _
      show s.NodeTable.length = _
      exact hc.ntblLen
    · show (s1.AllNodes.set cur _).length = _
      rw [List.length_set]
      show (s.AllNodes.set closest _).length = _
      rw [List.length_set]
      exact hc.arenaLen
    · intro i n2 hi
      rcases hFcase hi with ⟨h1, rfl⟩ | ⟨h1, rfl⟩ | ⟨_, _, hold⟩
      · rw [hAId, hc.arenaId closest cN hcl, h1]
      · rw [hBId, hc.arenaId cur curN hcur, h1]
      · exact hc.arenaId i n2 hold
    · intro l i hi
      rw [hFtbl l] at hi
      obtain ⟨n2, hn2, hlev⟩ := hc.tableLive l i hi
      by_cases h1 : i = closest
      · rw [h1, hcl] at hn2
        cases hn2
        refine ⟨A, ?_, ?_⟩
        · rw [h1]
          exact hFcl
        · rw [hALevel]
          exact hlev
      by_cases h2 : i = cur
      · rw [h2, hcur] at hn2
        cases hn2
        refine ⟨curB, ?_, ?_⟩
        · rw [h2]
          exact hFcur
        · rw [hBLevel]
          exact hlev
      · refine ⟨n2, ?_, hlev⟩
        rw [hFother i h1 h2]
        exact hn2
    · intro i n2 hi
      rcases hFcase hi with ⟨h1, rfl⟩ | ⟨h1, rfl⟩ | ⟨hne1, hne2, hold⟩
      · obtain ⟨hge, hlt, hmem⟩ := hc.complete closest cN hcl
        rw [hALevel]
        refine ⟨hge, hlt, ?_⟩
        rw [hFtbl, h1]
        exact hmem
      · obtain ⟨hge, hlt, hmem⟩ := hc.complete cur curN hcur
        rw [hBLevel]
        refine ⟨hge, hlt, ?_⟩
        rw [hFtbl, h1]
        exact hmem
      · obtain ⟨hge, hlt, hmem⟩ := hc.complete i n2 hold
        refine ⟨hge, hlt, ?_⟩
        rw [hFtbl]
        exact hmem
    · intro l
      rw [hFtbl l]
      exact hc.sorted l
    · intro i n2 hi
      rcases hFcase hi with ⟨_, rfl⟩ | ⟨_, rfl⟩ | ⟨_, _, hold⟩
      · rw [hACh]
        exact insertSorted_sorted cur _ (hc.childSorted closest cN hcl)
      · rw [hBCh]
        exact hc.childSorted cur curN hcur
      · exact hc.childSorted i n2 hold
    · intro i n2 hi c hcmem
      rcases hFcase hi with ⟨h1, rfl⟩ | ⟨h1, rfl⟩ | ⟨hne1, hne2, hold⟩
      · rw [hACh] at hcmem
        rcases mem_insertSorted.mp hcmem with hcc | hcmem2
        · refine ⟨curB, ?_, ?_, ?_⟩
          · rw [hcc]
            exact hFcur
          · rw [hBPar, h1]
          · rw [hBLevel, hALevel, hcurlev, hcllev]
        · obtain ⟨cn, hcn, hp, hlev⟩ := hc.childCoh closest cN hcl c hcmem2
          obtain ⟨hc1, hc2⟩ := hclchild_ne c hcmem2
          refine ⟨cn, ?_, ?_, ?_⟩
          · rw [hFother c hc1 hc2]
            exact hcn
          · rw [hp, h1]
          · rw [hALevel]
            exact hlev
      · rw [hBCh] at hcmem
        obtain ⟨cn, hcn, hp, hlev⟩ := hc.childCoh cur curN hcur c hcmem
        obtain ⟨hc1, hc2⟩ := hcurchild_ne c hcmem
        refine ⟨cn, ?_, ?_, ?_⟩
        · rw [hFother c hc1 hc2]
          exact hcn
        · rw [hp, h1]
        · rw [hBLevel]
          exact hlev
      · obtain ⟨cn, hcn, hp, hlev⟩ := hc.childCoh i n2 hold c hcmem
        have hc2 : c ≠ cur := hchild_ne hold c hcmem
        by_cases hc1 : c = closest
        · rw [hc1, hcl] at hcn
          cases hcn
          refine ⟨A, ?_, ?_, ?_⟩
          · rw [hc1]
            exact hFcl
          · rw [hAPar]
            exact hp
          · rw [hALevel]
            exact hlev
        · refine ⟨cn, ?_, hp, hlev⟩
          rw [hFother c hc1 hc2]
          exact hcn
    · intro i n2 p hi hp
      rcases hFcase hi with ⟨h1, rfl⟩ | ⟨h1, rfl⟩ | ⟨hne1, hne2, hold⟩
      · rw [hAPar] at hp
        obtain ⟨pn, hpn, hmem, hlev⟩ := hc.parentCoh closest cN p hcl hp
        have hp1 : p ≠ closest := by
          intro h
          rw [h, hcl] at hpn
          cases hpn
          rw [hcllev] at hlev
          omega
        have hp2 : p ≠ cur := by
          intro h
          rw [h, hcur] at hpn
          cases hpn
          rw [hcllev, hcurlev] at hlev
          omega
        refine ⟨pn, ?_, ?_, ?_⟩
        · rw [hFother p hp1 hp2]
          exact hpn
        · rw [h1]
          exact hmem
        · rw [hALevel]
          exact hlev
      · rw [hBPar] at hp
        cases hp
        refine ⟨A, hFcl, ?_, ?_⟩
        · rw [hACh, h1]
          exact mem_insertSorted.mpr (Or.inl rfl)
        · rw [hALevel, hBLevel, hcllev, hcurlev]
          ring
      · obtain ⟨pn, hpn, hmem, hlev⟩ := hc.parentCoh i n2 p hold hp
        by_cases hp1 : p = closest
        · rw [hp1, hcl] at hpn
          cases hpn
          refine ⟨A, ?_, ?_, ?_⟩
          · rw [hp1]
            exact hFcl
          · rw [hACh]
            exact mem_insertSorted.mpr (Or.inr hmem)
          · rw [hALevel]
            exact hlev
        by_cases hp2 : p = cur
        · rw [hp2, hcur] at hpn
          cases hpn
          refine ⟨curB, ?_, ?_, ?_⟩
          · rw [hp2]
            exact hFcur
          · rw [hBCh]
            exact hmem
          · rw [hBLevel]
            exact hlev
        · refine ⟨pn, ?_, hmem, hlev⟩
          rw [hFother p hp1 hp2]
          exact hpn
  · refine @table19OK_congr s sF ?_ rfl ?_ ht19
    · exact hFtbl _
    · intro i hi
      obtain ⟨n2, hn2, hlev⟩ := hc.tableLive _ i hi
      have h1 : i ≠ closest := by
        intro h
        rw [h, hcl] at hn2
        cases hn2
        rw [hcllev] at hlev
        rw [h20] at hlev
        omega
      by_cases h2 : i = cur
      · rw [h2, hcur] at hn2
        cases hn2
        exact ⟨curN, by rw [h2]; exact hcur, curB,
          by rw [h2]; exact hFcur, hBCnt, rfl⟩
      · exact ⟨n2, hn2, n2, by rw [hFother i h1 h2]; exact hn2, rfl, rfl⟩
  · intro i n2 hi
    rcases hFcase hi with ⟨_, rfl⟩ | ⟨_, rfl⟩ | ⟨_, _, hold⟩
    · rw [hACnt]
      omega
    · rw [hBCnt]
      exact hcpos cur curN hcur
    · exact hcpos i n2 hold
  · intro i n2 hi
    rcases hFcase hi with ⟨_, rfl⟩ | ⟨_, rfl⟩ | ⟨_, _, hold⟩
    · intro _
      rw [hACh]
      exact insertSorted_ne_nil cur _
    · rw [hBLevel, hBCh]
      exact hne cur curN hcur
    · exact hne i n2 hold
  · intro i n2 hi hlev
    rcases hFcase hi with ⟨h1, rfl⟩ | ⟨h1, rfl⟩ | ⟨hne1, hne2, hold⟩
    · rw [hAPar]
      rw [hALevel] at hlev
      obtain ⟨p, hp⟩ := hpex closest cN hcl hlev (h1 ▸ hclcur)
      exact ⟨p, hp⟩
    · exact ⟨closest, hBPar⟩
    · exact hpex i n2 hold hlev hne2
  · refine ⟨A, hFcl, hAPar, by rw [hALevel, hcllev], ?_⟩
    intro i n2 hi hexc
    rcases hFcase hi with ⟨h1, rfl⟩ | ⟨h1, rfl⟩ | ⟨hne1, hne2, hold⟩
    · intro _
      have hccount : nodeCount sF cur = 1 := by
        unfold nodeCount
        rw [hFcur]
        show curB.NumberOfMarkers = 1
        rw [hBCnt, hcurcnt]
      have hcx : nodeGcsX sF cur = curN.gcsX := by
        unfold nodeGcsX
        rw [hFcur, hBX]
      have hcy : nodeGcsY sF cur = curN.gcsY := by
        unfold nodeGcsY
        rw [hFcur, hBY]
      obtain ⟨hcnt0, hmx0, hmy0⟩ := hok closest cN hcl hclne
      have hcntF : childrenCountSum sF cN.Children =
          childrenCountSum s cN.Children :=
        childrenCountSum_congr hclchild_frame
      have hmxF : childrenMomentX sF cN.Children =
          childrenMomentX s cN.Children :=
        childrenMomentX_congr hclchild_frame
      have hmyF : childrenMomentY sF cN.Children =
          childrenMomentY s cN.Children :=
        childrenMomentY_congr hclchild_frame
      have hden : (1 + (cN.NumberOfMarkers : ℚ)) ≠ 0 := by
        have h1 : (1 : ℚ) ≤ (cN.NumberOfMarkers : ℚ) := by
          exact_mod_cast hclcnt
        have h2 : (0 : ℚ) < 1 + (cN.NumberOfMarkers : ℚ) := by linarith
        exact ne_of_gt h2
      rw [hACh, hACnt]
      refine ⟨?_, ?_, ?_⟩
      · rw [childrenCountSum_insert sF cur _ hcurfresh, hccount, hcntF,
            ← hcnt0]
        ring
      · rw [childrenMomentX_insert sF cur _ hcurfresh, hccount, hcx, hmxF,
            ← hmx0, hAX]
        rw [div_mul_eq_mul_div, div_eq_iff hden]
        push_cast
        ring
      · rw [childrenMomentY_insert sF cur _ hcurfresh, hccount, hcy, hmyF,
            ← hmy0, hAY]
        rw [div_mul_eq_mul_div, div_eq_iff hden]
        push_cast
        ring
    · have hbase : nodeOK s curB := by
        intro hne3
        rw [hBCh] at hne3
        obtain ⟨u1, u2, u3⟩ := hok cur curN hcur hne3
        rw [hBCh, hBCnt, hBX, hBY]
        exact ⟨u1, u2, u3⟩
      refine nodeOK_congr ?_ hbase
      intro c hcmem
      rw [hBCh] at hcmem
      obtain ⟨hc1, hc2⟩ := hcurchild_ne c hcmem
      exact hFother c hc1 hc2
    · refine nodeOK_congr ?_ (hok i n2 hold)
      intro c hcmem
      have hc2 : c ≠ cur := hchild_ne hold c hcmem
      have hc1 : c ≠ closest := by
        intro h
        obtain ⟨cn, hcn, hp, _⟩ := hc.childCoh i n2 hold c hcmem
        rw [h, hcl] at hcn
        cases hcn
        rw [hp] at hexc
        exact hexc i rfl rfl
      exact hFother c hc1 hc2

/-- Case analysis of one climb iteration under the climb invariant:
either the loop breaks with the structural invariant intact and the
aggregation invariant holding everywhere except at the partner's parent,
or it continues with a fresh climbing node one level coarser. -/
theorem climbStep_cases (thr : ℚ) (s : MarkerSetState) (cur L : ℕ)
    (hI : CInv s L cur) (hlvl : L + 2 ≤ NumberOfClusterLevels) :
    ∀ r, climbStep thr s cur L = some r →
    (∃ s2 c, r = Sum.inl (s2, c) ∧
      Core s2 ∧ table19OK s2 ∧ allCpos s2 ∧ allNonempty s2 ∧
      allParentEx s2 ∧
      s2.NumberOfMarkers = s.NumberOfMarkers ∧
      s2.ClusterDistance = s.ClusterDistance ∧
      (∃ cN2, getNode s2 c = some cN2 ∧ cN2.Level = (L : ℤ) ∧
        (∀ i n, getNode s2 i = some n →
          (∀ p, cN2.Parent = some p → i ≠ p) → nodeOK s2 n))) ∨
    (∃ s2, r = Sum.inr (s2, s.NumberOfNodes) ∧
      Core s2 ∧ table19OK s2 ∧ allOK s2 ∧ allCpos s2 ∧ allNonempty s2 ∧
      (∀ i n, getNode s2 i = some n → 1 ≤ n.Level → i ≠ s.NumberOfNodes →
        ∃ p, n.Parent = some p) ∧
      (∃ nn, getNode s2 s.NumberOfNodes = some nn ∧
        nn.Level = (L : ℤ) ∧ nn.Parent = none ∧ nn.NumberOfMarkers = 1) ∧
      (∀ i n, getNode s2 i = some n → s.NumberOfNodes ∉ n.Children) ∧
      s2.NumberOfMarkers = s.NumberOfMarkers ∧
      s2.ClusterDistance = s.ClusterDistance) := by
  intro r hr
  obtain ⟨curN, hcur, hcurlev, hcurpar, hcurcnt⟩ := hI.cur_live
  unfold climbStep at hr
  cases hfc : findClosestNode s cur L thr with
  | none =>
    rw [hfc] at hr
    cases hr
  | some o =>
    rw [hfc] at hr
    cases o with
    | none =>
      simp only at hr
      obtain ⟨s2, hrun, hco, ht19, hok2, hcpos2, hne2, hpex2, hnn, hfr2,
        hnm, hcd⟩ :=
        copyStep_inv s cur L curN hI.core hI.t19 hI.ok hI.cpos hI.ne
          hI.pex hcur hcurlev hcurpar hcurcnt hI.fresh hlvl
      rw [hrun] at hr
      cases hr
      exact Or.inr ⟨s2, rfl, hco, ht19, hok2, hcpos2, hne2, hpex2, hnn,
        hfr2, hnm, hcd⟩
    | some c =>
      simp only at hr
      obtain ⟨hcmem, hccur⟩ := findClosestNode_found hI.core hfc c rfl
      obtain ⟨cN, hcN, hcNlev⟩ := hI.core.tableLive L c hcmem
      obtain ⟨s2, hrun, hco, ht19, hcpos2, hne2, hpex2,
        ⟨cN2, hcN2, hcN2par, hcN2lev, hokx⟩, hnm, hcd, _⟩ :=
        climbMerge_inv s cur c L curN cN hI.core hI.t19 hI.ok hI.cpos
          hI.ne hI.pex hcur hcurlev hcurpar hcurcnt hI.fresh hcN hcNlev
          hccur hlvl
      rw [hrun] at hr
      cases hr
      refine Or.inl ⟨s2, c, rfl, hco, ht19, hcpos2, hne2, hpex2, hnm, hcd,
        cN2, hcN2, hcN2lev, ?_⟩
      intro i n hi hexc
      refine hokx i n hi ?_
      intro p hp
      exact hexc p (by rw [hcN2par]; exact hp)

/-- The insertion climb preserves the invariants: on exhaustion the full
boundary invariant holds (the last copy sits at level 0 and needs no
parent); on a break the aggregation invariant holds everywhere except at
the found partner's parent. -/
theorem climbLoop_inv (thr : ℚ) : ∀ (lvl : ℕ) (s : MarkerSetState)
    (cur : ℕ), CInv s lvl cur → lvl + 2 ≤ NumberOfClusterLevels →
    ∀ (s' : MarkerSetState) (out : ℕ) (brk : Option ℕ),
    climbLoop thr lvl s cur = some (s', out, brk) →
    s'.NumberOfMarkers = s.NumberOfMarkers ∧
    s'.ClusterDistance = s.ClusterDistance ∧
    (brk = none → BInv s') ∧
    (∀ L, brk = some L → L ≤ lvl ∧
      Core s' ∧ table19OK s' ∧ allCpos s' ∧ allNonempty s' ∧
      allParentEx s' ∧
      ∃ cN2, getNode s' out = some cN2 ∧ cN2.Level = (L : ℤ) ∧
        (∀ i n, getNode s' i = some n →
          (∀ p, cN2.Parent = some p → i ≠ p) → nodeOK s' n)) := by
  intro lvl
  induction lvl with
  | zero =>
    intro s cur hI hlvl s' out brk h
    rw [climbLoop] at h
    cases hstep : climbStep thr s cur 0 with
    | none =>
      rw [hstep] at h
      cases h
    | some r =>
      rw [hstep] at h
      rcases climbStep_cases thr s cur 0 hI hlvl r hstep with
        ⟨s2, c, rfl, hco, ht19, hcpos2, hne2, hpex2, hnm, hcd, hex⟩ |
        ⟨s2, rfl, hco, ht19, hok2, hcpos2, hne2, hpex2,
          ⟨nn, hnn, hnnlev, hnnpar, hnncnt⟩, hfr2, hnm, hcd⟩
      · simp only at h
        cases h
        refine ⟨hnm, hcd, ?_, ?_⟩
        · intro habs
          cases habs
        · intro L hL
          cases hL
          exact ⟨le_refl 0, hco, ht19, hcpos2, hne2, hpex2, hex⟩
      · simp only at h
        cases h
        refine ⟨hnm, hcd, ?_, ?_⟩
        · intro _
          refine ⟨hco, ht19, hok2, hcpos2, hne2, ?_⟩
          intro i n hi hlev
          by_cases hin : i = s.NumberOfNodes
          · rw [hin, hnn] at hi
            cases hi
            rw [hnnlev] at hlev
            omega
          · exact hpex2 i n hi hlev hin
        · intro L hL
          cases hL
  | succ l ih =>
    intro s cur hI hlvl s' out brk h
    rw [climbLoop] at h
    cases hstep : climbStep thr s cur (l + 1) with
    | none =>
      rw [hstep] at h
      cases h
    | some r =>
      rw [hstep] at h
      rcases climbStep_cases thr s cur (l + 1) hI hlvl r hstep with
        ⟨s2, c, rfl, hco, ht19, hcpos2, hne2, hpex2, hnm, hcd, hex⟩ |
        ⟨s2, rfl, hco, ht19, hok2, hcpos2, hne2, hpex2,
          ⟨nn, hnn, hnnlev, hnnpar, hnncnt⟩, hfr2, hnm, hcd⟩
      · simp only at h
        cases h
        refine ⟨hnm, hcd, ?_, ?_⟩
        · intro habs
          cases habs
        · intro L hL
          cases hL
          exact ⟨le_refl _, hco, ht19, hcpos2, hne2, hpex2, hex⟩
      · simp only at h
        have hI2 : CInv s2 l s.NumberOfNodes :=
          ⟨hco, ht19, hok2, hcpos2, hne2, hpex2,
            ⟨nn, hnn, by rw [hnnlev]; push_cast; ring, hnnpar, hnncnt⟩,
            hfr2⟩
        obtain ⟨hnm2, hcd2, hnone, hsome⟩ :=
          ih s2 s.NumberOfNodes hI2 (by omega) s' out brk h
        refine ⟨hnm2.trans hnm, hcd2.trans hcd, hnone, ?_⟩
        intro L hL
        obtain ⟨hLle, hrest⟩ := hsome L hL
        exact ⟨by omega, hrest⟩

/-- `AddMarker` under the boundary invariant: allocating the marker id and
the level-19 leaf reduces the call to the climb from level 18, and the
climb entry invariant holds with the leaf as the climbing node. -/
theorem addMarker_leaf (lat2y : ℚ → ℚ) (s : MarkerSetState) (la lo : ℚ)
    (hB : BInv s) :
    ∃ s3, addMarker lat2y s la lo =
      (match climbLoop s.ClusterDistance 18 s3 s.NumberOfNodes with
       | none => none
       | some (s4, cur, brokeAt) =>
         match getNode s4 cur with
         | none => none
         | some curNode =>
           match brokeAt with
           | none => some (s.NumberOfMarkers, { s4 with MarkersChanged := true })
           | some 0 => some (s.NumberOfMarkers, { s4 with MarkersChanged := true })
           | some (l + 1) =>
             match refineLoop s.ClusterDistance l s4 curNode.Parent [] with
             | none => none
             | some s5 =>
               some (s.NumberOfMarkers, { s5 with MarkersChanged := true })) ∧
      CInv s3 18 s.NumberOfNodes ∧
      s3.NumberOfMarkers = s.NumberOfMarkers + 1 ∧
      s3.ClusterDistance = s.ClusterDistance := by
  obtain ⟨hc, ht19, hok, hcpos, hne, hpex⟩ := hB
  have hlen : s.AllNodes.length = s.NumberOfNodes := hc.arenaLen
  set leafId := s.NumberOfNodes with hleafId
  set leaf : ClusteringNode :=
    { NodeId := leafId
      Level := ((19 : ℕ) : ℤ)
      gcsX := lo
      gcsY := lat2y la
      Parent := none
      Children := []
      NumberOfMarkers := 1
      MarkerId := (s.NumberOfMarkers : ℤ) } with hleaf
  have hlfId : leaf.NodeId = leafId := rfl
  have hlfLevel : leaf.Level = ((19 : ℕ) : ℤ) := rfl
  have hlfPar : leaf.Parent = none := rfl
  have hlfCh : leaf.Children = [] := rfl
  have hlfCnt : leaf.NumberOfMarkers = 1 := rfl
  have hlfMid : leaf.MarkerId = (s.NumberOfMarkers : ℤ) := rfl
  set leaf0 : ClusteringNode :=
    { NodeId := leafId
      Level := 0
      gcsX := lo
      gcsY := lat2y la
      Parent := none
      Children := []
      NumberOfMarkers := 1
      MarkerId := (s.NumberOfMarkers : ℤ) } with hleaf0
  set s1x : MarkerSetState := { s with
    NumberOfMarkers := s.NumberOfMarkers + 1
    NumberOfNodes := s.NumberOfNodes + 1
    AllNodes := s.AllNodes ++ [some leaf0] } with hs1x
  have hs1nodes : s1x.AllNodes = s.AllNodes ++ [some leaf0] := rfl
  have h1new : getNode s1x leafId = some leaf0 := by
    have := @getNode_push_new s s1x leaf0 hs1nodes
    rw [hlen] at this
    exact this
  have h1old : ∀ j, j ≠ leafId → getNode s1x j = getNode s j := by
    intro j hj
    exact getNode_push_old hs1nodes j (by rw [hlen]; exact hj)
  set s2x := setNode s1x leafId leaf with hs2x
  have h2new : getNode s2x leafId = some leaf := getNode_setNode_self _ h1new
  have h2old : ∀ j, j ≠ leafId → getNode s2x j = getNode s j := by
    intro j hj
    rw [hs2x, getNode_setNode_ne _ (fun h => hj h.symm), h1old j hj]
  have h2tbl : ∀ l, tableAt s2x l = tableAt s l := fun _ => rfl
  set s3 := setTable s2x 19 (insertSorted leafId (tableAt s2x 19)) with hs3
  have h3get : ∀ j, getNode s3 j = getNode s2x j := fun j =>
    getNode_setTable _ _ _ _
  have h3new : getNode s3 leafId = some leaf := by rw [h3get]; exact h2new
  have h3old : ∀ j, j ≠ leafId → getNode s3 j = getNode s j := by
    intro j hj
    rw [h3get, h2old j hj]
  have h19lt : (19 : ℕ) < s2x.NodeTable.length := by
    show (19 : ℕ) < s.NodeTable.length
    rw [hc.ntblLen]
    decide
  have holdlt : ∀ i ∈ tableAt s 19, i < leafId := by
    intro i hi
    obtain ⟨n, hn, _⟩ := hc.tableLive 19 i hi
    exact live_id_lt hc hn
  have htbl19 : tableAt s3 19 = tableAt s 19 ++ [leafId] := by
    rw [hs3, tableAt_setTable_self h19lt, h2tbl]
    exact insertSorted_append_of_gt leafId _ holdlt
  have htblne : ∀ l, l ≠ 19 → tableAt s3 l = tableAt s l := by
    intro l hl
    rw [hs3, tableAt_setTable_ne _ _ (fun h => hl h.symm), h2tbl]
  have h3case : ∀ {j : ℕ} {n2 : ClusteringNode}, getNode s3 j = some n2 →
      (j = leafId ∧ leaf = n2) ∨
      (j ≠ leafId ∧ getNode s j = some n2) := by
    intro j n2 hj
    by_cases h1 : j = leafId
    · rw [h1, h3new] at hj
      exact Or.inl ⟨h1, Option.some_inj.mp hj⟩
    · exact Or.inr ⟨h1, by rw [← h3old j h1]; exact hj⟩
  have hlive_ne : ∀ {j : ℕ} {n2 : ClusteringNode},
      getNode s j = some n2 → j ≠ leafId := by
    intro j n2 hj
    have := live_id_lt hc hj
    omega
  have hchild_ne : ∀ {j : ℕ} {n2 : ClusteringNode},
      getNode s j = some n2 → ∀ c ∈ n2.Children, c ≠ leafId := by
    intro j n2 hj c hcmem
    obtain ⟨cn, hcn, _, _⟩ := hc.childCoh j n2 hj c hcmem
    exact hlive_ne hcn
  have hchild_frame : ∀ {j : ℕ} {n2 : ClusteringNode},
      getNode s j = some n2 → ∀ c ∈ n2.Children,
        getNode s3 c = getNode s c := by
    intro j n2 hj c hcmem
    exact h3old c (hchild_ne hj c hcmem)
  have h3ntbl : s3.NodeTable.length = s.NodeTable.length := by
    rw [hs3]
    show (s2x.NodeTable.set 19 _).length = _
    rw [List.length_set]
    rfl
  have h3nm : s3.NumberOfMarkers = s.NumberOfMarkers + 1 := rfl
  have h3cd : s3.ClusterDistance = s.ClusterDistance := rfl
  refine ⟨s3, ?_, ?_, h3nm, h3cd⟩
  · unfold addMarker
    dsimp only
    rw [if_pos hc.clustering, hc.ntblLen,
        show NumberOfClusterLevels - 1 = 19 from rfl,
        if_neg (show ¬(19 : ℕ) = 0 from by norm_num),
        show (19 : ℕ) - 1 = 18 from rfl]
    rfl
  · refine ⟨?_, ?_, ?_, ?_, ?_, ?_, ?_, ?_⟩
    · refine ⟨?_, ?_, ?_, ?_, ?_, ?_, ?_, ?_, ?_, ?_⟩
      · exact hc.clustering
      · rw [h3ntbl]
        exact hc.ntblLen
      · show (s1x.AllNodes.set leafId (some leaf)).length = s.NumberOfNodes + 1
        rw [List.length_set, hs1nodes, List.length_append, hlen]
        rfl
      · intro i n2 hi
        rcases h3case hi with ⟨h1, rfl⟩ | ⟨h1, hold⟩
        · rw [hlfId, h1]
        · exact hc.arenaId i n2 hold
      · intro l i hi
        by_cases hl : l = 19
        · rw [hl] at hi ⊢
          rw [htbl19] at hi
          rcases List.mem_append.mp hi with hi2 | hi2
          · obtain ⟨n2, hn2, hlev⟩ := hc.tableLive 19 i hi2
            refine ⟨n2, ?_, hlev⟩
            rw [h3old i (hlive_ne hn2)]
            exact hn2
          · have : i = leafId := by
              rcases List.mem_cons.mp hi2 with h | h
              · exact h
              · exact absurd h (List.not_mem_nil _)
            rw [this]
            exact ⟨leaf, h3new, hlfLevel⟩
        · rw [htblne l hl] at hi
          obtain ⟨n2, hn2, hlev⟩ := hc.tableLive l i hi
          refine ⟨n2, ?_, hlev⟩
          rw [h3old i (hlive_ne hn2)]
          exact hn2
      · intro i n2 hi
        rcases h3case hi with ⟨h1, rfl⟩ | ⟨h1, hold⟩
        · rw [hlfLevel]
          refine ⟨by omega, (by decide : ((19 : ℕ) : ℤ) < (NumberOfClusterLevels : ℤ)), ?_⟩
          rw [show (((19 : ℕ) : ℤ)).toNat = 19 from rfl, htbl19, h1]
          exact List.mem_append.mpr (Or.inr (List.mem_cons_self _ _))
        · obtain ⟨hge, hlt, hmem⟩ := hc.complete i n2 hold
          refine ⟨hge, hlt, ?_⟩
          by_cases hl : n2.Level.toNat = 19
          · rw [hl, htbl19]
            exact List.mem_append.mpr (Or.inl (hl ▸ hmem))
          · rw [htblne _ hl]
            exact hmem
      · intro l
        by_cases hl : l = 19
        · rw [hl, hs3, tableAt_setTable_self h19lt, h2tbl]
          exact insertSorted_sorted leafId _ (hc.sorted 19)
        · rw [htblne l hl]
          exact hc.sorted l
      · intro i n2 hi
        rcases h3case hi with ⟨_, rfl⟩ | ⟨_, hold⟩
        · rw [hlfCh]
          exact List.sorted_nil
        · exact hc.childSorted i n2 hold
      · intro i n2 hi c hcmem
        rcases h3case hi with ⟨h1, rfl⟩ | ⟨h1, hold⟩
        · rw [hlfCh] at hcmem
          exact absurd hcmem (List.not_mem_nil _)
        · obtain ⟨cn, hcn, hp, hlev⟩ := hc.childCoh i n2 hold c hcmem
          refine ⟨cn, ?_, hp, hlev⟩
          rw [hchild_frame hold c hcmem]
          exact hcn
      · intro i n2 p hi hp
        rcases h3case hi with ⟨h1, rfl⟩ | ⟨h1, hold⟩
        · rw [hlfPar] at hp
          cases hp
        · obtain ⟨pn, hpn, hmem, hlev⟩ := hc.parentCoh i n2 p hold hp
          refine ⟨pn, ?_, hmem, hlev⟩
          rw [h3old p (hlive_ne hpn)]
          exact hpn
    · unfold table19OK
      rw [show NumberOfClusterLevels - 1 = 19 from rfl, htbl19, h3nm,
          List.range_succ]
      simp only [List.map_append]
      congr 1
      · unfold table19OK at ht19
        rw [show NumberOfClusterLevels - 1 = 19 from rfl] at ht19
        rw [← ht19]
        refine List.map_congr_left (fun i hi => ?_)
        obtain ⟨n2, hn2, _⟩ := hc.tableLive 19 i hi
        rw [h3old i (hlive_ne hn2)]
      · simp only [List.map_cons, List.map_nil]
        rw [h3new]
        simp [hlfCnt, hlfMid]
    · intro i n2 hi
      rcases h3case hi with ⟨h1, rfl⟩ | ⟨h1, hold⟩
      · intro hne2
        rw [hlfCh] at hne2
        exact absurd rfl hne2
      · refine nodeOK_congr ?_ (hok i n2 hold)
        intro c hcmem
        exact hchild_frame hold c hcmem
    · intro i n2 hi
      rcases h3case hi with ⟨_, rfl⟩ | ⟨_, hold⟩
      · rw [hlfCnt]
      · exact hcpos i n2 hold
    · intro i n2 hi
      rcases h3case hi with ⟨_, rfl⟩ | ⟨_, hold⟩
      · intro hlev
        rw [hlfLevel] at hlev
        have h20 : (NumberOfClusterLevels : ℤ) = 20 := by decide
        rw [h20] at hlev
        omega
      · exact hne i n2 hold
    · intro i n2 hi hlev hine
      rcases h3case hi with ⟨h1, rfl⟩ | ⟨h1, hold⟩
      · exact absurd h1 hine
      · obtain ⟨p, hp⟩ := hpex i n2 hold hlev
        exact ⟨p, hp⟩
    · exact ⟨leaf, h3new, by rw [hlfLevel]; norm_num, hlfPar, hlfCnt⟩
    · intro i n2 hi hmem
      rcases h3case hi with ⟨h1, rfl⟩ | ⟨h1, hold⟩
      · rw [hlfCh] at hmem
        exact absurd hmem (List.not_mem_nil _)
      · exact hchild_ne hold leafId hmem rfl

theorem nodeOK_fields {s : MarkerSetState} {n n2 : ClusteringNode}
    (h1 : n2.Children = n.Children)
    (h2 : n2.NumberOfMarkers = n.NumberOfMarkers)
    (h3 : n2.gcsX = n.gcsX) (h4 : n2.gcsY = n.gcsY)
    (h : nodeOK s n) : nodeOK s n2 := by
  intro hne
  rw [h1] at hne
  obtain ⟨u1, u2, u3⟩ := h hne
  refine ⟨?_, ?_, ?_⟩
  · rw [h1, h2]
    exact u1
  · rw [h1, h2, h3]
    exact u2
  · rw [h1, h2, h4]
    exact u3

theorem childrenCountSum_congr_val {s s2 : MarkerSetState} {cl : List ℕ}
    (h : ∀ c ∈ cl, nodeCount s2 c = nodeCount s c) :
    childrenCountSum s2 cl = childrenCountSum s cl := by
  unfold childrenCountSum
  congr 1
  exact List.map_congr_left h

theorem childrenMomentX_congr_val {s s2 : MarkerSetState} {cl : List ℕ}
    (h : ∀ c ∈ cl, nodeCount s2 c = nodeCount s c ∧
      nodeGcsX s2 c = nodeGcsX s c) :
    childrenMomentX s2 cl = childrenMomentX s cl := by
  unfold childrenMomentX
  congr 1
  refine List.map_congr_left (fun c hc => ?_)
  rw [(h c hc).1, (h c hc).2]

theorem childrenMomentY_congr_val {s s2 : MarkerSetState} {cl : List ℕ}
    (h : ∀ c ∈ cl, nodeCount s2 c = nodeCount s c ∧
      nodeGcsY s2 c = nodeGcsY s c) :
    childrenMomentY s2 cl = childrenMomentY s cl := by
  unfold childrenMomentY
  congr 1
  refine List.map_congr_left (fun c hc => ?_)
  rw [(h c hc).1, (h c hc).2]

/-- Common aftermath of a successful `MergeNodes` call at refinement level
`lvl` (both nodes at `lvl`, their parents one level coarser): the
structural invariant, the finest-level contents and parent existence all
survive; the merged node is exact when both inputs were; any survivor
other than the three touched nodes keeps its fields (up to the re-pointed
parent) and, when no touched parent is among its children, its
aggregation invariant. -/
theorem merge_aftermath (s s2 : MarkerSetState) (a b pa pb : ℕ) (lvl : ℕ)
    (hc : Core s) (ht19 : table19OK s) (hpex : allParentEx s)
    (na nb npa npb na2 npa2 npb2 : ClusteringNode)
    (ha : getNode s a = some na) (hb : getNode s b = some nb)
    (hlevA : na.Level = (lvl : ℤ)) (hlevB : nb.Level = (lvl : ℤ))
    (hab : a ≠ b) (hpa : na.Parent = some pa) (hpb : nb.Parent = some pb)
    (hpalive : getNode s pa = some npa)
    (hpblive : getNode s pb = some npb)
    (hlvl1 : 1 ≤ lvl) (hlvl17 : lvl ≤ 17)
    (hA : getNode s2 a = some na2)
    (hA1 : na2.Level = na.Level) (hA2 : na2.NodeId = na.NodeId)
    (hA3 : na2.Parent = na.Parent)
    (hA4 : na2.Children = unionSorted na.Children nb.Children)
    (hA5 : na2.NumberOfMarkers = na.NumberOfMarkers + nb.NumberOfMarkers)
    (hA6 : na2.gcsX = (na.gcsX * (na.NumberOfMarkers : ℚ) +
        nb.gcsX * (nb.NumberOfMarkers : ℚ)) /
      ((na.NumberOfMarkers + nb.NumberOfMarkers : ℤ) : ℚ))
    (hA7 : na2.gcsY = (na.gcsY * (na.NumberOfMarkers : ℚ) +
        nb.gcsY * (nb.NumberOfMarkers : ℚ)) /
      ((na.NumberOfMarkers + nb.NumberOfMarkers : ℤ) : ℚ))
    (hB : getNode s2 b = none)
    (hPB : getNode s2 pb = some npb2)
    (hPB1 : npb2.Level = npb.Level) (hPB2 : npb2.NodeId = npb.NodeId)
    (hPB3 : npb2.Parent = npb.Parent)
    (hPB4 : npb2.Children = npb.Children.erase b)
    (hPA : getNode s2 pa = some npa2)
    (hPA1 : npa2.Level = npa.Level) (hPA2 : npa2.NodeId = npa.NodeId)
    (hPA3 : npa2.Parent = npa.Parent)
    (hPA4 : npa2.Children =
      (if pa = pb then npa.Children.erase b else npa.Children))
    (hCH : ∀ c ∈ nb.Children, ∃ cn, getNode s c = some cn ∧
      getNode s2 c = some { cn with Parent := some a })
    (hOther : ∀ j, j ≠ a → j ≠ b → j ≠ pa → j ≠ pb → j ∉ nb.Children →
      getNode s2 j = getNode s j)
    (hTblLvl : tableAt s2 lvl = (tableAt s lvl).erase b)
    (hTblNe : ∀ l2, l2 ≠ lvl → tableAt s2 l2 = tableAt s l2)
    (hALen : s2.AllNodes.length = s.AllNodes.length)
    (hNtbl : s2.NodeTable.length = s.NodeTable.length)
    (hFrame : framePreserved s s2) :
    Core s2 ∧ table19OK s2 ∧ allParentEx s2 ∧
    (1 ≤ na.NumberOfMarkers → 1 ≤ nb.NumberOfMarkers →
      na.Children ≠ [] → nb.Children ≠ [] →
      nodeOK s na → nodeOK s nb → nodeOK s2 na2) ∧
    (∀ i n2, getNode s2 i = some n2 → i ≠ a → i ≠ pa → i ≠ pb →
      ∃ n, getNode s i = some n ∧
        n2.NumberOfMarkers = n.NumberOfMarkers ∧ n2.Level = n.Level ∧
        n2.Children = n.Children ∧ n2.gcsX = n.gcsX ∧ n2.gcsY = n.gcsY ∧
        (n.Parent ≠ some b → n2.Parent = n.Parent) ∧
        (pa ∉ n.Children → pb ∉ n.Children → nodeOK s n →
          nodeOK s2 n2)) := by
  have hlevPA : npa.Level = (lvl : ℤ) - 1 := by
    obtain ⟨pn, hpn, _, hlev⟩ := hc.parentCoh a na pa ha hpa
    rw [hpalive] at hpn
    cases hpn
    rw [hlevA] at hlev
    exact hlev
  have hmemA : a ∈ npa.Children := by
    obtain ⟨pn, hpn, hmem, _⟩ := hc.parentCoh a na pa ha hpa
    rw [hpalive] at hpn
    cases hpn
    exact hmem
  have hlevPB : npb.Level = (lvl : ℤ) - 1 := by
    obtain ⟨pn, hpn, _, hlev⟩ := hc.parentCoh b nb pb hb hpb
    rw [hpblive] at hpn
    cases hpn
    rw [hlevB] at hlev
    exact hlev
  have hpaa : pa ≠ a := by
    intro h
    rw [h, ha] at hpalive
    cases hpalive
    rw [hlevA] at hlevPA
    omega
  have hpab : pa ≠ b := by
    intro h
    rw [h, hb] at hpalive
    cases hpalive
    rw [hlevB] at hlevPA
    omega
  have hpba : pb ≠ a := by
    intro h
    rw [h, ha] at hpblive
    cases hpblive
    rw [hlevA] at hlevPB
    omega
  have hpbb : pb ≠ b := by
    intro h
    rw [h, hb] at hpblive
    cases hpblive
    rw [hlevB] at hlevPB
    omega
  have hchfacts : ∀ c ∈ nb.Children, ∃ cn, getNode s c = some cn ∧
      cn.Parent = some b ∧ cn.Level = (lvl : ℤ) + 1 := by
    intro c hcmem
    obtain ⟨cn, hcn, hp, hlev⟩ := hc.childCoh b nb hb c hcmem
    exact ⟨cn, hcn, hp, by rw [hlevB] at hlev; exact hlev⟩
  have hlevOf : ∀ {j : ℕ} {n : ClusteringNode}, getNode s j = some n →
      ∀ (t : ℤ), n.Level ≠ t → (∀ m : ClusteringNode,
        getNode s j = some m → m.Level = t) → False := by
    intro j n hj t hne hall
    exact hne (hall n hj)
  have hchne : ∀ c ∈ nb.Children, c ≠ a ∧ c ≠ b ∧ c ≠ pa ∧ c ≠ pb := by
    intro c hcmem
    obtain ⟨cn, hcn, _, hclev⟩ := hchfacts c hcmem
    refine ⟨?_, ?_, ?_, ?_⟩
    · intro h
      rw [h, ha] at hcn
      cases hcn
      rw [hlevA] at hclev
      omega
    · intro h
      rw [h, hb] at hcn
      cases hcn
      rw [hlevB] at hclev
      omega
    · intro h
      rw [h, hpalive] at hcn
      cases hcn
      rw [hlevPA] at hclev
      omega
    · intro h
      rw [h, hpblive] at hcn
      cases hcn
      rw [hlevPB] at hclev
      omega
  have hdisj : ∀ c ∈ nb.Children, c ∉ na.Children := by
    intro c hcmem hcmem2
    exact hab (parent_unique hc ha hb hcmem2 hcmem)
  have hbnodup : nb.Children.Nodup :=
    sorted_nodup (hc.childSorted b nb hb)
  have hcase : ∀ {j : ℕ} {n2 : ClusteringNode}, getNode s2 j = some n2 →
      (j = a ∧ na2 = n2) ∨ (j = pa ∧ npa2 = n2) ∨ (j = pb ∧ npb2 = n2) ∨
      (j ∈ nb.Children ∧ j ≠ a ∧ j ≠ pa ∧ j ≠ pb ∧
        ∃ cn, getNode s j = some cn ∧
        { cn with Parent := some a } = n2) ∨
      (j ≠ a ∧ j ≠ b ∧ j ≠ pa ∧ j ≠ pb ∧ j ∉ nb.Children ∧
        getNode s j = some n2) := by
    intro j n2 hj
    by_cases h1 : j = a
    · rw [h1, hA] at hj
      exact Or.inl ⟨h1, Option.some_inj.mp hj⟩
    by_cases h2 : j = pa
    · rw [h2, hPA] at hj
      exact Or.inr (Or.inl ⟨h2, Option.some_inj.mp hj⟩)
    by_cases h3 : j = pb
    · rw [h3, hPB] at hj
      exact Or.inr (Or.inr (Or.inl ⟨h3, Option.some_inj.mp hj⟩))
    by_cases h4 : j ∈ nb.Children
    · obtain ⟨cn, hcn, hcn2⟩ := hCH j h4
      rw [hcn2] at hj
      exact Or.inr (Or.inr (Or.inr (Or.inl ⟨h4, h1, h2, h3, cn, hcn,
        Option.some_inj.mp hj⟩)))
    by_cases h5 : j = b
    · rw [h5, hB] at hj
      cases hj
    · exact Or.inr (Or.inr (Or.inr (Or.inr ⟨h1, h5, h2, h3, h4,
        by rw [← hOther j h1 h5 h2 h3 h4]; exact hj⟩)))
  have hsurv : ∀ {j : ℕ} {n : ClusteringNode}, getNode s j = some n →
      j ≠ b → ∃ n2, getNode s2 j = some n2 ∧ n2.Level = n.Level ∧
        n2.NodeId = n.NodeId ∧
        (j ∉ nb.Children → n2.Parent = n.Parent) := by
    intro j n hj hjb
    by_cases h1 : j = a
    · rw [h1, ha] at hj
      cases hj
      exact ⟨na2, by rw [h1]; exact hA, hA1, hA2, fun _ => hA3⟩
    by_cases h2 : j = pa
    · rw [h2, hpalive] at hj
      cases hj
      exact ⟨npa2, by rw [h2]; exact hPA, hPA1, hPA2, fun _ => hPA3⟩
    by_cases h3 : j = pb
    · rw [h3, hpblive] at hj
      cases hj
      exact ⟨npb2, by rw [h3]; exact hPB, hPB1, hPB2, fun _ => hPB3⟩
    by_cases h4 : j ∈ nb.Children
    · obtain ⟨cn, hcn, hcn2⟩ := hCH j h4
      rw [hcn] at hj
      cases hj
      exact ⟨_, hcn2, rfl, rfl, fun h => absurd h4 h⟩
    · exact ⟨n, by rw [hOther j h1 hjb h2 h3 h4]; exact hj, rfl, rfl,
        fun _ => rfl⟩
  have hsurvCh : ∀ {p : ℕ} {pn : ClusteringNode}, getNode s p = some pn →
      p ≠ b → ∀ i ∈ pn.Children, i ≠ b →
      ∃ pn2, getNode s2 p = some pn2 ∧ i ∈ pn2.Children ∧
        pn2.Level = pn.Level := by
    intro p pn hp hpb2 i hi hib
    by_cases h1 : p = a
    · rw [h1, ha] at hp
      cases hp
      refine ⟨na2, by rw [h1]; exact hA, ?_, hA1⟩
      rw [hA4]
      exact mem_unionSorted.mpr (Or.inl hi)
    by_cases h2 : p = pa
    · rw [h2, hpalive] at hp
      cases hp
      refine ⟨npa2, by rw [h2]; exact hPA, ?_, hPA1⟩
      rw [hPA4]
      split
      · exact (mem_erase_sorted (hc.childSorted pa npa hpalive)).mpr
          ⟨hib, hi⟩
      · exact hi
    by_cases h3 : p = pb
    · rw [h3, hpblive] at hp
      cases hp
      refine ⟨npb2, by rw [h3]; exact hPB, ?_, hPB1⟩
      rw [hPB4]
      exact (mem_erase_sorted (hc.childSorted pb npb hpblive)).mpr
        ⟨hib, hi⟩
    by_cases h4 : p ∈ nb.Children
    · obtain ⟨cn, hcn, hcn2⟩ := hCH p h4
      rw [hcn] at hp
      cases hp
      exact ⟨_, hcn2, hi, rfl⟩
    · exact ⟨pn, by rw [hOther p h1 hpb2 h2 h3 h4]; exact hp, hi, rfl⟩
  have hchval : ∀ c ∈ nb.Children, nodeCount s2 c = nodeCount s c ∧
      nodeGcsX s2 c = nodeGcsX s c ∧ nodeGcsY s2 c = nodeGcsY s c := by
    intro c hcmem
    obtain ⟨cn, hcn, hcn2⟩ := hCH c hcmem
    unfold nodeCount nodeGcsX nodeGcsY
    rw [hcn, hcn2]
    exact ⟨rfl, rfl, rfl⟩
  have haval : ∀ c ∈ na.Children, getNode s2 c = getNode s c := by
    intro c hcmem
    obtain ⟨cn, hcn, hp, hlev⟩ := hc.childCoh a na ha c hcmem
    have hc1 : c ≠ a := by
      intro h
      rw [h] at hcmem
      exact not_mem_self_children hc ha hcmem
    have hc2 : c ≠ b := by
      intro h
      rw [h, hb] at hcn
      cases hcn
      rw [hp] at hpb
      cases hpb
      exact hpba rfl
    have hc3 : c ≠ pa := by
      intro h
      rw [h, hpalive] at hcn
      cases hcn
      rw [hlevA] at hlev
      rw [hlev] at hlevPA
      omega
    have hc4 : c ≠ pb := by
      intro h
      rw [h, hpblive] at hcn
      cases hcn
      rw [hlevA] at hlev
      rw [hlev] at hlevPB
      omega
    exact hOther c hc1 hc2 hc3 hc4 (fun hm => hdisj c hm hcmem)
  have hlvlcast : ((lvl : ℤ)).toNat = lvl := by omega
  have hmemErase : ∀ {i : ℕ}, i ∈ (tableAt s lvl).erase b ↔
      i ≠ b ∧ i ∈ tableAt s lvl := fun {i} =>
    mem_erase_sorted (hc.sorted lvl)
  have hcore : Core s2 := by
    refine ⟨?_, ?_, ?_, ?_, ?_, ?_, ?_, ?_, ?_, ?_⟩
    · rw [hFrame.1]
      exact hc.clustering
    · rw [hNtbl]
      exact hc.ntblLen
    · rw [hALen, hFrame.2.2.2.2.2.2.2.1]
      exact hc.arenaLen
    · intro i n2 hi
      rcases hcase hi with ⟨h1, rfl⟩ | ⟨h1, rfl⟩ | ⟨h1, rfl⟩ |
        ⟨h1, _, _, _, cn, hcn, rfl⟩ | ⟨_, _, _, _, _, hold⟩
      · rw [hA2, hc.arenaId a na ha, h1]
      · rw [hPA2, hc.arenaId pa npa hpalive, h1]
      · rw [hPB2, hc.arenaId pb npb hpblive, h1]
      · show cn.NodeId = i
        exact hc.arenaId i cn hcn
      · exact hc.arenaId i n2 hold
    · intro l i hi
      by_cases hl : l = lvl
      · rw [hl, hTblLvl] at hi
        obtain ⟨hib, hi2⟩ := hmemErase.mp hi
        obtain ⟨n, hn, hlev⟩ := hc.tableLive lvl i hi2
        obtain ⟨n2, hn2, hlev2, _, _⟩ := hsurv hn hib
        rw [hl]
        exact ⟨n2, hn2, by rw [hlev2]; exact hlev⟩
      · rw [hTblNe l hl] at hi
        obtain ⟨n, hn, hlev⟩ := hc.tableLive l i hi
        have hib : i ≠ b := by
          intro h
          rw [h, hb] at hn
          cases hn
          rw [hlevB] at hlev
          omega
        obtain ⟨n2, hn2, hlev2, _, _⟩ := hsurv hn hib
        exact ⟨n2, hn2, by rw [hlev2]; exact hlev⟩
    · intro i n2 hi
      have hib : i ≠ b := by
        intro h
        rw [h, hB] at hi
        cases hi
      have hmain : ∀ (n : ClusteringNode), getNode s i = some n →
          n2.Level = n.Level → 0 ≤ n2.Level ∧
            n2.Level < (NumberOfClusterLevels : ℤ) ∧
            i ∈ tableAt s2 n2.Level.toNat := by
        intro n hn hlev
        obtain ⟨hge, hlt, hmem⟩ := hc.complete i n hn
        rw [hlev]
        refine ⟨hge, hlt, ?_⟩
        by_cases hl : n.Level.toNat = lvl
        · rw [hl, hTblLvl]
          exact hmemErase.mpr ⟨hib, hl ▸ hmem⟩
        · rw [hTblNe _ hl]
          exact hmem
      rcases hcase hi with ⟨h1, rfl⟩ | ⟨h1, rfl⟩ | ⟨h1, rfl⟩ |
        ⟨h1, _, _, _, cn, hcn, rfl⟩ | ⟨_, _, _, _, _, hold⟩
      · exact hmain na (by rw [h1]; exact ha) hA1
      · exact hmain npa (by rw [h1]; exact hpalive) hPA1
      · exact hmain npb (by rw [h1]; exact hpblive) hPB1
      · exact hmain cn hcn rfl
      · exact hmain n2 hold rfl
    · intro l
      by_cases hl : l = lvl
      · rw [hl, hTblLvl]
        exact erase_sorted b (hc.sorted lvl)
      · rw [hTblNe l hl]
        exact hc.sorted l
    · intro i n2 hi
      rcases hcase hi with ⟨_, rfl⟩ | ⟨_, rfl⟩ | ⟨_, rfl⟩ |
        ⟨h1, _, _, _, cn, hcn, rfl⟩ | ⟨_, _, _, _, _, hold⟩
      · rw [hA4]
        exact unionSorted_sorted _ _ (hc.childSorted a na ha)
      · rw [hPA4]
        split
        · exact erase_sorted b (hc.childSorted pa npa hpalive)
        · exact hc.childSorted pa npa hpalive
      · rw [hPB4]
        exact erase_sorted b (hc.childSorted pb npb hpblive)
      · show List.Sorted _ cn.Children
        exact hc.childSorted i cn hcn
      · exact hc.childSorted i n2 hold
    · intro i n2 hi c hcmem
      rcases hcase hi with ⟨h1, rfl⟩ | ⟨h1, rfl⟩ | ⟨h1, rfl⟩ |
        ⟨h1, hne1, hne2, hne3, cn, hcn, rfl⟩ |
        ⟨hn1, hn2x, hn3, hn4, hn5, hold⟩
      · rw [hA4] at hcmem
        rcases mem_unionSorted.mp hcmem with hm | hm
        · obtain ⟨cn, hcn, hp, hlev⟩ := hc.childCoh a na ha c hm
          have hcb : c ≠ b := by
            intro h
            rw [h, hb] at hcn
            cases hcn
            rw [hpb] at hp
            cases hp
            exact hpba rfl
          obtain ⟨cn2, hcn2, hclev2, _, hcpar2⟩ := hsurv hcn hcb
          refine ⟨cn2, hcn2, ?_, ?_⟩
          · rw [hcpar2 (fun hmm => hdisj c hmm hm), hp, h1]
          · rw [hclev2, hA1]
            exact hlev
        · obtain ⟨cn, hcn, hcn2⟩ := hCH c hm
          obtain ⟨cn3, hcn3, _, hclev⟩ := hchfacts c hm
          rw [hcn] at hcn3
          cases hcn3
          refine ⟨_, hcn2, ?_, ?_⟩
          · rw [h1]
          · show cn.Level = na2.Level + 1
            rw [hclev, hA1, hlevA]
      · rw [hPA4] at hcmem
        have hcmem2 : c ∈ npa.Children ∧ c ≠ b := by
          by_cases hpp : pa = pb
          · rw [if_pos hpp] at hcmem
            have := (mem_erase_sorted
              (hc.childSorted pa npa hpalive)).mp hcmem
            exact ⟨this.2, this.1⟩
          · rw [if_neg hpp] at hcmem
            refine ⟨hcmem, ?_⟩
            intro h
            rw [h] at hcmem
            obtain ⟨cn, hcn, hp, _⟩ := hc.childCoh pa npa hpalive b hcmem
            rw [hb] at hcn
            cases hcn
            rw [hpb] at hp
            cases hp
            exact hpp rfl
        obtain ⟨cn, hcn, hp, hlev⟩ :=
          hc.childCoh pa npa hpalive c hcmem2.1
        obtain ⟨cn2, hcn2, hclev2, _, hcpar2⟩ := hsurv hcn hcmem2.2
        have hcnm : c ∉ nb.Children := by
          intro hmm
          obtain ⟨cn3, hcn3, hp3, _⟩ := hchfacts c hmm
          rw [hcn] at hcn3
          cases hcn3
          rw [hp] at hp3
          cases hp3
          exact hpab rfl
        refine ⟨cn2, hcn2, ?_, ?_⟩
        · rw [hcpar2 hcnm, hp, h1]
        · rw [hclev2, hPA1]
          exact hlev
      · rw [hPB4] at hcmem
        have hcmem2 := (mem_erase_sorted
          (hc.childSorted pb npb hpblive)).mp hcmem
        obtain ⟨cn, hcn, hp, hlev⟩ :=
          hc.childCoh pb npb hpblive c hcmem2.2
        obtain ⟨cn2, hcn2, hclev2, _, hcpar2⟩ := hsurv hcn hcmem2.1
        have hcnm : c ∉ nb.Children := by
          intro hmm
          obtain ⟨cn3, hcn3, hp3, _⟩ := hchfacts c hmm
          rw [hcn] at hcn3
          cases hcn3
          rw [hp] at hp3
          cases hp3
          exact hpbb rfl
        refine ⟨cn2, hcn2, ?_, ?_⟩
        · rw [hcpar2 hcnm, hp, h1]
        · rw [hclev2, hPB1]
          exact hlev
      · obtain ⟨cn0, hcn0, _, hilev⟩ := hchfacts i h1
        rw [hcn] at hcn0
        cases hcn0
        have hcmem2 : c ∈ cn.Children := hcmem
        obtain ⟨dn, hdn, hp, hlev⟩ := hc.childCoh i cn hcn c hcmem2
        have hib : i ≠ b := by
          intro h
          rw [h, hb] at hcn
          cases hcn
          rw [hilev] at hlevB
          omega
        have hcb : c ≠ b := by
          intro h
          rw [h, hb] at hdn
          cases hdn
          rw [hpb] at hp
          have hipb : i = pb := (Option.some_inj.mp hp).symm
          rw [hipb, hpblive] at hcn
          cases hcn
          rw [hilev] at hlevPB
          omega
        have hcnm : c ∉ nb.Children := by
          intro hmm
          obtain ⟨cn3, hcn3, hp3, _⟩ := hchfacts c hmm
          rw [hdn] at hcn3
          cases hcn3
          rw [hp] at hp3
          cases hp3
          exact hib rfl
        obtain ⟨cn2, hcn2, hclev2, _, hcpar2⟩ := hsurv hdn hcb
        refine ⟨cn2, hcn2, ?_, ?_⟩
        · rw [hcpar2 hcnm, hp]
        · rw [hclev2]
          show dn.Level = cn.Level + 1
          exact hlev
      · obtain ⟨dn, hdn, hp, hlev⟩ := hc.childCoh i n2 hold c hcmem
        have hcb : c ≠ b := by
          intro h
          rw [h, hb] at hdn
          cases hdn
          rw [hpb] at hp
          cases hp
          exact hn4 rfl
        have hcnm : c ∉ nb.Children := by
          intro hmm
          obtain ⟨cn3, hcn3, hp3, _⟩ := hchfacts c hmm
          rw [hdn] at hcn3
          cases hcn3
          rw [hp] at hp3
          cases hp3
          exact hn2x rfl
        obtain ⟨cn2, hcn2, hclev2, _, hcpar2⟩ := hsurv hdn hcb
        refine ⟨cn2, hcn2, ?_, ?_⟩
        · rw [hcpar2 hcnm, hp]
        · rw [hclev2]
          exact hlev
    · intro i n2 p hi hp
      rcases hcase hi with ⟨h1, rfl⟩ | ⟨h1, rfl⟩ | ⟨h1, rfl⟩ |
        ⟨h1, hne1, hne2, hne3, cn, hcn, rfl⟩ |
        ⟨hn1, hn2x, hn3, hn4, hn5, hold⟩
      · rw [hA3, hpa] at hp
        cases hp
        obtain ⟨pn2, hpn2, hmem2, hlev2⟩ := hsurvCh hpalive hpab a hmemA
          (fun h => hab h)
        refine ⟨pn2, hpn2, ?_, ?_⟩
        · rw [h1]
          exact hmem2
        · rw [hlev2, hlevPA, hA1, hlevA]
      · rw [hPA3] at hp
        obtain ⟨pn, hpn, hmem2, hlev2⟩ :=
          hc.parentCoh pa npa p hpalive hp
        have hppb : p ≠ b := by
          intro h
          rw [h, hb] at hpn
          cases hpn
          rw [hlevPA, hlevB] at hlev2
          omega
        obtain ⟨pn2, hpn2, hmem3, hlev3⟩ := hsurvCh hpn hppb pa hmem2 hpab
        refine ⟨pn2, hpn2, ?_, ?_⟩
        · rw [h1]
          exact hmem3
        · rw [hlev3, hPA1]
          exact hlev2
      · rw [hPB3] at hp
        obtain ⟨pn, hpn, hmem2, hlev2⟩ :=
          hc.parentCoh pb npb p hpblive hp
        have hppb : p ≠ b := by
          intro h
          rw [h, hb] at hpn
          cases hpn
          rw [hlevPB, hlevB] at hlev2
          omega
        obtain ⟨pn2, hpn2, hmem3, hlev3⟩ := hsurvCh hpn hppb pb hmem2 hpbb
        refine ⟨pn2, hpn2, ?_, ?_⟩
        · rw [h1]
          exact hmem3
        · rw [hlev3, hPB1]
          exact hlev2
      · obtain ⟨cn0, hcn0, _, hilev⟩ := hchfacts i h1
        rw [hcn] at hcn0
        cases hcn0
        have hpeq : p = a := by
          have : ({ cn with Parent := some a } :
            ClusteringNode).Parent = some p := hp
          simp only at this
          exact (Option.some_inj.mp this).symm
        rw [hpeq]
        refine ⟨na2, hA, ?_, ?_⟩
        · rw [hA4]
          exact mem_unionSorted.mpr (Or.inr h1)
        · show na2.Level = ({ cn with Parent := some a } :
            ClusteringNode).Level - 1
          rw [hA1, hlevA]
          show (lvl : ℤ) = cn.Level - 1
          rw [hilev]
          ring
      · obtain ⟨pn, hpn, hmem2, hlev2⟩ := hc.parentCoh i n2 p hold hp
        have hppb : p ≠ b := by
          intro h
          rw [h, hb] at hpn
          cases hpn
          exact hn5 hmem2
        obtain ⟨pn2, hpn2, hmem3, hlev3⟩ := hsurvCh hpn hppb i hmem2 hn2x
        exact ⟨pn2, hpn2, hmem3, by rw [hlev3]; exact hlev2⟩
  have ht192 : table19OK s2 := by
    refine @table19OK_congr s s2 ?_ hFrame.2.2.2.2.2.1 ?_ ht19
    · exact hTblNe _ (by
        show NumberOfClusterLevels - 1 ≠ lvl
        have : NumberOfClusterLevels - 1 = 19 := rfl
        omega)
    · intro i hi
      obtain ⟨n, hn, hlev⟩ := hc.tableLive _ i hi
      have h19 : n.Level = (19 : ℤ) := by
        rw [hlev]
        rfl
      have hib : i ≠ b := by
        intro h
        rw [h, hb] at hn
        cases hn
        rw [hlevB] at h19
        omega
      have hia : i ≠ a := by
        intro h
        rw [h, ha] at hn
        cases hn
        rw [hlevA] at h19
        omega
      have hipa : i ≠ pa := by
        intro h
        rw [h, hpalive] at hn
        cases hn
        rw [hlevPA] at h19
        omega
      have hipb : i ≠ pb := by
        intro h
        rw [h, hpblive] at hn
        cases hn
        rw [hlevPB] at h19
        omega
      have hic : i ∉ nb.Children := by
        intro hmm
        obtain ⟨cn3, hcn3, _, hp3⟩ := hchfacts i hmm
        rw [hn] at hcn3
        cases hcn3
        rw [hp3] at h19
        omega
      exact ⟨n, hn, n, by rw [hOther i hia hib hipa hipb hic]; exact hn,
        rfl, rfl⟩
  have hpex2 : allParentEx s2 := by
    intro i n2 hi hlev
    rcases hcase hi with ⟨h1, rfl⟩ | ⟨h1, rfl⟩ | ⟨h1, rfl⟩ |
      ⟨h1, hne1, hne2, hne3, cn, hcn, rfl⟩ |
      ⟨hn1, hn2x, hn3, hn4, hn5, hold⟩
    · rw [hA3, hpa]
      exact ⟨pa, rfl⟩
    · rw [hPA3]
      refine hpex pa npa hpalive ?_
      rw [hPA1] at hlev
      exact hlev
    · rw [hPB3]
      refine hpex pb npb hpblive ?_
      rw [hPB1] at hlev
      exact hlev
    · exact ⟨a, rfl⟩
    · exact hpex i n2 hold hlev
  refine ⟨hcore, ht192, hpex2, ?_, ?_⟩
  · intro hcntA hcntB hneA hneB hokA hokB
    intro _
    obtain ⟨u1, u2, u3⟩ := hokA hneA
    obtain ⟨v1, v2, v3⟩ := hokB hneB
    have hcsum : childrenCountSum s2 na2.Children =
        na.NumberOfMarkers + nb.NumberOfMarkers := by
      rw [hA4, childrenCountSum_union s2 _ _ hbnodup hdisj,
          childrenCountSum_congr haval,
          childrenCountSum_congr_val (fun c hc2 => (hchval c hc2).1),
          ← u1, ← v1]
    have hden : ((na.NumberOfMarkers + nb.NumberOfMarkers : ℤ) : ℚ) ≠ 0 := by
      have : (2 : ℤ) ≤ na.NumberOfMarkers + nb.NumberOfMarkers := by omega
      intro h
      rw [show ((na.NumberOfMarkers + nb.NumberOfMarkers : ℤ) : ℚ) = 0 ↔
        (na.NumberOfMarkers + nb.NumberOfMarkers : ℤ) = 0 from
        Int.cast_eq_zero] at h
      omega
    refine ⟨?_, ?_, ?_⟩
    · rw [hcsum, hA5]
    · rw [hA4, childrenMomentX_union s2 _ _ hbnodup hdisj,
          childrenMomentX_congr haval,
          childrenMomentX_congr_val
            (fun c hc2 => ⟨(hchval c hc2).1, (hchval c hc2).2.1⟩),
          ← u2, ← v2, hA6, hA5]
      rw [div_mul_cancel₀ _ hden]
    · rw [hA4, childrenMomentY_union s2 _ _ hbnodup hdisj,
          childrenMomentY_congr haval,
          childrenMomentY_congr_val
            (fun c hc2 => ⟨(hchval c hc2).1, (hchval c hc2).2.2⟩),
          ← u3, ← v3, hA7, hA5]
      rw [div_mul_cancel₀ _ hden]
  · intro i n2 hi hia hipa hipb
    rcases hcase hi with ⟨h1, _⟩ | ⟨h1, _⟩ | ⟨h1, _⟩ |
      ⟨h1, hne1, hne2, hne3, cn, hcn, rfl⟩ |
      ⟨hn1, hn2x, hn3, hn4, hn5, hold⟩
    · exact absurd h1 hia
    · exact absurd h1 hipa
    · exact absurd h1 hipb
    · obtain ⟨cn0, hcn0, hcp0, hilev0⟩ := hchfacts i h1
      rw [hcn] at hcn0
      cases hcn0
      refine ⟨cn, hcn, rfl, rfl, rfl, rfl, rfl,
        fun hne0 => absurd hcp0 hne0, ?_⟩
      intro hpanm hpbnm hok0
      have hib : i ≠ b := by
        intro h
        rw [h, hb] at hcn
        cases hcn
        rw [hilev0] at hlevB
        omega
      refine nodeOK_fields rfl rfl rfl rfl ?_
      refine nodeOK_congr ?_ hok0
      intro d hdmem
      obtain ⟨dn, hdn, hdp, _⟩ := hc.childCoh i cn hcn d hdmem
      have hda : d ≠ a := by
        intro h
        rw [h, ha] at hdn
        cases hdn
        rw [hpa] at hdp
        cases hdp
        exact hipa rfl
      have hdb : d ≠ b := by
        intro h
        rw [h, hb] at hdn
        cases hdn
        rw [hpb] at hdp
        cases hdp
        exact hipb rfl
      have hdpa : d ≠ pa := by
        intro h
        rw [h] at hdmem
        exact hpanm hdmem
      have hdpb : d ≠ pb := by
        intro h
        rw [h] at hdmem
        exact hpbnm hdmem
      have hdnm : d ∉ nb.Children := by
        intro hmm
        obtain ⟨cn3, hcn3, hp3, _⟩ := hchfacts d hmm
        rw [hdn] at hcn3
        cases hcn3
        rw [hdp] at hp3
        cases hp3
        exact hib rfl
      exact hOther d hda hdb hdpa hdpb hdnm
    · refine ⟨n2, hold, rfl, rfl, rfl, rfl, rfl, fun _ => rfl, ?_⟩
      intro hpanm hpbnm hok0
      refine nodeOK_congr ?_ hok0
      intro d hdmem
      obtain ⟨dn, hdn, hdp, _⟩ := hc.childCoh i n2 hold d hdmem
      have hda : d ≠ a := by
        intro h
        rw [h, ha] at hdn
        cases hdn
        rw [hpa] at hdp
        cases hdp
        exact hipa rfl
      have hdb : d ≠ b := by
        intro h
        rw [h, hb] at hdn
        cases hdn
        rw [hpb] at hdp
        cases hdp
        exact hipb rfl
      have hdpa : d ≠ pa := by
        intro h
        rw [h] at hdmem
        exact hpanm hdmem
      have hdpb : d ≠ pb := by
        intro h
        rw [h] at hdmem
        exact hpbnm hdmem
      have hdnm : d ∉ nb.Children := by
        intro hmm
        obtain ⟨cn3, hcn3, hp3, _⟩ := hchfacts d hmm
        rw [hdn] at hcn3
        cases hcn3
        rw [hdp] at hp3
        cases hp3
        exact hn2x rfl
      exact hOther d hda hdb hdpa hdpb hdnm

/-- Full characterization of a refinement-phase `MergeNodes` call under
the structural invariant: it succeeds, queues the merged node's old
parent exactly when that parent differs from the current node's parent,
and preserves the structural and (conditionally) aggregation
invariants. -/
theorem mergeNodes_preserve (s : MarkerSetState) (a b pa : ℕ) (lvl : ℕ)
    (ptm : List ℕ)
    (hc : Core s) (ht19 : table19OK s) (hpex : allParentEx s)
    (na nb : ClusteringNode)
    (ha : getNode s a = some na) (hb : getNode s b = some nb)
    (hlevA : na.Level = (lvl : ℤ)) (hlevB : nb.Level = (lvl : ℤ))
    (hab : a ≠ b) (hpa : na.Parent = some pa)
    (hlvl1 : 1 ≤ lvl) (hlvl17 : lvl ≤ 17) :
    ∃ s2 pb ptm2, mergeNodes s a b ptm lvl = some (s2, ptm2) ∧
      nb.Parent = some pb ∧
      ptm2 = (if pb = pa then ptm else insertSorted pb ptm) ∧
      pb ∈ tableAt s (lvl - 1) ∧ pb ≠ a ∧ pb ≠ b ∧
      Core s2 ∧ table19OK s2 ∧ allParentEx s2 ∧
      s2.NumberOfMarkers = s.NumberOfMarkers ∧
      s2.ClusterDistance = s.ClusterDistance ∧
      getNode s2 b = none ∧
      tableAt s2 lvl = (tableAt s lvl).erase b ∧
      (∀ l2, l2 ≠ lvl → tableAt s2 l2 = tableAt s l2) ∧
      (∃ na2, getNode s2 a = some na2 ∧ na2.Parent = some pa ∧
        na2.Level = (lvl : ℤ) ∧
        na2.Children = unionSorted na.Children nb.Children ∧
        na2.NumberOfMarkers = na.NumberOfMarkers + nb.NumberOfMarkers ∧
        (1 ≤ na.NumberOfMarkers → 1 ≤ nb.NumberOfMarkers →
          na.Children ≠ [] → nb.Children ≠ [] →
          nodeOK s na → nodeOK s nb → nodeOK s2 na2)) ∧
      (∃ npb npb2, getNode s pb = some npb ∧ getNode s2 pb = some npb2 ∧
        npb2.Children = npb.Children.erase b ∧
        npb2.Parent = npb.Parent ∧ npb2.Level = (lvl : ℤ) - 1) ∧
      (∃ npa npa2, getNode s pa = some npa ∧ getNode s2 pa = some npa2 ∧
        npa2.Parent = npa.Parent ∧ npa2.Level = (lvl : ℤ) - 1 ∧
        npa2.Children =
          (if pa = pb then npa.Children.erase b else npa.Children)) ∧
      (∀ i n2, getNode s2 i = some n2 → i ≠ a → i ≠ pa → i ≠ pb →
        ∃ n, getNode s i = some n ∧
          n2.NumberOfMarkers = n.NumberOfMarkers ∧ n2.Level = n.Level ∧
          n2.Children = n.Children ∧ n2.gcsX = n.gcsX ∧ n2.gcsY = n.gcsY ∧
          (n.Parent ≠ some b → n2.Parent = n.Parent) ∧
          (pa ∉ n.Children → pb ∉ n.Children → nodeOK s n →
            nodeOK s2 n2)) := by
  obtain ⟨pb, hpb⟩ := hpex b nb hb (by rw [hlevB]; omega)
  obtain ⟨npa, hpalive, hmemA, hlevPA0⟩ := hc.parentCoh a na pa ha hpa
  obtain ⟨npb, hpblive, hmemB, hlevPB0⟩ := hc.parentCoh b nb pb hb hpb
  have hlevPA : npa.Level = (lvl : ℤ) - 1 := by
    rw [hlevPA0, hlevA]
  have hlevPB : npb.Level = (lvl : ℤ) - 1 := by
    rw [hlevPB0, hlevB]
  have hpaa : pa ≠ a := by
    intro h
    rw [h, ha] at hpalive
    cases hpalive
    rw [hlevA] at hlevPA
    omega
  have hpab : pa ≠ b := by
    intro h
    rw [h, hb] at hpalive
    cases hpalive
    rw [hlevB] at hlevPA
    omega
  have hpba : pb ≠ a := by
    intro h
    rw [h, ha] at hpblive
    cases hpblive
    rw [hlevA] at hlevPB
    omega
  have hpbb : pb ≠ b := by
    intro h
    rw [h, hb] at hpblive
    cases hpblive
    rw [hlevB] at hlevPB
    omega
  have hid : nb.NodeId = b := hc.arenaId b nb hb
  have hchne : ∀ c ∈ nb.Children,
      c ≠ a ∧ c ≠ b ∧ c ≠ pa ∧ c ≠ pb ∧ (getNode s c).isSome := by
    intro c hcmem
    obtain ⟨cn, hcn, hcp, hclev0⟩ := hc.childCoh b nb hb c hcmem
    have hclev : cn.Level = (lvl : ℤ) + 1 := by
      rw [hclev0, hlevB]
    refine ⟨?_, ?_, ?_, ?_, by rw [hcn]; rfl⟩
    · intro h
      rw [h, ha] at hcn
      cases hcn
      rw [hlevA] at hclev
      omega
    · intro h
      rw [h, hb] at hcn
      cases hcn
      rw [hlevB] at hclev
      omega
    · intro h
      rw [h, hpalive] at hcn
      cases hcn
      rw [hlevPA] at hclev
      omega
    · intro h
      rw [h, hpblive] at hcn
      cases hcn
      rw [hlevPB] at hclev
      omega
  have hbtbl : b ∈ tableAt s lvl := by
    have := (hc.complete b nb hb).2.2
    rw [hlevB, show ((lvl : ℤ)).toNat = lvl from by omega] at this
    exact this
  have hcnt : (tableAt s lvl).count b = 1 :=
    count_eq_one_of_sorted (hc.sorted lvl) hbtbl
  have hpbtbl : pb ∈ tableAt s (lvl - 1) := by
    have := (hc.complete pb npb hpblive).2.2
    rw [hlevPB, show ((lvl : ℤ) - 1).toNat = lvl - 1 from by omega] at this
    exact this
  by_cases hpp : pb = pa
  · subst hpp
    obtain ⟨s2, hrun, hga, hgb, hgch, hgp, hgo, hgtbl, hgtblne, hglen,
      hgntbl, hgfr⟩ :=
      mergeNodes_spec_samepar s a b pb ptm lvl na nb npb ha hb hab
        hpa hpblive hpb hpba hpbb hid
        (fun c hcm => ⟨(hchne c hcm).1, (hchne c hcm).2.1,
          (hchne c hcm).2.2.2.1, (hchne c hcm).2.2.2.2⟩)
    rw [hcnt] at hgtbl
    rw [if_pos rfl] at hgtbl
    obtain ⟨hcore, ht192, hpex2, hexact, hsurv⟩ :=
      merge_aftermath s s2 a b pb pb lvl hc ht19 hpex na nb npb npb _ _ _
        ha hb hlevA hlevB hab hpa hpb hpblive hpblive hlvl1 hlvl17
        hga rfl rfl rfl rfl rfl rfl rfl hgb hgp rfl rfl rfl rfl
        hgp rfl rfl rfl (by rw [if_pos rfl]) hgch
        (fun j h1 h2 h3 _ h5 => hgo j h1 h2 h3 h5) hgtbl hgtblne
        hglen hgntbl hgfr
    refine ⟨s2, pb, ptm, hrun, hpb, by rw [if_pos rfl], hpbtbl, hpba,
      hpbb, hcore, ht192, hpex2, hgfr.2.2.2.2.2.1, hgfr.2.2.2.2.2.2.1,
      hgb, hgtbl, hgtblne, ?_, ?_, ?_, hsurv⟩
    · exact ⟨_, hga, hpa, hlevA, rfl, rfl, hexact⟩
    · exact ⟨npb, _, hpblive, hgp, rfl, rfl, hlevPB⟩
    · exact ⟨npb, _, hpblive, hgp, rfl, hlevPB, by rw [if_pos rfl]⟩
  · obtain ⟨s2, hrun, hga, hgb, hgch, hgpa, hgpb, hgo, hgtbl, hgtblne,
      hglen, hgntbl, hgfr⟩ :=
      mergeNodes_spec s a b pa pb ptm lvl na nb npa npb ha hb hab hpa
        hpalive hpb hpblive hpaa hpab hpba hpbb
        (fun h => hpp h.symm) hid
        (fun c hcm => ⟨(hchne c hcm).1, (hchne c hcm).2.1,
          (hchne c hcm).2.2.1, (hchne c hcm).2.2.2.1,
          (hchne c hcm).2.2.2.2⟩)
    rw [hcnt] at hgtbl
    rw [if_pos rfl] at hgtbl
    obtain ⟨hcore, ht192, hpex2, hexact, hsurv⟩ :=
      merge_aftermath s s2 a b pa pb lvl hc ht19 hpex na nb npa npb _ _ _
        ha hb hlevA hlevB hab hpa hpb hpalive hpblive hlvl1 hlvl17
        hga rfl rfl rfl rfl rfl rfl rfl hgb hgpb rfl rfl rfl rfl
        hgpa rfl rfl rfl (by rw [if_neg (fun h => hpp h.symm)]) hgch hgo
        hgtbl hgtblne hglen hgntbl hgfr
    refine ⟨s2, pb, insertSorted pb ptm, hrun, hpb,
      by rw [if_neg hpp], hpbtbl, hpba, hpbb, hcore, ht192, hpex2,
      hgfr.2.2.2.2.2.1, hgfr.2.2.2.2.2.2.1, hgb, hgtbl, hgtblne, ?_, ?_,
      ?_, hsurv⟩
    · exact ⟨_, hga, hpa, hlevA, rfl, rfl, hexact⟩
    · exact ⟨npb, _, hpblive, hgpb, rfl, rfl, hlevPB⟩
    · exact ⟨npa, _, hpalive, hgpa, rfl, hlevPA,
        by rw [if_neg (fun h => hpp h.symm)]⟩

/-- The opening merge sweep of a refinement iteration maintains the
mid-sweep invariant: merging each queued node into the current node
kills the queued node, keeps the structural invariant, and confines the
aggregation damage to the current node, its parent and grandparent, and
the collected coarser merge candidates and their parents. -/
theorem refineMergeAll_inv (lvl path pa : ℕ)
    (hlvl1 : 1 ≤ lvl) (hlvl17 : lvl ≤ 17) :
    ∀ (rest : List ℕ) (s : MarkerSetState) (acc : List ℕ),
    Core s → table19OK s → allParentEx s →
    path ∈ tableAt s lvl →
    (∀ pn, getNode s path = some pn → pn.Parent = some pa) →
    path ∉ rest →
    (∀ q ∈ rest, q ∈ tableAt s lvl) →
    List.Sorted (· < ·) rest →
    (∀ n, getNode s path = some n → n.Children ≠ []) →
    (∀ q ∈ acc, q ∈ tableAt s (lvl - 1) ∧ q ≠ pa) →
    List.Sorted (· < ·) acc →
    (∀ i n, getNode s i = some n → ¬ midExc s path pa rest acc i →
      nodeOK s n) →
    (∀ i n, getNode s i = some n → ¬ midExc s path pa rest acc i →
      1 ≤ n.NumberOfMarkers) →
    (∀ i n, getNode s i = some n →
      n.Level ≤ (NumberOfClusterLevels : ℤ) - 2 → i ∉ rest → i ∉ acc →
      n.Children ≠ []) →
    ∀ r, refineMergeAll lvl path rest s acc = some r →
    Core r.1 ∧ table19OK r.1 ∧ allParentEx r.1 ∧
    path ∈ tableAt r.1 lvl ∧
    (∀ pn, getNode r.1 path = some pn → pn.Parent = some pa) ∧
    (∀ q ∈ r.2, q ∈ tableAt r.1 (lvl - 1) ∧ q ≠ pa) ∧
    List.Sorted (· < ·) r.2 ∧
    (∀ n, getNode r.1 path = some n → n.Children ≠ []) ∧
    (∀ i n, getNode r.1 i = some n → ¬ midExc r.1 path pa [] r.2 i →
      nodeOK r.1 n) ∧
    (∀ i n, getNode r.1 i = some n → ¬ midExc r.1 path pa [] r.2 i →
      1 ≤ n.NumberOfMarkers) ∧
    (∀ i n, getNode r.1 i = some n →
      n.Level ≤ (NumberOfClusterLevels : ℤ) - 2 → i ∉ r.2 →
      n.Children ≠ []) ∧
    r.1.NumberOfMarkers = s.NumberOfMarkers ∧
    r.1.ClusterDistance = s.ClusterDistance := by
  intro rest
  induction rest with
  | nil =>
    intro s acc hc ht19 hpex hpm hpp hpnr hqs hqsort hpne hacc haccs hok
      hcpos hne r hr
    rw [refineMergeAll] at hr
    cases hr
    exact ⟨hc, ht19, hpex, hpm, hpp, hacc, haccs, hpne, hok, hcpos,
      fun i n h hl hia => hne i n h hl (List.not_mem_nil i) hia,
      rfl, rfl⟩
  | cons m rest ih =>
    intro s acc hc ht19 hpex hpm hpp hpnr hqs hqsort hpne hacc haccs hok
      hcpos hne r hr
    have hmne : m ≠ path := by
      intro h
      exact hpnr (h ▸ List.mem_cons_self m rest)
    have hmrest : m ∉ rest := by
      intro h
      have := List.rel_of_sorted_cons hqsort m h
      omega
    rw [refineMergeAll, if_neg hmne] at hr
    obtain ⟨pn, hpn, hpnlev⟩ := hc.tableLive lvl path hpm
    obtain ⟨mn, hmn, hmnlev⟩ := hc.tableLive lvl m
      (hqs m (List.mem_cons_self m rest))
    have hppa : pn.Parent = some pa := hpp pn hpn
    obtain ⟨s2, pb, ptm2, hrun, hpbm, hptm2, hpbtbl, hpba, hpbb, hc2,
      ht192, hpex2, hnm2, hcd2, hbdead, htbl2, htbl2ne,
      ⟨na2, hna2, hna2p, hna2lev, hna2ch, hna2cnt, hna2ex⟩,
      ⟨npb, npb2, hnpb, hnpb2, hnpb2ch, hnpb2p, hnpb2lev⟩,
      ⟨npa, npa2, hnpa, hnpa2, hnpa2p, hnpa2lev, hnpa2ch⟩, hsurv⟩ :=
      mergeNodes_preserve s path m pa lvl acc hc ht19 hpex pn mn hpn hmn
        hpnlev hmnlev (fun h => hmne h.symm) hppa hlvl1 hlvl17
    rw [hrun] at hr
    have hnpaLev : npa.Level = (lvl : ℤ) - 1 := by
      obtain ⟨pan, hpan, _, hlev⟩ := hc.parentCoh path pn pa hpn hppa
      rw [hnpa] at hpan
      cases hpan
      rw [hpnlev] at hlev
      exact hlev
    have hpathInPa : path ∈ npa.Children := by
      obtain ⟨pan, hpan, hmem, _⟩ := hc.parentCoh path pn pa hpn hppa
      rw [hnpa] at hpan
      cases hpan
      exact hmem
    have hnpbLev : npb.Level = (lvl : ℤ) - 1 := by
      obtain ⟨pan, hpan, _, hlev⟩ := hc.parentCoh m mn pb hmn hpbm
      rw [hnpb] at hpan
      cases hpan
      rw [hmnlev] at hlev
      exact hlev
    have hpam : pa ≠ m := by
      intro h
      rw [h, hmn] at hnpa
      cases hnpa
      rw [hmnlev] at hnpaLev
      omega
    have hmempt : ∀ q, q ∈ ptm2 ↔ (q ∈ acc ∨ (q = pb ∧ pb ≠ pa)) := by
      intro q
      rw [hptm2]
      by_cases hppx : pb = pa
      · rw [if_pos hppx]
        constructor
        · exact fun h => Or.inl h
        · intro h
          rcases h with h | ⟨_, hne2⟩
          · exact h
          · exact absurd hppx hne2
      · rw [if_neg hppx]
        constructor
        · intro h
          rcases mem_insertSorted.mp h with h | h
          · exact Or.inr ⟨h, hppx⟩
          · exact Or.inl h
        · intro h
          rcases h with h | ⟨h, _⟩
          · exact mem_insertSorted.mpr (Or.inr h)
          · exact mem_insertSorted.mpr (Or.inl h)
    have hpbpt : pb ∈ ptm2 ∨ pb = pa := by
      by_cases hppx : pb = pa
      · exact Or.inr hppx
      · exact Or.inl ((hmempt pb).mpr (Or.inr ⟨rfl, hppx⟩))
    have hlevPAeq : ((lvl - 1 : ℕ) : ℤ) = (lvl : ℤ) - 1 := by omega
    have hlvlne : lvl - 1 ≠ lvl := by omega
    have hmemerase : ∀ {i : ℕ}, i ∈ (tableAt s lvl).erase m ↔
        i ≠ m ∧ i ∈ tableAt s lvl := fun {i} =>
      mem_erase_sorted (hc.sorted lvl)
    have hpm2 : path ∈ tableAt s2 lvl := by
      rw [htbl2]
      exact hmemerase.mpr ⟨fun h => hmne h.symm, hpm⟩
    have hpp2 : ∀ pn2, getNode s2 path = some pn2 →
        pn2.Parent = some pa := by
      intro pn2 h
      rw [hna2] at h
      cases h
      exact hna2p
    have haccLev : ∀ q ∈ acc, ∃ qn, getNode s q = some qn ∧
        qn.Level = (lvl : ℤ) - 1 := by
      intro q hq
      obtain ⟨qn, hqn, hqlev⟩ := hc.tableLive (lvl - 1) q (hacc q hq).1
      exact ⟨qn, hqn, by rw [hqlev, hlevPAeq]⟩
    have hrestLev : ∀ q ∈ rest, ∃ qn, getNode s q = some qn ∧
        qn.Level = (lvl : ℤ) := by
      intro q hq
      exact hc.tableLive lvl q (hqs q (List.mem_cons_of_mem m hq))
    have hrestpa : ∀ q ∈ rest, q ≠ pa := by
      intro q hq h
      obtain ⟨qn, hqn, hqlev⟩ := hrestLev q hq
      rw [h, hnpa] at hqn
      cases hqn
      rw [hqlev] at hnpaLev
      omega
    have hrestpb : ∀ q ∈ rest, q ≠ pb := by
      intro q hq h
      obtain ⟨qn, hqn, hqlev⟩ := hrestLev q hq
      rw [h, hnpb] at hqn
      cases hqn
      rw [hqlev] at hnpbLev
      omega
    have hrestpath : ∀ q ∈ rest, q ≠ path := by
      intro q hq h
      exact hpnr (h ▸ List.mem_cons_of_mem m hq)
    have haccpath : ∀ q ∈ acc, q ≠ path := by
      intro q hq h
      obtain ⟨qn, hqn, hqlev⟩ := haccLev q hq
      rw [h, hpn] at hqn
      cases hqn
      rw [hpnlev] at hqlev
      omega
    have hlive2ne : ∀ {i : ℕ}, (∃ n2, getNode s2 i = some n2) → i ≠ m := by
      intro i hi2 h
      obtain ⟨n2, hn2⟩ := hi2
      rw [h, hbdead] at hn2
      cases hn2
    -- the s2 record of a surviving queued or collected node keeps its
    -- parent pointer
    have hsurvQ : ∀ q ∈ rest, ∀ qn, getNode s q = some qn →
        ∃ qn2, getNode s2 q = some qn2 ∧ qn2.Parent = qn.Parent := by
      intro q hq qn hqn
      have hqtbl2 : q ∈ tableAt s2 lvl := by
        rw [htbl2]
        refine hmemerase.mpr ⟨?_, hqs q (List.mem_cons_of_mem m hq)⟩
        intro h
        exact hmrest (h ▸ hq)
      obtain ⟨qn2, hqn2, _⟩ := hc2.tableLive lvl q hqtbl2
      obtain ⟨n0, hn0, _, _, _, _, _, hpres, _⟩ :=
        hsurv q qn2 hqn2 (hrestpath q hq) (hrestpa q hq) (hrestpb q hq)
      rw [hqn] at hn0
      cases hn0
      refine ⟨qn2, hqn2, hpres ?_⟩
      intro hbad
      obtain ⟨cn, hcn, hcp, hclev⟩ := hc.parentCoh q qn m hqn
        (by rw [hbad])
      rw [hmn] at hcn
      cases hcn
      obtain ⟨qn', hqn', hqlev'⟩ := hrestLev q hq
      rw [hqn] at hqn'
      cases hqn'
      rw [hqlev', hmnlev] at hclev
      omega
    have hsurvA : ∀ q ∈ acc, q ≠ pb → ∀ qn, getNode s q = some qn →
        ∃ qn2, getNode s2 q = some qn2 ∧ qn2.Parent = qn.Parent := by
      intro q hq hqpb qn hqn
      have hqtbl2 : q ∈ tableAt s2 (lvl - 1) := by
        rw [htbl2ne _ hlvlne]
        exact (hacc q hq).1
      obtain ⟨qn2, hqn2, _⟩ := hc2.tableLive (lvl - 1) q hqtbl2
      obtain ⟨n0, hn0, _, _, _, _, _, hpres, _⟩ :=
        hsurv q qn2 hqn2 (haccpath q hq) (hacc q hq).2 hqpb
      rw [hqn] at hn0
      cases hn0
      refine ⟨qn2, hqn2, hpres ?_⟩
      intro hbad
      obtain ⟨cn, hcn, hcp, hclev⟩ := hc.parentCoh q qn m hqn
        (by rw [hbad])
      rw [hmn] at hcn
      cases hcn
      obtain ⟨qn', hqn', hqlev'⟩ := haccLev q hq
      rw [hqn] at hqn'
      cases hqn'
      rw [hqlev', hmnlev] at hclev
      omega
    -- transfer of the exception set
    have hexcT : ∀ {i : ℕ}, (∃ n2, getNode s2 i = some n2) →
        ¬ midExc s2 path pa rest ptm2 i →
        ¬ midExc s path pa (m :: rest) acc i ∧
        i ≠ path ∧ i ≠ pa ∧ i ≠ pb := by
      intro i hi2 hni
      have h1 : i ≠ path := fun h => hni (Or.inl h)
      have h2 : i ≠ pa := fun h => hni (Or.inr (Or.inl h))
      have h3 : i ≠ pb := by
        intro h
        rcases hpbpt with hin | heq
        · exact hni (Or.inr (Or.inr (Or.inr (Or.inr (Or.inl (h ▸ hin))))))
        · exact h2 (h.trans heq)
      refine ⟨?_, h1, h2, h3⟩
      intro hexc
      rcases hexc with h | h | ⟨pan, hpan, hpani⟩ | h | h |
        ⟨q, hq, qn, hqn, hqni⟩
      · exact h1 h
      · exact h2 h
      · rw [hnpa] at hpan
        cases hpan
        exact hni (Or.inr (Or.inr (Or.inl ⟨npa2, hnpa2,
          by rw [hnpa2p]; exact hpani⟩)))
      · rcases List.mem_cons.mp h with h | h
        · exact hlive2ne hi2 h
        · exact hni (Or.inr (Or.inr (Or.inr (Or.inl h))))
      · exact hni (Or.inr (Or.inr (Or.inr (Or.inr (Or.inl
          ((hmempt i).mpr (Or.inl h)))))))
      · rcases hq with hq | hq
        · rcases List.mem_cons.mp hq with hq | hq
          · rw [hq, hmn] at hqn
            cases hqn
            rw [hpbm] at hqni
            cases hqni
            exact h3 rfl
          · obtain ⟨qn2, hqn2, hqn2p⟩ := hsurvQ q hq qn hqn
            exact hni (Or.inr (Or.inr (Or.inr (Or.inr (Or.inr
              ⟨q, Or.inl hq, qn2, hqn2, by rw [hqn2p]; exact hqni⟩)))))
        · by_cases hqpb : q = pb
          · rw [hqpb, hnpb] at hqn
            cases hqn
            refine hni (Or.inr (Or.inr (Or.inr (Or.inr (Or.inr
              ⟨pb, Or.inr ((hmempt pb).mpr (Or.inl (hqpb ▸ hq))),
                npb2, hnpb2, by rw [hnpb2p]; exact hqni⟩)))))
          · obtain ⟨qn2, hqn2, hqn2p⟩ := hsurvA q hq hqpb qn hqn
            exact hni (Or.inr (Or.inr (Or.inr (Or.inr (Or.inr
              ⟨q, Or.inr ((hmempt q).mpr (Or.inl hq)), qn2, hqn2,
                by rw [hqn2p]; exact hqni⟩)))))
    -- invariant clauses for the recursive call
    have hok2 : ∀ i n2, getNode s2 i = some n2 →
        ¬ midExc s2 path pa rest ptm2 i → nodeOK s2 n2 := by
      intro i n2 hi2 hni
      obtain ⟨hOld, h1, h2, h3⟩ := hexcT ⟨n2, hi2⟩ hni
      obtain ⟨n, hn, _, _, _, _, _, _, htrans⟩ := hsurv i n2 hi2 h1 h2 h3
      refine htrans ?_ ?_ (hok i n hn hOld)
      · intro hmm
        obtain ⟨cn, hcn, hcp, _⟩ := hc.childCoh i n hn pa hmm
        rw [hnpa] at hcn
        cases hcn
        exact hOld (Or.inr (Or.inr (Or.inl ⟨npa, hnpa, hcp⟩)))
      · intro hmm
        obtain ⟨cn, hcn, hcp, _⟩ := hc.childCoh i n hn pb hmm
        rw [hnpb] at hcn
        cases hcn
        rcases hpbpt with hin | heq
        · exact hni (Or.inr (Or.inr (Or.inr (Or.inr (Or.inr
            ⟨pb, Or.inr hin, npb2, hnpb2,
              by rw [hnpb2p]; exact hcp⟩)))))
        · have hnpbx : getNode s pa = some npb := by
            rw [← heq]
            exact hnpb
          exact hOld (Or.inr (Or.inr (Or.inl ⟨npb, hnpbx, hcp⟩)))
    have hcpos2 : ∀ i n2, getNode s2 i = some n2 →
        ¬ midExc s2 path pa rest ptm2 i → 1 ≤ n2.NumberOfMarkers := by
      intro i n2 hi2 hni
      obtain ⟨hOld, h1, h2, h3⟩ := hexcT ⟨n2, hi2⟩ hni
      obtain ⟨n, hn, hcnt, _, _, _, _, _, _⟩ := hsurv i n2 hi2 h1 h2 h3
      rw [hcnt]
      exact hcpos i n hn hOld
    have hne2 : ∀ i n2, getNode s2 i = some n2 →
        n2.Level ≤ (NumberOfClusterLevels : ℤ) - 2 → i ∉ rest →
        i ∉ ptm2 → n2.Children ≠ [] := by
      intro i n2 hi2 hlev2 hir hipt
      by_cases h1 : i = path
      · rw [h1, hna2] at hi2
        cases hi2
        rw [hna2ch]
        obtain ⟨x, hx⟩ := List.exists_mem_of_ne_nil _ (hpne pn hpn)
        exact List.ne_nil_of_mem (mem_unionSorted.mpr (Or.inl hx))
      by_cases h2 : i = pa
      · rw [h2, hnpa2] at hi2
        cases hi2
        rw [hnpa2ch]
        by_cases hppx : pa = pb
        · rw [if_pos hppx]
          refine List.ne_nil_of_mem
            ((mem_erase_sorted (hc.childSorted pa npa hnpa)).mpr
              ⟨fun h => hmne h.symm, hpathInPa⟩)
        · rw [if_neg hppx]
          refine hne pa npa hnpa ?_ ?_ (fun h => (hacc pa h).2 rfl)
          · rw [hnpaLev]
            have : ((NumberOfClusterLevels : ℕ) : ℤ) = 20 := by decide
            omega
          · intro h
            rcases List.mem_cons.mp h with h | h
            · exact hpam h
            · exact hrestpa pa h rfl
      by_cases h3 : i = pb
      · rcases hpbpt with hin | heq
        · exact absurd (h3 ▸ hin) hipt
        · exact absurd (h3.trans heq) h2
      · obtain ⟨n, hn, _, hlev, hch, _, _, _, _⟩ := hsurv i n2 hi2 h1 h2 h3
        rw [hch]
        refine hne i n hn ?_ ?_ ?_
        · rw [← hlev]
          exact hlev2
        · intro h
          rcases List.mem_cons.mp h with h | h
          · exact hlive2ne ⟨n2, hi2⟩ h
          · exact hir h
        · intro h
          exact hipt ((hmempt i).mpr (Or.inl h))
    have hacc2 : ∀ q ∈ ptm2, q ∈ tableAt s2 (lvl - 1) ∧ q ≠ pa := by
      intro q hq
      rcases (hmempt q).mp hq with hq2 | ⟨rfl, hne2⟩
      · exact ⟨by rw [htbl2ne _ hlvlne]; exact (hacc q hq2).1,
          (hacc q hq2).2⟩
      · exact ⟨by rw [htbl2ne _ hlvlne]; exact hpbtbl, hne2⟩
    have haccs2 : List.Sorted (· < ·) ptm2 := by
      rw [hptm2]
      by_cases hppx : pb = pa
      · rw [if_pos hppx]
        exact haccs
      · rw [if_neg hppx]
        exact insertSorted_sorted pb acc haccs
    have hpne2 : ∀ n2, getNode s2 path = some n2 → n2.Children ≠ [] := by
      intro n2 h
      rw [hna2] at h
      cases h
      rw [hna2ch]
      obtain ⟨x, hx⟩ := List.exists_mem_of_ne_nil _ (hpne pn hpn)
      exact List.ne_nil_of_mem (mem_unionSorted.mpr (Or.inl hx))
    have hqs2 : ∀ q ∈ rest, q ∈ tableAt s2 lvl := by
      intro q hq
      rw [htbl2]
      refine hmemerase.mpr ⟨?_, hqs q (List.mem_cons_of_mem m hq)⟩
      intro h
      exact hmrest (h ▸ hq)
    obtain ⟨ic, it19, ipex, ipm, ipp, iacc, iaccs, ipne, iok, icpos, ine,
      inm, icd⟩ :=
      ih s2 ptm2 hc2 ht192 hpex2 hpm2 hpp2
        (fun h => hpnr (List.mem_cons_of_mem m h)) hqs2
        (List.sorted_cons.mp hqsort).2 hpne2 hacc2 haccs2 hok2 hcpos2
        hne2 r hr
    exact ⟨ic, it19, ipex, ipm, ipp, iacc, iaccs, ipne, iok, icpos, ine,
      inm.trans hnm2, icd.trans hcd2⟩

theorem childrenCountSum_pos {s : MarkerSetState} {cl : List ℕ}
    (hne : cl ≠ []) (h : ∀ c ∈ cl, 1 ≤ nodeCount s c) :
    1 ≤ childrenCountSum s cl := by
  cases cl with
  | nil => exact absurd rfl hne
  | cons c cs =>
    unfold childrenCountSum
    rw [List.map_cons, List.sum_cons]
    have h1 := h c (List.mem_cons_self c cs)
    have h2 : 0 ≤ (cs.map (nodeCount s)).sum := by
      refine List.sum_nonneg ?_
      intro x hx
      obtain ⟨d, hd, rfl⟩ := List.mem_map.mp hx
      have := h d (List.mem_cons_of_mem c hd)
      omega
    omega

/-- The refinement recompute succeeds on a live node with live children
and restores its aggregation invariant exactly, touching nothing else. -/
theorem recomputeStep_inv (s : MarkerSetState) (path : ℕ)
    (pn : ClusteringNode)
    (hc : Core s) (ht19 : table19OK s) (hpex : allParentEx s)
    (hpn : getNode s path = some pn)
    (hchcpos : ∀ c ∈ pn.Children, ∀ cn, getNode s c = some cn →
      1 ≤ cn.NumberOfMarkers)
    (hpne : pn.Children ≠ [])
    (hlevle : pn.Level ≤ (NumberOfClusterLevels : ℤ) - 2) :
    ∃ s2, recomputeStep s path = some s2 ∧
      Core s2 ∧ table19OK s2 ∧ allParentEx s2 ∧
      (∀ l2, tableAt s2 l2 = tableAt s l2) ∧
      s2.NumberOfMarkers = s.NumberOfMarkers ∧
      s2.ClusterDistance = s.ClusterDistance ∧
      (∀ j, j ≠ path → getNode s2 j = getNode s j) ∧
      (∃ pnew, getNode s2 path = some pnew ∧ pnew.Parent = pn.Parent ∧
        pnew.Children = pn.Children ∧ pnew.Level = pn.Level ∧
        1 ≤ pnew.NumberOfMarkers ∧ nodeOK s2 pnew) := by
  have hchlive : ∀ c ∈ pn.Children, (getNode s c).isSome := by
    intro c hcmem
    obtain ⟨cn, hcn, _, _⟩ := hc.childCoh path pn hpn c hcmem
    rw [hcn]
    rfl
  have hchne : ∀ c ∈ pn.Children, c ≠ path := by
    intro c hcmem h
    exact not_mem_self_children hc hpn (h ▸ hcmem)
  have hsumpos : 1 ≤ childrenCountSum s pn.Children := by
    refine childrenCountSum_pos hpne ?_
    intro c hcmem
    obtain ⟨cn, hcn⟩ := Option.isSome_iff_exists.mp (hchlive c hcmem)
    have h1 := hchcpos c hcmem cn hcn
    unfold nodeCount
    rw [hcn]
    exact h1
  set cnt := childrenCountSum s pn.Children with hcnt
  set mx := childrenMomentX s pn.Children with hmx
  set my := childrenMomentY s pn.Children with hmy
  set pnew : ClusteringNode := { pn with
    NumberOfMarkers := cnt
    MarkerId := if cnt > 1 then -1 else pn.MarkerId
    gcsX := mx / ((cnt : ℤ) : ℚ)
    gcsY := my / ((cnt : ℤ) : ℚ) } with hpnew
  have hpwId : pnew.NodeId = pn.NodeId := rfl
  have hpwLev : pnew.Level = pn.Level := rfl
  have hpwPar : pnew.Parent = pn.Parent := rfl
  have hpwCh : pnew.Children = pn.Children := rfl
  have hpwCnt : pnew.NumberOfMarkers = cnt := rfl
  have hpwX : pnew.gcsX = mx / ((cnt : ℤ) : ℚ) := rfl
  have hpwY : pnew.gcsY = my / ((cnt : ℤ) : ℚ) := rfl
  set s2 := setNode s path pnew with hs2
  have h2new : getNode s2 path = some pnew := getNode_setNode_self _ hpn
  have h2old : ∀ j, j ≠ path → getNode s2 j = getNode s j := by
    intro j hj
    rw [hs2, getNode_setNode_ne _ (fun h => hj h.symm)]
  have h2tbl : ∀ l2, tableAt s2 l2 = tableAt s l2 := by
    intro l2
    rw [hs2, tableAt_setNode]
  have hrun : recomputeStep s path = some s2 := by
    unfold recomputeStep
    rw [hpn]
    simp only
    rw [sumChildren_eq hchlive]
  have h2case : ∀ {j : ℕ} {n2 : ClusteringNode}, getNode s2 j = some n2 →
      (j = path ∧ pnew = n2) ∨ (j ≠ path ∧ getNode s j = some n2) := by
    intro j n2 hj
    by_cases h1 : j = path
    · rw [h1, h2new] at hj
      exact Or.inl ⟨h1, Option.some_inj.mp hj⟩
    · exact Or.inr ⟨h1, by rw [← h2old j h1]; exact hj⟩
  have hchframe : ∀ c ∈ pn.Children, getNode s2 c = getNode s c := by
    intro c hcmem
    exact h2old c (hchne c hcmem)
  refine ⟨s2, hrun, ?_, ?_, ?_, h2tbl, rfl, rfl, h2old, pnew, h2new,
    hpwPar, hpwCh, hpwLev, by rw [hpwCnt]; exact hsumpos, ?_⟩
  · refine ⟨?_, ?_, ?_, ?_, ?_, ?_, ?_, ?_, ?_, ?_⟩
    · exact hc.clustering
    · show s.NodeTable.length = _
      exact hc.ntblLen
    · show (s.AllNodes.set path _).length = _
      rw [List.length_set]
      exact hc.arenaLen
    · intro i n2 hi
      rcases h2case hi with ⟨h1, rfl⟩ | ⟨_, hold⟩
      · rw [hpwId, hc.arenaId path pn hpn, h1]
      · exact hc.arenaId i n2 hold
    · intro l i hi
      rw [h2tbl l] at hi
      obtain ⟨n, hn, hlev⟩ := hc.tableLive l i hi
      by_cases h1 : i = path
      · rw [h1, hpn] at hn
        cases hn
        refine ⟨pnew, ?_, ?_⟩
        · rw [h1]
          exact h2new
        · rw [hpwLev]
          exact hlev
      · exact ⟨n, by rw [h2old i h1]; exact hn, hlev⟩
    · intro i n2 hi
      rcases h2case hi with ⟨h1, rfl⟩ | ⟨_, hold⟩
      · obtain ⟨hge, hlt, hmem⟩ := hc.complete path pn hpn
        rw [hpwLev]
        refine ⟨hge, hlt, ?_⟩
        rw [h2tbl, h1]
        exact hmem
      · obtain ⟨hge, hlt, hmem⟩ := hc.complete i n2 hold
        refine ⟨hge, hlt, ?_⟩
        rw [h2tbl]
        exact hmem
    · intro l
      rw [h2tbl l]
      exact hc.sorted l
    · intro i n2 hi
      rcases h2case hi with ⟨_, rfl⟩ | ⟨_, hold⟩
      · rw [hpwCh]
        exact hc.childSorted path pn hpn
      · exact hc.childSorted i n2 hold
    · intro i n2 hi c hcmem
      rcases h2case hi with ⟨h1, rfl⟩ | ⟨h1, hold⟩
      · rw [hpwCh] at hcmem
        obtain ⟨cn, hcn, hcp, hclev⟩ := hc.childCoh path pn hpn c hcmem
        refine ⟨cn, ?_, ?_, ?_⟩
        · rw [hchframe c hcmem]
          exact hcn
        · rw [hcp, h1]
        · rw [hpwLev]
          exact hclev
      · obtain ⟨cn, hcn, hcp, hclev⟩ := hc.childCoh i n2 hold c hcmem
        by_cases hcpath : c = path
        · rw [hcpath, hpn] at hcn
          cases hcn
          refine ⟨pnew, ?_, ?_, ?_⟩
          · rw [hcpath]
            exact h2new
          · rw [hpwPar]
            exact hcp
          · rw [hpwLev]
            exact hclev
        · exact ⟨cn, by rw [h2old c hcpath]; exact hcn, hcp, hclev⟩
    · intro i n2 p hi hp
      rcases h2case hi with ⟨h1, rfl⟩ | ⟨h1, hold⟩
      · rw [hpwPar] at hp
        obtain ⟨qn, hqn, hmem, hlev⟩ := hc.parentCoh path pn p hpn hp
        have hppath : p ≠ path := by
          intro h
          rw [h, hpn] at hqn
          cases hqn
          omega
        refine ⟨qn, by rw [h2old p hppath]; exact hqn, ?_, ?_⟩
        · rw [h1]
          exact hmem
        · rw [hpwLev]
          exact hlev
      · obtain ⟨qn, hqn, hmem, hlev⟩ := hc.parentCoh i n2 p hold hp
        by_cases hppath : p = path
        · rw [hppath, hpn] at hqn
          cases hqn
          refine ⟨pnew, ?_, ?_, ?_⟩
          · rw [hppath]
            exact h2new
          · rw [hpwCh]
            exact hmem
          · rw [hpwLev]
            exact hlev
        · exact ⟨qn, by rw [h2old p hppath]; exact hqn, hmem, hlev⟩
  · refine @table19OK_congr s s2 (h2tbl _) rfl ?_ ht19
    intro i hi
    obtain ⟨n, hn, hlev⟩ := hc.tableLive _ i hi
    have h1 : i ≠ path := by
      intro h
      rw [h, hpn] at hn
      cases hn
      rw [hlev] at hlevle
      have h20 : ((NumberOfClusterLevels - 1 : ℕ) : ℤ) = 19 := by decide
      have h21 : ((NumberOfClusterLevels : ℕ) : ℤ) = 20 := by decide
      omega
    exact ⟨n, hn, n, by rw [h2old i h1]; exact hn, rfl, rfl⟩
  · intro i n2 hi hlev
    rcases h2case hi with ⟨h1, rfl⟩ | ⟨_, hold⟩
    · rw [hpwPar]
      refine hpex path pn hpn ?_
      rw [hpwLev] at hlev
      exact hlev
    · exact hpex i n2 hold hlev
  · intro hne2
    have hvals : ∀ c ∈ pnew.Children, nodeCount s2 c = nodeCount s c ∧
        nodeGcsX s2 c = nodeGcsX s c ∧ nodeGcsY s2 c = nodeGcsY s c := by
      intro c hcmem
      rw [hpwCh] at hcmem
      unfold nodeCount nodeGcsX nodeGcsY
      rw [hchframe c hcmem]
      exact ⟨rfl, rfl, rfl⟩
    have hdenne : ((cnt : ℤ) : ℚ) ≠ 0 := by
      intro h
      rw [Int.cast_eq_zero] at h
      omega
    refine ⟨?_, ?_, ?_⟩
    · rw [hpwCnt, hpwCh,
          childrenCountSum_congr_val (fun c hc2 => (hvals c (by
            rw [hpwCh]; exact hc2)).1)]
    · rw [hpwX, hpwCnt, hpwCh,
          childrenMomentX_congr_val (fun c hc2 => ⟨(hvals c (by
            rw [hpwCh]; exact hc2)).1, (hvals c (by
            rw [hpwCh]; exact hc2)).2.1⟩)]
      rw [div_mul_cancel₀ _ hdenne]
    · rw [hpwY, hpwCnt, hpwCh,
          childrenMomentY_congr_val (fun c hc2 => ⟨(hvals c (by
            rw [hpwCh]; exact hc2)).1, (hvals c (by
            rw [hpwCh]; exact hc2)).2.2⟩)]
      rw [div_mul_cancel₀ _ hdenne]

/-- One refinement iteration at a positive level, under the refinement
invariant, hands over the refinement invariant one level coarser: the
parent of the current node becomes the next current node and the
collected old parents the next queue. -/
theorem refineStep_inv (thr : ℚ) (s : MarkerSetState) (lvl path : ℕ)
    (queue : List ℕ) (hI : RInv s lvl path queue)
    (hlvl1 : 1 ≤ lvl) (hlvl17 : lvl ≤ 17) :
    ∀ r, refineStep thr s path queue lvl = some r →
    ∃ pa, r.2.2 = some pa ∧ RInv r.1 (lvl - 1) pa r.2.1 ∧
      r.1.NumberOfMarkers = s.NumberOfMarkers ∧
      r.1.ClusterDistance = s.ClusterDistance := by
  intro r hr
  obtain ⟨pn, hpn, hpnlev⟩ := hI.core.tableLive lvl path hI.pathMem
  obtain ⟨pa, hpa⟩ := hI.pex path pn hpn (by rw [hpnlev]; omega)
  have hppu : ∀ pn2, getNode s path = some pn2 → pn2.Parent = some pa := by
    intro pn2 h
    rw [hpn] at h
    cases h
    exact hpa
  have hlevPAeq : ((lvl - 1 : ℕ) : ℤ) = (lvl : ℤ) - 1 := by omega
  have hmid0 : ∀ i, ¬ midExc s path pa queue [] i →
      ¬ refExc s path queue i := by
    intro i hni hexc
    rcases hexc with h | h | ⟨pn2, hpn2, hpni⟩ | ⟨q, hq, qn, hqn, hqni⟩
    · exact hni (Or.inl h)
    · exact hni (Or.inr (Or.inr (Or.inr (Or.inl h))))
    · rw [hpn] at hpn2
      cases hpn2
      rw [hpa] at hpni
      cases hpni
      exact hni (Or.inr (Or.inl rfl))
    · exact hni (Or.inr (Or.inr (Or.inr (Or.inr (Or.inr
        ⟨q, Or.inl hq, qn, hqn, hqni⟩)))))
  unfold refineStep at hr
  cases hfold : refineMergeAll lvl path queue s [] with
  | none =>
    rw [hfold] at hr
    cases hr
  | some r1 =>
    rw [hfold] at hr
    obtain ⟨s1, acc1⟩ := r1
    simp only at hr
    obtain ⟨ic, it19, ipex, ipm, ipp, iacc, iaccs, ipne, iok, icpos, ine,
      inm, icd⟩ :=
      refineMergeAll_inv lvl path pa hlvl1 hlvl17 queue s [] hI.core
        hI.t19 hI.pex hI.pathMem hppu hI.pathNe hI.qSub hI.qSorted
        hI.pathNonempty (fun q hq => absurd hq (List.not_mem_nil q))
        List.sorted_nil
        (fun i n hn hni => hI.ok i n hn (hmid0 i hni))
        (fun i n hn hni => hI.cpos i n hn (hmid0 i hni))
        (fun i n hn hlev hiq _ => hI.ne i n hn hlev hiq)
        (s1, acc1) hfold
    simp only at ic it19 ipex ipm ipp iacc iaccs ipne iok icpos ine inm icd
    obtain ⟨pn1, hpn1, hpn1lev⟩ := ic.tableLive lvl path ipm
    have hpn1pa : pn1.Parent = some pa := ipp pn1 hpn1
    obtain ⟨npa1, hnpa1, hpathInPa1, hnpa1lev0⟩ :=
      ic.parentCoh path pn1 pa hpn1 hpn1pa
    have hnpa1lev : npa1.Level = (lvl : ℤ) - 1 := by
      rw [hnpa1lev0, hpn1lev]
    have hpapath : pa ≠ path := by
      intro h
      rw [h, hpn1] at hnpa1
      cases hnpa1
      rw [hpn1lev] at hnpa1lev
      omega
    have haccpath : ∀ q ∈ acc1, q ≠ path := by
      intro q hq h
      obtain ⟨qn, hqn, hqlev⟩ := ic.tableLive (lvl - 1) q (iacc q hq).1
      rw [h, hpn1] at hqn
      cases hqn
      rw [hpn1lev, hlevPAeq] at hqlev
      omega
    -- a live node of s1 whose level is neither lvl-1 nor lvl-2, other
    -- than the current node, is never excepted mid-sweep
    have hexcOf : ∀ i ni, getNode s1 i = some ni → i ≠ path →
        ni.Level ≠ (lvl : ℤ) - 1 → ni.Level ≠ (lvl : ℤ) - 2 →
        ¬ midExc s1 path pa [] acc1 i := by
      intro i ni hni hip hl1 hl2 hexc
      rcases hexc with h | h | ⟨pn2, hpn2, hpni⟩ | h | h |
        ⟨q, hq, qn, hqn, hqni⟩
      · exact hip h
      · rw [h, hnpa1] at hni
        cases hni
        exact hl1 hnpa1lev
      · rw [hnpa1] at hpn2
        cases hpn2
        obtain ⟨gn, hgn, _, hglev⟩ := ic.parentCoh pa npa1 i hnpa1 hpni
        rw [hgn] at hni
        cases hni
        rw [hnpa1lev] at hglev
        exact hl2 (by rw [hglev]; ring)
      · exact absurd h (List.not_mem_nil i)
      · obtain ⟨qn, hqn, hqlev⟩ := ic.tableLive (lvl - 1) i (iacc i h).1
        rw [hqn] at hni
        cases hni
        exact hl1 (by rw [hqlev, hlevPAeq])
      · rcases hq with hq | hq
        · exact absurd hq (List.not_mem_nil q)
        · obtain ⟨qn0, hqn0, hqlev0⟩ :=
            ic.tableLive (lvl - 1) q (iacc q hq).1
          rw [hqn] at hqn0
          cases hqn0
          obtain ⟨gn, hgn, _, hglev⟩ := ic.parentCoh q qn i hqn hqni
          rw [hgn] at hni
          cases hni
          rw [hqlev0, hlevPAeq] at hglev
          exact hl2 (by rw [hglev]; ring)
    have hchcpos1 : ∀ c ∈ pn1.Children, ∀ cn, getNode s1 c = some cn →
        1 ≤ cn.NumberOfMarkers := by
      intro c hcmem cn hcn
      obtain ⟨cn0, hcn0, _, hclev0⟩ := ic.childCoh path pn1 hpn1 c hcmem
      rw [hcn] at hcn0
      cases hcn0
      have hclev : cn.Level = (lvl : ℤ) + 1 := by
        rw [hclev0, hpn1lev]
      have hcpath : c ≠ path := by
        intro h
        rw [h, hpn1] at hcn
        cases hcn
        rw [hpn1lev] at hclev
        omega
      exact icpos c cn hcn (hexcOf c cn hcn hcpath
        (by rw [hclev]; omega) (by rw [hclev]; omega))
    obtain ⟨s2, hrec, hc2, it192, ipex2, h2tbl, h2nm, h2cd, h2old,
      pnew, h2path, hpwPar, hpwCh, hpwLev, hpwCnt, hpwOK⟩ :=
      recomputeStep_inv s1 path pn1 ic it19 ipex hpn1 hchcpos1
        (ipne pn1 hpn1)
        (by rw [hpn1lev, show ((NumberOfClusterLevels : ℕ) : ℤ) = 20 from
          by decide]; omega)
    rw [hrec] at hr
    simp only at hr
    have hpwPa : pnew.Parent = some pa := by
      rw [hpwPar]
      exact hpn1pa
    have hpwLev2 : pnew.Level = (lvl : ℤ) := by
      rw [hpwLev]
      exact hpn1lev
    have h2pa : getNode s2 pa = some npa1 := by
      rw [h2old pa hpapath]
      exact hnpa1
    have h2acc : ∀ q ∈ acc1, getNode s2 q = getNode s1 q := by
      intro q hq
      exact h2old q (haccpath q hq)
    have h2paEq : getNode s2 pa = getNode s1 pa := h2old pa hpapath
    have hmidEq : ∀ i, midExc s2 path pa [] acc1 i ↔
        midExc s1 path pa [] acc1 i := by
      intro i
      constructor
      · intro h
        rcases h with h | h | ⟨pn2, hpn2, hpni⟩ | h | h |
          ⟨q, hq, qn, hqn, hqni⟩
        · exact Or.inl h
        · exact Or.inr (Or.inl h)
        · rw [h2paEq] at hpn2
          exact Or.inr (Or.inr (Or.inl ⟨pn2, hpn2, hpni⟩))
        · exact Or.inr (Or.inr (Or.inr (Or.inl h)))
        · exact Or.inr (Or.inr (Or.inr (Or.inr (Or.inl h))))
        · rcases hq with hq | hq
          · exact absurd hq (List.not_mem_nil q)
          · rw [h2acc q hq] at hqn
            exact Or.inr (Or.inr (Or.inr (Or.inr (Or.inr
              ⟨q, Or.inr hq, qn, hqn, hqni⟩))))
      · intro h
        rcases h with h | h | ⟨pn2, hpn2, hpni⟩ | h | h |
          ⟨q, hq, qn, hqn, hqni⟩
        · exact Or.inl h
        · exact Or.inr (Or.inl h)
        · rw [← h2paEq] at hpn2
          exact Or.inr (Or.inr (Or.inl ⟨pn2, hpn2, hpni⟩))
        · exact Or.inr (Or.inr (Or.inr (Or.inl h)))
        · exact Or.inr (Or.inr (Or.inr (Or.inr (Or.inl h))))
        · rcases hq with hq | hq
          · exact absurd hq (List.not_mem_nil q)
          · rw [← h2acc q hq] at hqn
            exact Or.inr (Or.inr (Or.inr (Or.inr (Or.inr
              ⟨q, Or.inr hq, qn, hqn, hqni⟩))))
    have hok2 : ∀ i n2, getNode s2 i = some n2 →
        ¬ midExc s2 path pa [] acc1 i → nodeOK s2 n2 := by
      intro i n2 hn2 hni
      have hip : i ≠ path := fun h => hni (Or.inl h)
      rw [h2old i hip] at hn2
      refine nodeOK_congr ?_ (iok i n2 hn2 (fun h => hni
        ((hmidEq i).mpr h)))
      intro c hcmem
      refine h2old c ?_
      intro h
      obtain ⟨cn, hcn, hcp, _⟩ := ic.childCoh i n2 hn2 c hcmem
      rw [h, hpn1] at hcn
      cases hcn
      rw [hpn1pa] at hcp
      cases hcp
      exact hni (Or.inr (Or.inl rfl))
    have hcpos2 : ∀ i n2, getNode s2 i = some n2 →
        ¬ midExc s2 path pa [] acc1 i → 1 ≤ n2.NumberOfMarkers := by
      intro i n2 hn2 hni
      have hip : i ≠ path := fun h => hni (Or.inl h)
      rw [h2old i hip] at hn2
      exact icpos i n2 hn2 (fun h => hni ((hmidEq i).mpr h))
    have hne2 : ∀ i n2, getNode s2 i = some n2 →
        n2.Level ≤ (NumberOfClusterLevels : ℤ) - 2 → i ∉ acc1 →
        n2.Children ≠ [] := by
      intro i n2 hn2 hlev hia
      by_cases hip : i = path
      · rw [hip, h2path] at hn2
        cases hn2
        rw [hpwCh]
        exact ipne pn1 hpn1
      · rw [h2old i hip] at hn2
        exact ine i n2 hn2 hlev hia
    have hexcOf2 : ∀ i ni, getNode s2 i = some ni → i ≠ path →
        ni.Level ≠ (lvl : ℤ) - 1 → ni.Level ≠ (lvl : ℤ) - 2 →
        ¬ midExc s2 path pa [] acc1 i := by
      intro i ni hni hip hl1 hl2 h
      rw [h2old i hip] at hni
      exact hexcOf i ni hni hip hl1 hl2 ((hmidEq i).mp h)
    have hpaMem2 : pa ∈ tableAt s2 (lvl - 1) := by
      have hcm := (ic.complete pa npa1 hnpa1).2.2
      have htn : npa1.Level.toNat = lvl - 1 := by
        rw [hnpa1lev]
        omega
      rw [htn] at hcm
      rw [h2tbl]
      exact hcm
    have hpaNe2 : pa ∉ acc1 := fun h => (iacc pa h).2 rfl
    cases hclosest : findClosestNode s2 path lvl thr with
    | none =>
      rw [hclosest] at hr
      cases hr
    | some closestResult =>
      rw [hclosest] at hr
      simp only at hr
      cases closestResult with
      | none =>
        simp only at hr
        rw [h2path] at hr
        simp only at hr
        cases hr
        refine ⟨pa, by rw [hpwPa], ?_, h2nm.trans inm, h2cd.trans icd⟩
        refine ⟨hc2, it192, ipex2, hpaMem2, hpaNe2,
          fun q hq => by rw [h2tbl]; exact (iacc q hq).1, iaccs, ?_,
          ?_, ?_, ?_⟩
        · intro n hn
          rw [h2pa] at hn
          cases hn
          exact List.ne_nil_of_mem hpathInPa1
        · intro i n2 hn2 hni
          by_cases hip : i = path
          · rw [hip, h2path] at hn2
            cases hn2
            exact hpwOK
          · refine hok2 i n2 hn2 ?_
            intro h
            rcases h with h | h | ⟨pn2, hpn2, hpni⟩ | h | h |
              ⟨q, hq, qn, hqn, hqni⟩
            · exact hip h
            · exact hni (Or.inl h)
            · exact hni (Or.inr (Or.inr (Or.inl ⟨pn2, hpn2, hpni⟩)))
            · exact absurd h (List.not_mem_nil i)
            · exact hni (Or.inr (Or.inl h))
            · rcases hq with hq | hq
              · exact absurd hq (List.not_mem_nil q)
              · exact hni (Or.inr (Or.inr (Or.inr
                  ⟨q, hq, qn, hqn, hqni⟩)))
        · intro i n2 hn2 hni
          by_cases hip : i = path
          · rw [hip, h2path] at hn2
            cases hn2
            exact hpwCnt
          · refine hcpos2 i n2 hn2 ?_
            intro h
            rcases h with h | h | ⟨pn2, hpn2, hpni⟩ | h | h |
              ⟨q, hq, qn, hqn, hqni⟩
            · exact hip h
            · exact hni (Or.inl h)
            · exact hni (Or.inr (Or.inr (Or.inl ⟨pn2, hpn2, hpni⟩)))
            · exact absurd h (List.not_mem_nil i)
            · exact hni (Or.inr (Or.inl h))
            · rcases hq with hq | hq
              · exact absurd hq (List.not_mem_nil q)
              · exact hni (Or.inr (Or.inr (Or.inr
                  ⟨q, hq, qn, hqn, hqni⟩)))
        · intro i n2 hn2 hlev hia
          exact hne2 i n2 hn2 hlev hia
      | some c =>
        simp only at hr
        obtain ⟨hcmem, hcpath⟩ :=
          findClosestNode_found hc2 hclosest c rfl
        obtain ⟨cn2, hcn2, hcn2lev⟩ := hc2.tableLive lvl c hcmem
        have hcnotexc : ¬ midExc s2 path pa [] acc1 c :=
          hexcOf2 c cn2 hcn2 hcpath (by rw [hcn2lev]; omega)
            (by rw [hcn2lev]; omega)
        have hcacc : c ∉ acc1 := by
          intro h
          obtain ⟨qn, hqn, hqlev⟩ := ic.tableLive (lvl - 1) c (iacc c h).1
          rw [h2old c hcpath, hqn] at hcn2
          cases hcn2
          rw [hqlev, hlevPAeq] at hcn2lev
          omega
        obtain ⟨s3, qb, ptm3, jrun, jqbpar, jptm3, jqbtbl, jqba, jqbb,
          jc3, jt193, jpex3, jnm3, jcd3, jcdead, jtbl3, jtbl3ne,
          ⟨na3, jna3, jna3p, jna3lev, jna3ch, jna3cnt, jna3ex⟩,
          ⟨nqb, nqb2, jnqb, jnqb2, jnqb2ch, jnqb2p, jnqb2lev⟩,
          ⟨npaX, npaX2, jnpa, jnpa2, jnpa2p, jnpa2lev, jnpa2ch⟩,
          jsurv⟩ :=
          mergeNodes_preserve s2 path c pa lvl acc1 hc2 it192 ipex2
            pnew cn2 h2path hcn2 hpwLev2 hcn2lev
            (fun h => hcpath h.symm) hpwPa hlvl1 hlvl17
        rw [jrun] at hr
        simp only at hr
        rw [jna3] at hr
        simp only at hr
        cases hr
        have hnpaXeq : npaX = npa1 := by
          rw [h2pa] at jnpa
          exact (Option.some_inj.mp jnpa).symm
        have hpwChNe : pnew.Children ≠ [] := by
          rw [hpwCh]
          exact ipne pn1 hpn1
        have hna3OK : nodeOK s3 na3 :=
          jna3ex hpwCnt (hcpos2 c cn2 hcn2 hcnotexc) hpwChNe
            (hne2 c cn2 hcn2
              (by rw [hcn2lev, show ((NumberOfClusterLevels : ℕ) : ℤ) = 20
                from by decide]; omega) hcacc) hpwOK
            (hok2 c cn2 hcn2 hcnotexc)
        have hacc1pt : ∀ q ∈ acc1, q ∈ ptm3 := by
          intro q hq
          rw [jptm3]
          split
          · exact hq
          · exact mem_insertSorted.mpr (Or.inr hq)
        have hqbpt : qb ≠ pa → qb ∈ ptm3 := by
          intro hne3
          rw [jptm3, if_neg hne3]
          exact mem_insertSorted.mpr (Or.inl rfl)
        have hptmem : ∀ q ∈ ptm3, q ∈ acc1 ∨ (q = qb ∧ qb ≠ pa) := by
          intro q hq
          rw [jptm3] at hq
          by_cases hppx : qb = pa
          · rw [if_pos hppx] at hq
            exact Or.inl hq
          · rw [if_neg hppx] at hq
            rcases mem_insertSorted.mp hq with h | h
            · exact Or.inr ⟨h, hppx⟩
            · exact Or.inl h
        have hlvlne : lvl - 1 ≠ lvl := by omega
        -- the new exception set covers the old one on survivors
        have hmidT : ∀ i, i ≠ path → ¬ refExc s3 pa ptm3 i →
            ¬ midExc s2 path pa [] acc1 i := by
          intro i hip hni h
          rcases h with h | h | ⟨pn2, hpn2, hpni⟩ | h | h |
            ⟨q, hq, qn, hqn, hqni⟩
          · exact hip h
          · exact hni (Or.inl h)
          · rw [jnpa] at hpn2
            cases hpn2
            refine hni (Or.inr (Or.inr (Or.inl ⟨npaX2, jnpa2, ?_⟩)))
            rw [jnpa2p]
            exact hpni
          · exact absurd h (List.not_mem_nil i)
          · exact hni (Or.inr (Or.inl (hacc1pt i h)))
          · rcases hq with hq | hq
            · exact absurd hq (List.not_mem_nil q)
            · by_cases hqqb : q = qb
              · rw [hqqb, jnqb] at hqn
                cases hqn
                have hqbpa : qb ≠ pa := by
                  intro h2
                  rw [hqqb, h2] at hq
                  exact hpaNe2 hq
                refine hni (Or.inr (Or.inr (Or.inr
                  ⟨qb, hqbpt hqbpa, nqb2, jnqb2, ?_⟩)))
                rw [jnqb2p]
                exact hqni
              · have hq3mem : q ∈ tableAt s3 (lvl - 1) := by
                  rw [jtbl3ne (lvl - 1) hlvlne, h2tbl]
                  exact (iacc q hq).1
                obtain ⟨qn3, hqn3, hqn3lev⟩ :=
                  jc3.tableLive (lvl - 1) q hq3mem
                obtain ⟨qn', hqn', _, _, _, _, _, hparp, _⟩ :=
                  jsurv q qn3 hqn3 (haccpath q hq) ((iacc q hq).2) hqqb
                rw [hqn] at hqn'
                cases hqn'
                have hqlev2 : qn.Level = (lvl : ℤ) - 1 := by
                  obtain ⟨qnw, hqnw, hqw⟩ := hc2.tableLive (lvl - 1) q
                    (by rw [h2tbl]; exact (iacc q hq).1)
                  rw [hqn] at hqnw
                  cases hqnw
                  rw [hqw, hlevPAeq]
                have hic : i ≠ c := by
                  intro h2
                  obtain ⟨gn, hgn, _, hglev⟩ :=
                    hc2.parentCoh q qn i hqn hqni
                  rw [h2, hcn2] at hgn
                  cases hgn
                  rw [hqlev2] at hglev
                  rw [hglev] at hcn2lev
                  omega
                have hnec : qn.Parent ≠ some c := by
                  rw [hqni]
                  intro h2
                  exact hic (Option.some_inj.mp h2)
                refine hni (Or.inr (Or.inr (Or.inr
                  ⟨q, hacc1pt q hq, qn3, hqn3, ?_⟩)))
                rw [hparp hnec]
                exact hqni
        have hpaNeCh : ∀ n, getNode s3 pa = some n → n.Children ≠ [] := by
          intro n hn
          rw [jnpa2] at hn
          cases hn
          rw [jnpa2ch]
          have hmem : path ∈ npaX.Children := by
            rw [hnpaXeq]
            exact hpathInPa1
          split
          · exact List.ne_nil_of_mem
              ((mem_erase_sorted (hc2.childSorted pa npaX jnpa)).mpr
                ⟨fun h => hcpath h.symm, hmem⟩)
          · exact List.ne_nil_of_mem hmem
        refine ⟨pa, jna3p, ?_, jnm3.trans (h2nm.trans inm),
          jcd3.trans (h2cd.trans icd)⟩
        refine ⟨jc3, jt193, jpex3, ?_, ?_, ?_, ?_, hpaNeCh, ?_, ?_, ?_⟩
        · rw [jtbl3ne (lvl - 1) hlvlne]
          exact hpaMem2
        · intro h
          rcases hptmem pa h with h2 | ⟨h2, h3⟩
          · exact hpaNe2 h2
          · exact h3 h2.symm
        · intro q hq
          rw [jtbl3ne (lvl - 1) hlvlne]
          rcases hptmem q hq with h2 | ⟨h2, _⟩
          · rw [h2tbl]
            exact (iacc q h2).1
          · rw [h2]
            exact jqbtbl
        · rw [jptm3]
          split
          · exact iaccs
          · exact insertSorted_sorted qb acc1 iaccs
        · -- aggregation exactness outside the new exception set
          intro i n3 hn3 hni
          by_cases hip : i = path
          · rw [hip, jna3] at hn3
            cases hn3
            exact hna3OK
          · have hipa : i ≠ pa := fun h => hni (Or.inl h)
            have hic : i ≠ c := by
              intro h
              rw [h, jcdead] at hn3
              cases hn3
            have hiqb : i ≠ qb := by
              intro h
              by_cases hqp : qb = pa
              · exact hipa (h.trans hqp)
              · exact hni (Or.inr (Or.inl (h ▸ hqbpt hqp)))
            obtain ⟨n, hn, hcnt, hlev, hch, hgx, hgy, hparp, htrans⟩ :=
              jsurv i n3 hn3 hip hipa hiqb
            have hpaCh : pa ∉ n.Children := by
              intro hmem
              obtain ⟨cn, hcnrec, hcnp, _⟩ := hc2.childCoh i n hn pa hmem
              rw [jnpa] at hcnrec
              cases hcnrec
              refine hni (Or.inr (Or.inr (Or.inl ⟨npaX2, jnpa2, ?_⟩)))
              rw [jnpa2p]
              exact hcnp
            have hqbCh : qb ∉ n.Children := by
              by_cases hqp : qb = pa
              · rw [hqp]
                exact hpaCh
              · intro hmem
                obtain ⟨cn, hcnrec, hcnp, _⟩ :=
                  hc2.childCoh i n hn qb hmem
                rw [jnqb] at hcnrec
                cases hcnrec
                refine hni (Or.inr (Or.inr (Or.inr
                  ⟨qb, hqbpt hqp, nqb2, jnqb2, ?_⟩)))
                rw [jnqb2p]
                exact hcnp
            exact htrans hpaCh hqbCh (hok2 i n hn (hmidT i hip hni))
        · -- positive counts outside the new exception set
          intro i n3 hn3 hni
          by_cases hip : i = path
          · rw [hip, jna3] at hn3
            cases hn3
            rw [jna3cnt]
            have h1 := hpwCnt
            have h2 := hcpos2 c cn2 hcn2 hcnotexc
            omega
          · have hipa : i ≠ pa := fun h => hni (Or.inl h)
            have hiqb : i ≠ qb := by
              intro h
              by_cases hqp : qb = pa
              · exact hipa (h.trans hqp)
              · exact hni (Or.inr (Or.inl (h ▸ hqbpt hqp)))
            obtain ⟨n, hn, hcnt, -, -, -, -, -, -⟩ :=
              jsurv i n3 hn3 hip hipa hiqb
            rw [hcnt]
            exact hcpos2 i n hn (hmidT i hip hni)
        · -- interior nodes keep children outside the new queue
          intro i n3 hn3 hlev hipt
          by_cases hip : i = path
          · rw [hip, jna3] at hn3
            cases hn3
            rw [jna3ch]
            obtain ⟨x, hx⟩ := List.exists_mem_of_ne_nil _ hpwChNe
            exact List.ne_nil_of_mem (mem_unionSorted.mpr (Or.inl hx))
          · by_cases hipa : i = pa
            · rw [hipa] at hn3
              exact hpaNeCh n3 hn3
            · have hiqb : i ≠ qb := by
                intro h
                by_cases hqp : qb = pa
                · exact hipa (h.trans hqp)
                · exact hipt (h ▸ hqbpt hqp)
              obtain ⟨n, hn, -, hlevE, hch, -, -, -, -⟩ :=
                jsurv i n3 hn3 hip hipa hiqb
              rw [hch]
              refine hne2 i n hn ?_ ?_
              · rw [← hlevE]
                exact hlev
              · exact fun h => hipt (hacc1pt i h)

/-- The last refinement iteration, at level 0.  The roots have no parent,
so any merge at this level would dereference NULL; a successful run
therefore found no merge partner, emptied its queue beforehand, and
leaves the full boundary invariant. -/
theorem refineStep0_inv (thr : ℚ) (s : MarkerSetState) (path : ℕ)
    (queue : List ℕ) (hI : RInv s 0 path queue) :
    ∀ r, refineStep thr s path queue 0 = some r →
    BInv r.1 ∧ r.1.NumberOfMarkers = s.NumberOfMarkers ∧
      r.1.ClusterDistance = s.ClusterDistance := by
  intro r hr
  obtain ⟨pn, hpn, hpnlev⟩ := hI.core.tableLive 0 path hI.pathMem
  have hpar0 : pn.Parent = none :=
    live_level0_no_parent hI.core hpn (by rw [hpnlev]; rfl)
  have hnoexc : ∀ i, i ≠ path → ¬ refExc s path [] i := by
    intro i hip hexc
    rcases hexc with h | h | ⟨pn2, hpn2, hpni⟩ | ⟨q, hq, _⟩
    · exact hip h
    · exact absurd h (List.not_mem_nil i)
    · rw [hpn] at hpn2
      cases hpn2
      rw [hpar0] at hpni
      cases hpni
    · exact absurd hq (List.not_mem_nil q)
  unfold refineStep at hr
  cases queue with
  | cons m rest =>
    -- a non-empty queue forces a level-0 merge, which dereferences the
    -- missing parent: the run could not have succeeded
    exfalso
    have hmpath : m ≠ path := by
      intro h
      exact hI.pathNe (h ▸ List.mem_cons_self m rest)
    have hmq : m ∈ tableAt s 0 := hI.qSub m (List.mem_cons_self m rest)
    obtain ⟨nm, hnm, hnmlev⟩ := hI.core.tableLive 0 m hmq
    have hch : ∀ c ∈ nm.Children, c ≠ path ∧ (getNode s c).isSome := by
      intro c hcmem
      obtain ⟨cn, hcn, _, hclev⟩ := hI.core.childCoh m nm hnm c hcmem
      refine ⟨?_, by rw [hcn]; rfl⟩
      intro h
      rw [h, hpn] at hcn
      cases hcn
      rw [hnmlev, hpnlev] at hclev
      simp at hclev
    have hmnone : mergeNodes s path m [] 0 = none :=
      mergeNodes_none_of_no_parent s path m [] 0 pn nm hpn hnm
        (fun h => hmpath h.symm) hpar0 hch
    have hfold : refineMergeAll 0 path (m :: rest) s [] = none := by
      unfold refineMergeAll
      rw [if_neg hmpath, hmnone]
    rw [hfold] at hr
    cases hr
  | nil =>
    rw [show refineMergeAll 0 path [] s [] = some (s, []) from rfl] at hr
    simp only at hr
    have hchcpos : ∀ c ∈ pn.Children, ∀ cn, getNode s c = some cn →
        1 ≤ cn.NumberOfMarkers := by
      intro c hcmem cn hcn
      refine hI.cpos c cn hcn (hnoexc c ?_)
      intro h
      exact not_mem_self_children hI.core hpn (h ▸ hcmem)
    obtain ⟨s2, hrec, hc2, it192, ipex2, h2tbl, h2nm, h2cd, h2old,
      pnew, h2path, hpwPar, hpwCh, hpwLev, hpwCnt, hpwOK⟩ :=
      recomputeStep_inv s path pn hI.core hI.t19 hI.pex hpn hchcpos
        (hI.pathNonempty pn hpn)
        (by rw [hpnlev, show ((NumberOfClusterLevels : ℕ) : ℤ) = 20 from
          by decide]; omega)
    rw [hrec] at hr
    simp only at hr
    have hpw0 : pnew.Parent = none := by
      rw [hpwPar]
      exact hpar0
    have hBInv2 : BInv s2 := by
      refine ⟨hc2, it192, ?_, ?_, ?_, ipex2⟩
      · intro i n hn
        by_cases hip : i = path
        · rw [hip, h2path] at hn
          cases hn
          exact hpwOK
        · rw [h2old i hip] at hn
          refine nodeOK_congr ?_ (hI.ok i n hn (hnoexc i hip))
          intro c hcmem
          refine h2old c ?_
          intro h
          obtain ⟨cn, hcn, hcp, _⟩ := hI.core.childCoh i n hn c hcmem
          rw [h, hpn] at hcn
          cases hcn
          rw [hpar0] at hcp
          cases hcp
      · intro i n hn
        by_cases hip : i = path
        · rw [hip, h2path] at hn
          cases hn
          exact hpwCnt
        · rw [h2old i hip] at hn
          exact hI.cpos i n hn (hnoexc i hip)
      · intro i n hn hlev
        by_cases hip : i = path
        · rw [hip, h2path] at hn
          cases hn
          rw [hpwCh]
          exact hI.pathNonempty pn hpn
        · rw [h2old i hip] at hn
          exact hI.ne i n hn hlev (List.not_mem_nil i)
    cases hclosest : findClosestNode s2 path 0 thr with
    | none =>
      rw [hclosest] at hr
      cases hr
    | some closestResult =>
      rw [hclosest] at hr
      simp only at hr
      cases closestResult with
      | none =>
        simp only at hr
        rw [h2path] at hr
        simp only at hr
        cases hr
        exact ⟨hBInv2, h2nm, h2cd⟩
      | some c =>
        exfalso
        simp only at hr
        obtain ⟨hcmem, hcpath⟩ :=
          findClosestNode_found hc2 hclosest c rfl
        obtain ⟨cn2, hcn2, hcn2lev⟩ := hc2.tableLive 0 c hcmem
        have hch2 : ∀ d ∈ cn2.Children, d ≠ path ∧
            (getNode s2 d).isSome := by
          intro d hdmem
          obtain ⟨dn, hdn, _, hdlev⟩ := hc2.childCoh c cn2 hcn2 d hdmem
          refine ⟨?_, by rw [hdn]; rfl⟩
          intro h
          rw [h, h2path] at hdn
          cases hdn
          rw [hcn2lev] at hdlev
          rw [hdlev] at hpwLev
          rw [hpnlev] at hpwLev
          simp at hpwLev
        have hmnone : mergeNodes s2 path c [] 0 = none :=
          mergeNodes_none_of_no_parent s2 path c [] 0 pnew cn2 h2path
            hcn2 (fun h => hcpath h.symm) hpw0 hch2
        rw [hmnone] at hr
        cases hr

/-- The refinement cascade: from any level at most 17, under the
refinement invariant, a successful run of the loop down to level 0
restores the full boundary invariant and preserves the marker count and
the cluster distance. -/
theorem refineLoop_inv (thr : ℚ) : ∀ (lvl : ℕ) (s : MarkerSetState)
    (path : ℕ) (queue : List ℕ), RInv s lvl path queue → lvl ≤ 17 →
    ∀ s', refineLoop thr lvl s (some path) queue = some s' →
    BInv s' ∧ s'.NumberOfMarkers = s.NumberOfMarkers ∧
      s'.ClusterDistance = s.ClusterDistance := by
  intro lvl
  induction lvl with
  | zero =>
    intro s path queue hI _ s' h
    rw [refineLoop] at h
    cases hstep : refineStep thr s path queue 0 with
    | none =>
      rw [hstep] at h
      cases h
    | some rr =>
      rw [hstep] at h
      simp only at h
      obtain ⟨hB, hnm, hcd⟩ := refineStep0_inv thr s path queue hI rr hstep
      cases h
      exact ⟨hB, hnm, hcd⟩
  | succ l ih =>
    intro s path queue hI hlvl s' h
    rw [refineLoop] at h
    cases hstep : refineStep thr s path queue (l + 1) with
    | none =>
      rw [hstep] at h
      cases h
    | some rr =>
      rw [hstep] at h
      obtain ⟨s1, q1, p1⟩ := rr
      simp only at h
      obtain ⟨pa, hppa, hRI, hnm, hcd⟩ :=
        refineStep_inv thr s (l + 1) path queue hI (by omega) hlvl
          (s1, q1, p1) hstep
      simp only at hppa hRI hnm hcd
      rw [hppa] at h
      obtain ⟨hB, hnm1, hcd1⟩ := ih s1 pa q1 hRI (by omega) s' h
      exact ⟨hB, hnm1.trans hnm, hcd1.trans hcd⟩

/-- Setting the changed flag touches neither the arena nor the tables, so
the boundary invariant carries over. -/
theorem bInv_markersChanged {s : MarkerSetState} (h : BInv s) :
    BInv { s with MarkersChanged := true } := by
  obtain ⟨hc, ht, hok, hcp, hne, hpx⟩ := h
  exact ⟨⟨hc.clustering, hc.ntblLen, hc.arenaLen, hc.arenaId,
    hc.tableLive, hc.complete, hc.sorted, hc.childSorted, hc.childCoh,
    hc.parentCoh⟩, ht, hok, hcp, hne, hpx⟩

/-- `AddMarker` preserves the boundary invariant on every successful run:
it returns the pre-call marker count as the new id, increments the
count by one, keeps the cluster distance, and leaves a state in which
every cluster is again the exact aggregate of its children. -/
theorem addMarker_inv (lat2y : ℚ → ℚ) (s : MarkerSetState) (la lo : ℚ)
    (hB : BInv s) :
    ∀ r, addMarker lat2y s la lo = some r →
    BInv r.2 ∧ r.1 = s.NumberOfMarkers ∧
      r.2.NumberOfMarkers = s.NumberOfMarkers + 1 ∧
      r.2.ClusterDistance = s.ClusterDistance := by
  intro r hr
  obtain ⟨s3, heq, hCI, h3nm, h3cd⟩ := addMarker_leaf lat2y s la lo hB
  rw [heq] at hr
  cases hcl : climbLoop s.ClusterDistance 18 s3 s.NumberOfNodes with
  | none =>
    rw [hcl] at hr
    cases hr
  | some r4 =>
    rw [hcl] at hr
    obtain ⟨s4, cur, brokeAt⟩ := r4
    simp only at hr
    obtain ⟨h4nm, h4cd, hbn, hbs⟩ :=
      climbLoop_inv s.ClusterDistance 18 s3 s.NumberOfNodes hCI
        (by decide) s4 cur brokeAt hcl
    cases hcur : getNode s4 cur with
    | none =>
      rw [hcur] at hr
      cases hr
    | some curNode =>
      rw [hcur] at hr
      simp only at hr
      cases brokeAt with
      | none =>
        simp only at hr
        cases hr
        refine ⟨bInv_markersChanged (hbn rfl), rfl, ?_, ?_⟩
        · show s4.NumberOfMarkers = s.NumberOfMarkers + 1
          rw [h4nm, h3nm]
        · show s4.ClusterDistance = s.ClusterDistance
          rw [h4cd, h3cd]
      | some L =>
        cases L with
        | zero =>
          simp only at hr
          cases hr
          obtain ⟨-, hco4, ht194, hcpos4, hne4, hpex4, cN2, hcN2,
            hcN2lev, hexok⟩ := hbs 0 rfl
          have hcpar : cN2.Parent = none :=
            live_level0_no_parent hco4 hcN2 (by rw [hcN2lev]; rfl)
          have hok4 : allOK s4 := by
            intro i n hn
            refine hexok i n hn ?_
            intro p hp
            rw [hcpar] at hp
            cases hp
          refine ⟨bInv_markersChanged
            ⟨hco4, ht194, hok4, hcpos4, hne4, hpex4⟩, rfl, ?_, ?_⟩
          · show s4.NumberOfMarkers = s.NumberOfMarkers + 1
            rw [h4nm, h3nm]
          · show s4.ClusterDistance = s.ClusterDistance
            rw [h4cd, h3cd]
        | succ l =>
          simp only at hr
          obtain ⟨hL18, hco4, ht194, hcpos4, hne4, hpex4, cN2, hcN2,
            hcN2lev, hexok⟩ := hbs (l + 1) rfl
          rw [hcur] at hcN2
          cases hcN2
          obtain ⟨pa, hpa⟩ := hpex4 cur curNode hcur
            (by rw [hcN2lev]; omega)
          obtain ⟨npa, hnpa, hcurmem, hnpalev⟩ :=
            hco4.parentCoh cur curNode pa hcur hpa
          have hnpalev2 : npa.Level = (l : ℤ) := by
            rw [hnpalev, hcN2lev]
            push_cast
            ring
          have hRI : RInv s4 l pa [] := by
            refine ⟨hco4, ht194, hpex4, ?_, List.not_mem_nil pa,
              fun q hq => absurd hq (List.not_mem_nil q),
              List.sorted_nil, ?_, ?_, ?_, ?_⟩
            · have hcm := (hco4.complete pa npa hnpa).2.2
              have htn : npa.Level.toNat = l := by
                rw [hnpalev2]
                omega
              rw [htn] at hcm
              exact hcm
            · intro n hn
              rw [hnpa] at hn
              cases hn
              exact List.ne_nil_of_mem hcurmem
            · intro i n hn hni
              refine hexok i n hn ?_
              intro p hp
              rw [hpa] at hp
              cases hp
              exact fun h => hni (Or.inl h)
            · intro i n hn _
              exact hcpos4 i n hn
            · intro i n hn hlev _
              exact hne4 i n hn hlev
          rw [hpa] at hr
          cases hrl : refineLoop s.ClusterDistance l s4 (some pa) [] with
          | none =>
            rw [hrl] at hr
            cases hr
          | some s5 =>
            rw [hrl] at hr
            simp only at hr
            cases hr
            obtain ⟨hB5, h5nm, h5cd⟩ :=
              refineLoop_inv s.ClusterDistance l s4 pa [] hRI
                (by omega) s5 hrl
            refine ⟨bInv_markersChanged hB5, rfl, ?_, ?_⟩
            · show s5.NumberOfMarkers = s.NumberOfMarkers + 1
              rw [h5nm, h4nm, h3nm]
            · show s5.ClusterDistance = s.ClusterDistance
              rw [h5cd, h4cd, h3cd]

/-- A freshly constructed clustering engine satisfies the boundary
invariant: every table is empty and the arena holds no node. -/
theorem initState_BInv (k : ℚ) : BInv (initState true k) := by
  have hget : ∀ i, getNode (initState true k) i = none := by
    intro i
    simp [getNode, initState]
  have htbl : ∀ l, tableAt (initState true k) l = [] := by
    intro l
    simp only [tableAt, initState, List.getD_eq_getElem?_getD,
      List.getElem?_replicate]
    split <;> rfl
  refine ⟨⟨rfl, by simp [initState], rfl, ?_, ?_, ?_, ?_, ?_, ?_, ?_⟩,
    ?_, ?_, ?_, ?_, ?_⟩
  · intro i n h
    rw [hget] at h
    cases h
  · intro l i h
    rw [htbl] at h
    cases h
  · intro i n h
    rw [hget] at h
    cases h
  · intro l
    rw [htbl]
    exact List.sorted_nil
  · intro i n h
    rw [hget] at h
    cases h
  · intro i n h
    rw [hget] at h
    cases h
  · intro i n p h
    rw [hget] at h
    cases h
  · show table19OK (initState true k)
    unfold table19OK
    rw [htbl]
    rfl
  · intro i n h
    rw [hget] at h
    cases h
  · intro i n h
    rw [hget] at h
    cases h
  · intro i n h
    rw [hget] at h
    cases h
  · intro i n h
    rw [hget] at h
    cases h

/-- Inserting a list of markers one by one preserves the boundary
invariant and grows the marker count by the list's length. -/
theorem runAddMarkers_inv (lat2y : ℚ → ℚ) :
    ∀ (coords : List (ℚ × ℚ)) (s : MarkerSetState), BInv s →
    ∀ s', runAddMarkers lat2y s coords = some s' →
    BInv s' ∧ s'.NumberOfMarkers = s.NumberOfMarkers + coords.length ∧
      s'.ClusterDistance = s.ClusterDistance := by
  intro coords
  induction coords with
  | nil =>
    intro s hB s' h
    cases h
    exact ⟨hB, by simp, rfl⟩
  | cons c rest ih =>
    intro s hB s' h
    obtain ⟨la, lo⟩ := c
    rw [runAddMarkers] at h
    cases haddm : addMarker lat2y s la lo with
    | none =>
      rw [haddm] at h
      cases h
    | some r =>
      rw [haddm] at h
      obtain ⟨mid, s1⟩ := r
      simp only at h
      obtain ⟨hB1, -, h1nm, h1cd⟩ :=
        addMarker_inv lat2y s la lo hB (mid, s1) haddm
      simp only at hB1 h1nm h1cd
      obtain ⟨hB2, h2nm, h2cd⟩ := ih s1 hB1 s' h
      refine ⟨hB2, ?_, h2cd.trans h1cd⟩
      rw [h2nm, h1nm]
      simp
      omega

/-- C10: with clustering enabled, after every successful sequence of N
`AddMarker` calls the finest level's (19) active set contains exactly N
nodes, one single-marker node per inserted marker carrying the original
marker ids 0..N-1 in insertion order — level-19 nodes are never merged
away, since proximity search and merging run only at levels 18 down
to 0. -/
theorem addMarker_level19_one_per_marker (lat2y : ℚ → ℚ) (k : ℚ)
    (coords : List (ℚ × ℚ)) (s' : MarkerSetState)
    (h : runAddMarkers lat2y (initState true k) coords = some s') :
    (tableAt s' 19).length = coords.length ∧
    (tableAt s' 19).map
        (fun i => (getNode s' i).map
          (fun n => (n.NumberOfMarkers, n.MarkerId))) =
      (List.range coords.length).map
        (fun j : ℕ => some ((1 : ℤ), (j : ℤ))) := by
  obtain ⟨hB, hnm, -⟩ :=
    runAddMarkers_inv lat2y coords (initState true k)
      (initState_BInv k) s' h
  have hnm2 : s'.NumberOfMarkers = coords.length := by
    rw [hnm]
    simp [initState]
  have ht19 : table19OK s' := hB.2.1
  unfold table19OK at ht19
  have h19 : NumberOfClusterLevels - 1 = 19 := rfl
  rw [h19, hnm2] at ht19
  refine ⟨?_, ht19⟩
  simpa using congrArg List.length ht19

theorem addMarker_level19_one_per_marker_witness :
    ∃ s', runAddMarkers (fun y => y) (initState true 2)
        [((1 : ℚ), (2 : ℚ))] = some s' ∧
      (tableAt s' 19).length = 1 ∧
      (tableAt s' 19).map
          (fun i => (getNode s' i).map
            (fun n => (n.NumberOfMarkers, n.MarkerId))) =
        [some ((1 : ℤ), (0 : ℤ))] := by
  have hs : (runAddMarkers (fun y => y) (initState true 2)
      [((1 : ℚ), (2 : ℚ))]).isSome = true := rfl
  cases hrun : runAddMarkers (fun y => y) (initState true 2)
      [((1 : ℚ), (2 : ℚ))] with
  | none =>
    rw [hrun] at hs
    simp at hs
  | some sW =>
    obtain ⟨h1, h2⟩ := addMarker_level19_one_per_marker (fun y => y) 2
      [((1 : ℚ), (2 : ℚ))] sW hrun
    refine ⟨sW, rfl, h1, ?_⟩
    simpa using h2

/-- C1: with clustering enabled, after a successful `AddMarker` sequence
every node registered in any level's active set whose children set is
non-empty has a marker count equal to the sum of its children's marker
counts and sits at the marker-count-weighted centroid of its children's
positions. -/
theorem addMarker_cluster_centroid (lat2y : ℚ → ℚ) (k : ℚ)
    (coords : List (ℚ × ℚ)) (s' : MarkerSetState)
    (h : runAddMarkers lat2y (initState true k) coords = some s')
    (l i : ℕ) (hi : i ∈ tableAt s' l) :
    ∃ n, getNode s' i = some n ∧
      (n.Children ≠ [] →
        n.NumberOfMarkers = childrenCountSum s' n.Children ∧
        n.gcsX = childrenMomentX s' n.Children / (n.NumberOfMarkers : ℚ) ∧
        n.gcsY = childrenMomentY s' n.Children /
          (n.NumberOfMarkers : ℚ)) := by
  obtain ⟨hB, -, -⟩ :=
    runAddMarkers_inv lat2y coords (initState true k)
      (initState_BInv k) s' h
  obtain ⟨hc, -, hok, hcpos, -, -⟩ := hB
  obtain ⟨n, hn, -⟩ := hc.tableLive l i hi
  refine ⟨n, hn, ?_⟩
  intro hch
  obtain ⟨h1, h2, h3⟩ := hok i n hn hch
  have hpos : (0 : ℚ) < (n.NumberOfMarkers : ℚ) := by
    have hge := hcpos i n hn
    exact_mod_cast hge
  have hcnt : (n.NumberOfMarkers : ℚ) ≠ 0 := ne_of_gt hpos
  refine ⟨h1, ?_, ?_⟩
  · rw [eq_div_iff hcnt]
    exact h2
  · rw [eq_div_iff hcnt]
    exact h3

theorem addMarker_cluster_centroid_witness :
    ∃ s' i n, runAddMarkers (fun y => y) (initState true 2)
        [((1 : ℚ), (2 : ℚ))] = some s' ∧
      i ∈ tableAt s' 19 ∧ getNode s' i = some n ∧
      (n.Children ≠ [] →
        n.NumberOfMarkers = childrenCountSum s' n.Children ∧
        n.gcsX = childrenMomentX s' n.Children / (n.NumberOfMarkers : ℚ) ∧
        n.gcsY = childrenMomentY s' n.Children /
          (n.NumberOfMarkers : ℚ)) := by
  have hs : (runAddMarkers (fun y => y) (initState true 2)
      [((1 : ℚ), (2 : ℚ))]).isSome = true := rfl
  cases hrun : runAddMarkers (fun y => y) (initState true 2)
      [((1 : ℚ), (2 : ℚ))] with
  | none =>
    rw [hrun] at hs
    simp at hs
  | some sW =>
    obtain ⟨hB, hnm, -⟩ :=
      runAddMarkers_inv (fun y => y) [((1 : ℚ), (2 : ℚ))]
        (initState true 2) (initState_BInv 2) sW hrun
    have hnm2 : sW.NumberOfMarkers = 1 := by
      rw [hnm]
      simp [initState]
    have ht19 : table19OK sW := hB.2.1
    unfold table19OK at ht19
    have h19 : NumberOfClusterLevels - 1 = 19 := rfl
    rw [h19, hnm2] at ht19
    have hlen : (tableAt sW 19).length = 1 := by
      simpa using congrArg List.length ht19
    cases htl : tableAt sW 19 with
    | nil =>
      rw [htl] at hlen
      cases hlen
    | cons a tl =>
      have hamem : a ∈ tableAt sW 19 := by
        rw [htl]
        exact List.mem_cons_self a tl
      obtain ⟨n, hn, hconc⟩ := addMarker_cluster_centroid (fun y => y) 2
        [((1 : ℚ), (2 : ℚ))] sW hrun 19 a hamem
      exact ⟨sW, a, n, rfl, hamem, hn, hconc⟩

end VtkMapMarkerSet
